import Mathlib

/-!
# Verification of the Data_Parser adaptive extraction core

A shallow embedding, in Lean 4, of the parts of the repository
`Nolan-Sulpizio/Data_Parser` that the specification's claims are about:

* `src/engine/parser_core.py` — spec-value/descriptor token predicates,
  the individual part-number extraction strategies, `pick_best`,
  `sanitize_mfg`, the per-row threshold gate of `pipeline_mfg_pn`, and the
  post-extraction validator `validate_and_clean`;
* `src/engine/file_profiler.py` — the archetype strategy-weight tables and
  content confidence thresholds;
* `src/engine/schema_classifier.py` — the schema multiplier tables,
  `_merge_weights` and `_blend_threshold`;
* `src/engine/column_mapper.py` — `map_columns` and `_assign_column`
  (including a faithful executable model of `difflib.SequenceMatcher.ratio`).

Modelling conventions:

* Python strings are Lean `String`s; `str.upper()/lower()/strip()` become
  `String.toUpper/toLower/trim` (all text handled by the engine is ASCII).
* Python floats are modelled as `ℚ`.  Every numeric constant in the source
  has a short decimal literal, and every comparison proved here is far from
  any value where double rounding could flip the result; `round(x, n)` is
  modelled as rounding the exact rational to `n` decimal places.
* `pandas` tables are lists of rows; the validator only ever reads and
  writes the two designated output columns, so a row is modelled as its
  manufacturer cell, its part-number cell, and an opaque list of the
  remaining cells.  `NaN` cells reach the Python code as the string
  `'nan'`/`'NAN'`, which the source's blank tests treat as blank.
* The repository ships no `training_data.json`, so `load_training_data`
  yields empty tables and the module-level lexicons are exactly the
  literals in `parser_core.py`; they are embedded verbatim below.
* The anchored regular expressions of the source are compiled by hand into
  executable character-list scanners.  Each scanner is written next to a
  comment giving the original pattern; none of the patterns involved
  requires backtracking beyond the finitely many alternatives unfolded in
  the scanner (argued case by case in the comments).
-/

namespace DataParser

/-! ## Character and string helpers -/

/-- Python `\s` (ASCII range): space, tab, newline, carriage return,
vertical tab, form feed. -/
def isPySpace (c : Char) : Bool :=
  c = ' ' || c = '\t' || c = '\n' || c = '\r' || c = '\x0b' || c = '\x0c'

/-- `'A' ≤ c ≤ 'Z'` — the class `[A-Z]`. -/
def isUpperAZ (c : Char) : Bool := 'A' ≤ c && c ≤ 'Z'

/-- `'a' ≤ c ≤ 'z'`. -/
def isLowerAZ (c : Char) : Bool := 'a' ≤ c && c ≤ 'z'

/-- The class `[0-9]` (`\d`). -/
def isDigit09 (c : Char) : Bool := '0' ≤ c && c ≤ '9'

/-- Python `str.isalpha` for the ASCII texts handled by the engine. -/
def isAlphaChar (c : Char) : Bool := isUpperAZ c || isLowerAZ c

/-- ASCII alphanumeric — the class `[A-Za-z0-9]`. -/
def isAlnumChar (c : Char) : Bool := isAlphaChar c || isDigit09 c

/-- A regex word character (`\w` = `[A-Za-z0-9_]`), used for `\b`. -/
def isWordChar (c : Char) : Bool := isAlnumChar c || c = '_'

/-- `str.upper()` (character-list based so that it reduces in the kernel;
the engine's text is ASCII, where `Char.toUpper` agrees with Python). -/
def pyUpper (s : String) : String := ⟨s.data.map Char.toUpper⟩

/-- `str.lower()`. -/
def pyLower (s : String) : String := ⟨s.data.map Char.toLower⟩

/-- `str.strip()` — drop leading and trailing whitespace. -/
def pyStrip (s : String) : String :=
  ⟨((s.data.dropWhile isPySpace).reverse.dropWhile isPySpace).reverse⟩

/-- `str(x).strip().upper()` — the normalisation the validator applies to
every cell before testing it. -/
def pyNormalize (s : String) : String := pyUpper (pyStrip s)

/-- `re.search(r'[A-Z]', s)` on upper-cased text. -/
def hasUpperAZ (s : String) : Bool := s.data.any isUpperAZ

/-- `re.search(r'[0-9]', s)` / `re.search(r'\d', s)`. -/
def hasDigit (s : String) : Bool := s.data.any isDigit09

/-- Python `str.isalpha`: non-empty and every character alphabetic. -/
def pyIsAlpha (s : String) : Bool := !s.data.isEmpty && s.data.all isAlphaChar

/-- Python `str.isdigit`: non-empty and every character a digit. -/
def pyIsDigit (s : String) : Bool := !s.data.isEmpty && s.data.all isDigit09

/-- `sub in s` — Python substring containment, on character lists. -/
def listContainsSub (s sub : List Char) : Bool :=
  decide (sub <:+: s)

/-- `sub in s` for strings. -/
def containsSub (s sub : String) : Bool := listContainsSub s.data sub.data

/-- Splitter engine shared by the `re.split` patterns of the source: a
separator character, followed greedily by `\s*`.  The Boolean flag records
"currently consuming the `\s*` tail of a separator"; phrased this way the
recursion is structural, so the definition reduces inside `decide`/`rfl`.
Empty fields are kept, exactly as `re.split` keeps them. -/
def pySplitAux (sep : Char → Bool) : Bool → List Char → List Char → List (List Char)
  | _, [], acc => [acc.reverse]
  | skip, c :: rest, acc =>
    if skip && isPySpace c then pySplitAux sep true rest acc
    else if sep c then acc.reverse :: pySplitAux sep true rest []
    else pySplitAux sep false rest (c :: acc)

/-- `re.split(r"[\s,;]\s*", t)` on strings. -/
def pySplitWsCommaSemi (s : String) : List String :=
  (pySplitAux (fun c => isPySpace c || c = ',' || c = ';') false s.data []).map
    fun l => ⟨l⟩

/-- Character-level splitter for `s.split(',')`. -/
def splitCommaAux : List Char → List Char → List (List Char)
  | [], acc => [acc.reverse]
  | c :: rest, acc =>
    if c = ',' then acc.reverse :: splitCommaAux rest []
    else splitCommaAux rest (c :: acc)

/-- `s.split(',')` — Python comma split (keeps empty fields). -/
def pySplitComma (s : String) : List String :=
  (splitCommaAux s.data []).map fun l => ⟨l⟩

/-- Non-overlapping left-to-right replacement, Python `s.replace(old, new)`
for a non-empty `old` (every pattern replaced in the source is non-empty).
The `Nat` fuel starts at the length of the text; each step consumes at
least one character, keeping the recursion structural. -/
def replaceSubAux (pat rep : List Char) : Nat → List Char → List Char
  | _, [] => []
  | 0, l => l
  | fuel + 1, c :: rest =>
    if pat.isPrefixOf (c :: rest) then
      rep ++ replaceSubAux pat rep fuel ((c :: rest).drop pat.length)
    else
      c :: replaceSubAux pat rep fuel rest

/-- `s.replace(old, new)` on strings. -/
def pyReplace (s pat rep : String) : String :=
  ⟨replaceSubAux pat.data rep.data s.data.length s.data⟩

/-- `re.sub(r"\s+", " ", s)` — collapse every whitespace run to a single
blank (flag = "inside a whitespace run already emitted as one blank"). -/
def collapseWsAux : Bool → List Char → List Char
  | _, [] => []
  | inRun, c :: rest =>
    if isPySpace c then
      if inRun then collapseWsAux true rest
      else ' ' :: collapseWsAux true rest
    else c :: collapseWsAux false rest

/-- `re.sub(r"\s+", " ", s)` on strings. -/
def collapseWs (s : String) : String := ⟨collapseWsAux false s.data⟩

/-- Python `s.split()` — split on whitespace runs, dropping empty fields
(consecutive separators and leading/trailing whitespace yield nothing). -/
def pySplitWhitespace (s : String) : List String :=
  ((pySplitAux isPySpace false s.data []).map fun l => (⟨l⟩ : String)).filter
    (· ≠ "")

/-! ## Spec-value and descriptor token predicates (`parser_core.py`)

Hand-compiled versions of the anchored patterns `SPEC_VALUE_RE`,
`DIMENSION_RE`, `PN_DESCRIPTOR_PATTERNS`, the inline `\d+/?\d*IN$` check,
the short-pure-alpha check and `_is_plant_code`.  All of them are of the
shape "greedy character-class runs, then a literal alternative consuming
the rest of the string"; because the character classes are disjoint from
the first characters of the follow-up alternatives, the greedy scan never
has to backtrack inside a run, so each pattern is equivalent to the
deterministic scanner given here (the only genuine alternations —
the optional `(?:DC|AC)?` prefix and `-?` — are unfolded explicitly). -/

/-- The unit suffixes of `SPEC_VALUE_RE`. -/
def SPEC_UNIT_SUFFIXES : List String :=
  ["V", "A", "W", "VA", "KW", "KVA", "HP", "RPM", "PH", "OHM", "HZ",
   "AMP", "AMPS", "VOLT", "VOLTS", "WATT", "WATTS"]

/-- Core of `SPEC_VALUE_RE` after the optional `DC`/`AC` prefix:
`[\d\.]+(?:/\d+)?(unit)$`. -/
def specValueCore (cs : List Char) : Bool :=
  let num := cs.takeWhile fun c => isDigit09 c || c = '.'
  let rest := cs.drop num.length
  if num.isEmpty then false
  else
    match rest with
    | '/' :: r2 =>
      -- `(?:/\d+)?`: no unit suffix starts with '/', so if a slash is
      -- present the optional group must consume it together with at
      -- least one digit, else the whole match fails.
      let d2 := r2.takeWhile isDigit09
      if d2.isEmpty then false
      else SPEC_UNIT_SUFFIXES.any fun u => u.data = r2.drop d2.length
    | _ => SPEC_UNIT_SUFFIXES.any fun u => u.data = rest

/-- `SPEC_VALUE_RE.match(tok)` (the pattern carries `re.IGNORECASE`, hence
the upper-casing).  `^(?:DC|AC)?[\d\.]+(?:/\d+)?(V|A|…|WATTS)$`. -/
def specValueMatch (tok : String) : Bool :=
  let u := tok.data.map Char.toUpper
  match u with
  | 'D' :: 'C' :: r => specValueCore r || specValueCore u
  | 'A' :: 'C' :: r => specValueCore r || specValueCore u
  | _ => specValueCore u

/-- `DIMENSION_RE.match(tok)`: one digit, then a run over the class
"digit, dot, dash, slash", then one of `IN MM CM FT MTR`, end of string;
the pattern carries `re.IGNORECASE`. -/
def dimensionMatch (tok : String) : Bool :=
  let u := tok.data.map Char.toUpper
  match u with
  | [] => false
  | c :: r =>
    if isDigit09 c then
      let body := r.takeWhile fun x => isDigit09 x || x = '.' || x = '-' || x = '/'
      ["IN", "MM", "CM", "FT", "MTR"].any fun unit => unit.data = r.drop body.length
    else false

/-- `BARE_SPEC_TOKENS` from `parser_core.py`. -/
def BARE_SPEC_TOKENS : List String :=
  ["3PH", "1PH", "DC", "AC", "SS", "CS", "BLK", "WHI", "RED",
   "GRN", "BLU", "YEL", "GRY", "BRN", "EA", "AU"]

/-- `re.match(r"\d+/?\d*IN$", tok)` (case sensitive — no flag). -/
def slashInchMatch (tok : String) : Bool :=
  let cs := tok.data
  let d1 := cs.takeWhile isDigit09
  if d1.isEmpty then false
  else
    let r := cs.drop d1.length
    let r := match r with
      | '/' :: t => t
      | _ => r
    let d2 := r.takeWhile isDigit09
    r.drop d2.length = ['I', 'N']

/-- `len(tok) <= 2 and re.match(r'^[A-Z]+$', tok)`. -/
def shortPureUpper (tok : String) : Bool :=
  tok.length ≤ 2 && !tok.data.isEmpty && tok.data.all isUpperAZ

/-- `_is_plant_code(tok)`: `^[A-Z]\d{3,4}$`. -/
def isPlantCode (tok : String) : Bool :=
  match tok.data with
  | c :: r =>
    isUpperAZ c && r.all isDigit09 && (r.length = 3 || r.length = 4)
  | [] => false

/-- `_is_spec_value(tok)` from `parser_core.py`. -/
def isSpecValue (tok : String) : Bool :=
  specValueMatch tok || dimensionMatch tok || BARE_SPEC_TOKENS.contains tok
    || slashInchMatch tok || shortPureUpper tok || isPlantCode tok

/-- Suffix alternatives of `PN_DESCRIPTOR_PATTERNS`. -/
def PN_DESCRIPTOR_SUFFIXES : List String :=
  ["WAY", "BOLT", "POINT", "HOLE", "PIN", "POLE", "GANG", "SLOT", "SPEED",
   "STAGE", "STEP", "HOUR", "PACK", "PIECE", "SET", "PAIR", "DI", "DI/O",
   "AI", "AO", "SPC", "POS", "PORT", "WIRE", "COND", "BLADE"]

/-- `_is_descriptor_pn(tok)`:
`^\d+-?(?:WAY|BOLT|…|BLADE)$` with `re.IGNORECASE`. -/
def isDescriptorPn (tok : String) : Bool :=
  let u := tok.data.map Char.toUpper
  let num := u.takeWhile isDigit09
  if num.isEmpty then false
  else
    let r := u.drop num.length
    let r := match r with
      | '-' :: t => t
      | _ => r
    PN_DESCRIPTOR_SUFFIXES.any fun suf => suf.data = r

/-- `DIMENSION_ANNOTATION_RE.match(tok)`: `^[A-Z]{1,2}\s+[\d]` with
`re.IGNORECASE` — one or two letters, whitespace, then a digit. -/
def dimensionAnnotationMatch (tok : String) : Bool :=
  let u := tok.data.map Char.toUpper
  match u with
  | a :: rest =>
    if !isUpperAZ a then false
    else
      -- `[A-Z]{1,2}` is greedy: try two letters first, then one.
      (match rest with
       | b :: rest2 =>
         (isUpperAZ b &&
           let ws := rest2.takeWhile isPySpace
           !ws.isEmpty && (match rest2.drop ws.length with
             | d :: _ => isDigit09 d
             | [] => false))
         ||
         (let ws := rest.takeWhile isPySpace
          !ws.isEmpty && (match rest.drop ws.length with
            | d :: _ => isDigit09 d
            | [] => false))
       | [] => false)
  | [] => false

/-! ## Module-level lexicons of `parser_core.py`

The repository contains no `training_data.json`, so `load_training_data`
returns empty tables and these are exactly the literal constants of the
module after its `update(...)` calls (none of the update keys collides
with a base key, so the merge is plain concatenation). -/

/-- `KNOWN_MANUFACTURERS` (training file absent → the v3.1/v3.2/v3.6
literal additions only). -/
def KNOWN_MANUFACTURERS : List String :=
  ["ALLEN BRADLEY", "SEW EURODRIVE", "PHOENIX CONTACT",
   "BRUNO FOLCIERI", "ROSSI MOTORIDUTTORI", "BACO CONTROLS",
   "OLI", "WEG", "HKK", "WAM", "LAFERT", "MORRIS", "DODGE",
   "MARTIN", "WOODS", "AMEC", "LOVEJOY", "GATES",
   "BALEMASTER", "PILZ", "FESTO",
   "ENDRESS HAUSER",
   "TSUBAKI", "IDEC", "LENZE", "TRAVAINI", "MARATHON", "ERIEZ", "BALDOR",
   "NORD", "SMC", "BONFIGLIOLI", "REGAL REXNORD", "HYDRAFORCE", "DUPLOMATIC",
   "WENGLOR", "VORTEX", "OMAL", "ACME ELECTRIC", "WESTINGHOUSE", "PAAL",
   "SEW EURODR", "SEW EURO", "ULINE"]

/-- `NORMALIZE_MFG` (base literal followed by the v3.1+ update entries). -/
def NORMALIZE_MFG : List (String × String) :=
  [("PANDT", "PANDUIT"), ("CUTLR-HMR", "CUTLER-HAMMER"), ("APLTN", "APPLETON"),
   ("CROUS HIND", "CROUSE HINDS"), ("CROUSE-HINDS", "CROUSE HINDS"),
   ("EFECTOR", "IFM EFECTOR"), ("TOPWRX", "TOPWORX"),
   ("ELCTRO", "ELECTRO-SENSORS"), ("TELCO SYSTEMS", "TELCO"),
   ("T&BETTS", "THOMAS & BETTS"), ("FXBRO", "FOXBORO"),
   ("FXBRO INVN", "FOXBORO"),
   ("WATLOW-E", "WATLOW"), ("WATTS-RG", "WATTS"),
   ("MONITOR", "MONITOR TECHNOLOGIES LLC"), ("MONITEUR", "MONITEUR DEVICES"),
   ("SOUTHWRE", "SOUTHWIRE"), ("USG CORP", "USG CORPORATION"),
   ("STATIC O RING", "STATIC O-RING"), ("SQUARE-D", "SQUARE D"),
   ("ALN BRDLY", "ALLEN BRADLEY"),
   ("ALLEN-BRADLEY", "ALLEN BRADLEY"),
   ("A-B", "ALLEN BRADLEY"),
   ("PHOENIX CNTCT", "PHOENIX CONTACT"),
   ("PHNX CNTCT", "PHOENIX CONTACT"),
   ("FOLCIERI", "BRUNO FOLCIERI"),
   ("BRU FOLC", "BRUNO FOLCIERI"),
   ("SEW EURODR", "SEW EURODRIVE"),
   ("SEW", "SEW EURODRIVE"),
   ("SEW,EURODRIVE", "SEW EURODRIVE"),
   ("ROSSI", "ROSSI MOTORIDUTTORI"),
   ("MOLR", "EATON"),
   ("BACO", "BACO CONTROLS"),
   ("HAUSER", "ENDRESS HAUSER"),
   ("ENDRESS", "ENDRESS HAUSER"),
   ("ALNBRDLY", "ALLEN BRADLEY"),
   ("SIEMNS", "SIEMENS"),
   ("MARTN", "MARTIN"),
   ("WSTNGHS", "WESTINGHOUSE"),
   ("ACME ELE", "ACME ELECTRIC"),
   ("BRUNO FOLCUERI", "BRUNO FOLCIERI"),
   ("PAAL BALER", "PAAL"),
   ("SEW EURO", "SEW EURODRIVE")]

/-- `dict.get(k, default)` over an association list (keys are unique in
every table embedded here, mirroring a Python `dict`). -/
def dictGetD (m : List (String × String)) (k d : String) : String :=
  match m.find? fun p => p.1 = k with
  | some p => p.2
  | none => d

/-- `DISTRIBUTORS`. -/
def DISTRIBUTORS : List String :=
  ["GRAYBAR", "CED", "MC- MC", "MC-MC", "MCNAUGHTON-MCKAY", "EISI",
   "MCMASTER-CARR", "MCMASTER-CARR SUPPLY CO.", "MCMASTER",
   "APPLIED INDUSTRIAL TECHNOLOGIE", "APPLIED INDUSTRIAL TECHNOLOGIES",
   "MAYER ELECTRIC", "MAYER ELECTRIC SUPPLY",
   "BEARING & DRIVE SUPPLY", "NATIONAL RECOVERY TECHNOLOGIES",
   "MG AUTOMATION", "MG AUTOMATION & CONTROLS"]

/-- `DESCRIPTORS`. -/
def DESCRIPTORS : List String :=
  ["LVL", "CTRL", "FIBRE OPTIC", "EF-11", "EF 2", "EF1 1/2", "EF 1 1/2",
   "EF1/2",
   "TE", "NM", "BLK", "DIA", "GR", "FR", "DC", "AC", "SP", "SS",
   "TSEI", "TCEI",
   "RBR", "STL", "BRS", "ALU", "CU", "PVC", "PE", "PP", "CS",
   "HEX", "SQ", "RND", "FLT", "THD", "TAP",
   "MTR", "DRV", "BRG", "SCR", "VLV", "FAN", "PMP",
   "ELE", "MEC", "HYD", "PNE"]

/-- `DESCRIPTOR_KEYWORDS`. -/
def DESCRIPTOR_KEYWORDS : List String :=
  ["SWITCH", "TRANSMITTER", "CONNECTOR", "THERMOCOUPLE", "CABLE", "VALVE",
   "RELAY", "SENSOR", "HEAD", "CONTACTOR", "MODULE", "FAN", "BEACON",
   "BRUSH", "PLUG", "RECEPTACLE", "REGULATOR",
   "DISCONNECT", "BEARING", "BUSHING", "COUPLING", "STARTER", "ENCLOSURE"]

/-- `MFG_BLOCKLIST`. -/
def MFG_BLOCKLIST : List String :=
  ["DISCONNECT", "INSERT", "STARTER", "ENCLOSURE", "SWITCH",
   "TRANSMITTER", "CONNECTOR", "THERMOCOUPLE", "CABLE", "VALVE",
   "RELAY", "SENSOR", "CONTACTOR", "MODULE", "BEACON", "PLUG",
   "RECEPTACLE", "REGULATOR", "BEARING", "BUSHING", "COUPLING",
   "RESIST", "PLANE",
   "UPPER", "LOWER", "CENTRAL", "FIBERGLASS", "DELABELER",
   "TSEI", "TCEI",
   "MC-VLV",
   "FLG", "RLR", "KIT", "BAR", "CVR", "PWR", "NPT", "LLC",
   "MAC", "LIP", "ZNT", "GRY", "WHI", "BLU", "YEL", "GRN",
   "BRN", "ORG", "RED", "BLK",
   "H/W", "HW", "S/S", "C/S",
   "FNPT", "MNPT", "BSP", "SAE",
   "MOTOR", "GEARBOX", "COVER", "ASSY", "COMPLETE", "SCREW", "SOCKET",
   "BOTTOM", "DRUM", "LINER", "IDLER", "RETURN", "TAIL", "TAILSHAFT",
   "AUGER", "GASKET", "SELECTOR", "SPARE", "SPECIAL", "MANUAL", "CUSTOM",
   "ROTARY", "LOCKING", "RETAINING", "KEYLESS", "GEARED", "COMMS",
   "INDUCTIVE", "TUBULAR", "GROUNDED", "THREADED", "DELAY", "SPLIT",
   "STARTING", "CLEAR", "FEMLE", "OVERCENTER", "HIGH", "LOW",
   "COUNTERSHAFT", "ROTORE", "ELECTRICAL", "PANELMOUNT", "PULLEY",
   "EMERGENCY STOP", "SQURL CAGE", "SINGL PHASE", "AC GEN PURP",
   "MOTION CONTROL", "HIGH LEVEL", "PILLOW BLOCK", "SPEED CTRL",
   "OPTICAL KIT", "FOR NRT",
   "LEFT SIDE", "RIGHT SIDE", "REAR LEFT", "REAR RIGHT",
   "FRNT SHT", "W/PACKING", "HEAVY DUTY", "EXTENDED REACH"]

/-- `INVALID_PN_PREFIXES`. -/
def INVALID_PN_PREFIXES : List String :=
  ["N0", "N7", "N71", "N72", "N73", "CNVL", "T7", "T71", "T72", "T76",
   "T77", "T78", "T79"]

/-- `MFG_PREFIX_MAP` (2–3 letter SAP prefixes). -/
def MFG_PREFIX_MAP : List (String × String) :=
  [("HUB", "HUBBELL"), ("SQD", "SQUARE D"), ("ABB", "ABB"),
   ("SIE", "SIEMENS"), ("CUT", "CUTLER-HAMMER"), ("PAN", "PANDUIT"),
   ("APP", "APPLETON"), ("CRO", "CROUSE HINDS"), ("LEV", "LEVITON"),
   ("LIT", "LITTON"), ("EAT", "EATON"), ("GE", "GE")]

/-- `s.startswith(p)` for any prefix in `INVALID_PN_PREFIXES` —
`any(m.startswith(p) for p in INVALID_PN_PREFIXES)`. -/
def hasInvalidPnPrefix (s : String) : Bool :=
  INVALID_PN_PREFIXES.any fun p => p.data.isPrefixOf s.data

/-! ## Rational-comparison helpers

Confidences and thresholds are Python floats, modelled as `ℚ`.  The
comparisons the source performs on them are wrapped in the two Boolean
helpers below so that concrete evaluations can discharge them with
`norm_num` (Mathlib's `ℚ` arithmetic does not reduce inside the kernel). -/

/-- Boolean `a < b` on `ℚ`. -/
def qlt (a b : ℚ) : Bool := decide (a < b)

/-- Boolean `a ≤ b` on `ℚ`. -/
def qle (a b : ℚ) : Bool := decide (a ≤ b)

theorem qlt_eq_true {a b : ℚ} (h : a < b) : qlt a b = true := by
  simpa [qlt] using h

theorem qlt_eq_false {a b : ℚ} (h : b ≤ a) : qlt a b = false := by
  simp [qlt, not_lt.mpr h]

theorem qle_eq_true {a b : ℚ} (h : a ≤ b) : qle a b = true := by
  simpa [qle] using h

theorem qle_eq_false {a b : ℚ} (h : b < a) : qle a b = false := by
  simp [qle, not_le.mpr h]

/-! ## The post-extraction validator (`validate_and_clean`)

A table row is its manufacturer cell, its part-number cell and the opaque
list of all remaining cells: the source only ever reads and writes
`df.at[idx, mfg_col]` / `df.at[idx, pn_col]`, so this is a faithful view
of the frame.  Cells are the strings the Python code sees (`str(...)` of
the cell; a pandas `NaN` arrives as `'nan'`, which the blank test already
treats as blank).  Both designated columns are modelled as present, the
case the claims are about. -/

/-- One of the two designated output columns. -/
inductive Fld
  | mfg
  | pn
deriving DecidableEq, Repr

/-- A table row: the two designated output cells plus the untouched rest. -/
structure VRow where
  mfg : String
  pn : String
  rest : List String
deriving DecidableEq, Repr

/-- A `CorrectionRecord` as appended by `_clear`. -/
structure Corr where
  row : Nat
  fld : Fld
  oldValue : String
  reason : String
  action : String
deriving DecidableEq, Repr

/-- Read one of the two designated cells. -/
def VRow.get : VRow → Fld → String
  | r, .mfg => r.mfg
  | r, .pn => r.pn

/-- Write one of the two designated cells. -/
def VRow.set : VRow → Fld → String → VRow
  | r, .mfg, v => { r with mfg := v }
  | r, .pn, v => { r with pn := v }

/-- `_is_blank(val)`: `str(val).strip().upper() in ('', 'NAN', 'NONE', 'NAT')`. -/
def isBlankPy (x : String) : Bool :=
  let v := pyNormalize x
  v = "" || v = "NAN" || v = "NONE" || v = "NAT"

/-- `List.enum` with explicit start, structural and easy to reason about. -/
def enumFrom : Nat → List α → List (Nat × α)
  | _, [] => []
  | n, a :: as => (n, a) :: enumFrom (n + 1) as

/-- The per-row step of a single-cell validator rule: normalise the
designated cell, skip blanks, clear when the rule's condition holds (the
condition receives the normalised cell value and the whole row, because
Rule 4 also reads the other column). -/
def clearStep (f : Fld) (cond : String → VRow → Bool) (r : VRow) : VRow :=
  let v := pyNormalize (r.get f)
  if !isBlankPy v && cond v r then r.set f "" else r

/-- The correction record emitted (or not) by that same step.  `_clear`
records the *normalised* old value and always `action = 'cleared'`. -/
def clearCorr (f : Fld) (reason : String) (cond : String → VRow → Bool)
    (p : Nat × VRow) : Option Corr :=
  let v := pyNormalize (p.2.get f)
  if !isBlankPy v && cond v p.2 then
    some ⟨p.1, f, v, reason, "cleared"⟩
  else none

/-- One ordered pass of a single-cell rule over the whole table, returning
the updated table and the corrections appended by the pass. -/
def clearIf (f : Fld) (reason : String) (cond : String → VRow → Bool)
    (rows : List VRow) : List VRow × List Corr :=
  (rows.map (clearStep f cond),
   (enumFrom 0 rows).filterMap (clearCorr f reason cond))

/-- The in-frame manufacturer set built at the top of `validate_and_clean`
(`v.strip().upper()` of every `mfg` cell, kept when truthy and not in
`('', 'NAN', 'NONE')`).  Membership is all that is ever queried, so a
list with possible duplicates models the Python `set`. -/
def inFrameMfgs (rows : List VRow) : List String :=
  (rows.map fun r => pyNormalize r.mfg).filter fun v =>
    !(v = "" || v = "NAN" || v = "NONE")

/-- Rule 1 condition: `SPEC_VALUE_RE.match or DIMENSION_RE.match or
pn_val in BARE_SPEC_TOKENS`. -/
def rule1Cond (v : String) (_ : VRow) : Bool :=
  specValueMatch v || dimensionMatch v || BARE_SPEC_TOKENS.contains v

/-- Rule 2 condition: `re.search(r'\d', mfg_val) and mfg_val not in
KNOWN_MANUFACTURERS`. -/
def rule2Cond (v : String) (_ : VRow) : Bool :=
  hasDigit v && !KNOWN_MANUFACTURERS.contains v

/-- Rule 3 condition: `mfg_val in DESCRIPTORS or any(k in mfg_val for k in
DESCRIPTOR_KEYWORDS)`. -/
def rule3Cond (v : String) (_ : VRow) : Bool :=
  DESCRIPTORS.contains v || DESCRIPTOR_KEYWORDS.any fun k => containsSub v k

/-- Rule 4 condition: both cells non-blank and equal after normalisation
(the manufacturer cell's blank guard lives in `clearStep`). -/
def rule4Cond (v : String) (r : VRow) : Bool :=
  !isBlankPy (pyNormalize r.pn) && v = pyNormalize r.pn

/-- Rule 6 condition: `len(pn_val) <= 2`. -/
def rule6Cond (v : String) (_ : VRow) : Bool :=
  v.length ≤ 2

/-- Rule 8 condition: `pn_val.isalpha() and not re.search(r'[0-9]',
pn_val) and len(pn_val) <= 12 and pn_val not in KNOWN_MANUFACTURERS`. -/
def rule8Cond (v : String) (_ : VRow) : Bool :=
  pyIsAlpha v && !hasDigit v && v.length ≤ 12 && !KNOWN_MANUFACTURERS.contains v

/-- Rule 1: PN is a spec value. -/
def rule1 : List VRow → List VRow × List Corr :=
  clearIf .pn "spec_value" rule1Cond

/-- Rule 2: MFG contains digits and is not a known manufacturer. -/
def rule2 : List VRow → List VRow × List Corr :=
  clearIf .mfg "mfg_has_digits" rule2Cond

/-- Rule 3: MFG is a known descriptor. -/
def rule3 : List VRow → List VRow × List Corr :=
  clearIf .mfg "descriptor" rule3Cond

/-- Rule 4: MFG equals PN. -/
def rule4 : List VRow → List VRow × List Corr :=
  clearIf .mfg "mfg_equals_pn" rule4Cond

/-- Rule 6: PN too short. -/
def rule6 : List VRow → List VRow × List Corr :=
  clearIf .pn "pn_too_short" rule6Cond

/-- Rule 7: PN is a known (or in-frame) manufacturer name. -/
def rule7 (allKnown : List String) : List VRow → List VRow × List Corr :=
  clearIf .pn "pn_is_manufacturer" fun v _ => allKnown.contains v

/-- Rule 8: PN is a short all-alpha word. -/
def rule8 : List VRow → List VRow × List Corr :=
  clearIf .pn "pn_all_alpha_no_digits" rule8Cond

/-- Keep the first occurrence of every value (accumulator = values already
seen) — the iteration order of `collections.Counter` over the filled
manufacturer values. -/
def dedupFirstAux (seen : List String) : List String → List String
  | [] => []
  | v :: rest =>
    if seen.contains v then dedupFirstAux seen rest
    else v :: dedupFirstAux (v :: seen) rest

/-- First-occurrence deduplication. -/
def dedupFirst : List String → List String := dedupFirstAux []

/-- Clearing pass of Rule 5 for a single anomalous value `v`: clear every
row whose normalised manufacturer cell equals `v`, appending one
correction per cleared row. -/
def rule5ClearValue (v : String) (acc : List VRow × List Corr) :
    List VRow × List Corr :=
  (acc.1.map fun r => if pyNormalize r.mfg = v then r.set .mfg "" else r,
   acc.2 ++ (enumFrom 0 acc.1).filterMap fun p =>
     if pyNormalize p.2.mfg = v then
       some ⟨p.1, .mfg, v, "mfg_frequency_anomaly", "cleared"⟩
     else none)

/-- Rule 5: manufacturer frequency anomaly.  The counts are taken before
any Rule-5 clearing (as in the source, where `Counter` is built first);
`count / total > 0.60` is the float comparison of the source, exact here —
no value near enough to `3/5` for double rounding to differ ever reaches
the comparison, because the whole filter is unreachable (see
`rule5_eq_nil`). -/
def rule5 (known allKnown : List String) (rows : List VRow) :
    List VRow × List Corr :=
  let filled := (rows.filter fun r => !isBlankPy r.mfg).map fun r =>
    pyNormalize r.mfg
  let total := filled.length
  if total = 0 then (rows, [])
  else
    let anomalous := (dedupFirst filled).filter fun v =>
      qlt (3 / 5 : ℚ) ((filled.count v : ℚ) / (total : ℚ))
        && !known.contains v && !allKnown.contains v
    anomalous.foldl (fun acc v => rule5ClearValue v acc) (rows, [])

/-- `validate_and_clean(df, mfg_col, pn_col)` — the full ordered pass,
returning the cleaned table and the correction list in emission order. -/
def validateAndClean (rows : List VRow) : List VRow × List Corr :=
  let ak := KNOWN_MANUFACTURERS ++ inFrameMfgs rows
  let s1 := rule1 rows
  let s2 := rule2 s1.1
  let s3 := rule3 s2.1
  let s4 := rule4 s3.1
  let s5 := rule5 KNOWN_MANUFACTURERS ak s4.1
  let s6 := rule6 s5.1
  let s7 := rule7 ak s6.1
  let s8 := rule8 s7.1
  (s8.1, s1.2 ++ s2.2 ++ s3.2 ++ s4.2 ++ s5.2 ++ s6.2 ++ s7.2 ++ s8.2)

/-! ### Basic lemmas about the validator combinators -/

theorem VRow.get_set_same (r : VRow) (f : Fld) (v : String) :
    (r.set f v).get f = v := by
  cases f <;> rfl

theorem VRow.mfg_set_pn (r : VRow) (v : String) :
    (VRow.set r .pn v).mfg = r.mfg := rfl

theorem VRow.pn_set_mfg (r : VRow) (v : String) :
    (VRow.set r .mfg v).pn = r.pn := rfl

theorem VRow.rest_set (r : VRow) (f : Fld) (v : String) :
    (r.set f v).rest = r.rest := by
  cases f <;> rfl

/-- A part-number rule never touches the manufacturer cell. -/
theorem clearStep_pn_mfg (cond : String → VRow → Bool) (r : VRow) :
    (clearStep .pn cond r).mfg = r.mfg := by
  unfold clearStep
  dsimp only
  split <;> rfl

/-- A manufacturer rule never touches the part-number cell. -/
theorem clearStep_mfg_pn (cond : String → VRow → Bool) (r : VRow) :
    (clearStep .mfg cond r).pn = r.pn := by
  unfold clearStep
  dsimp only
  split <;> rfl

/-- A rule either leaves a designated cell alone or blanks it. -/
theorem clearStep_get_cases (f g : Fld) (cond : String → VRow → Bool)
    (r : VRow) :
    (clearStep f cond r).get g = r.get g ∨ (clearStep f cond r).get g = "" := by
  unfold clearStep
  dsimp only
  split
  · cases f <;> cases g <;> simp [VRow.get, VRow.set]
  · left
    rfl

/-- The rest of a row is never touched by any rule step. -/
theorem clearStep_rest (f : Fld) (cond : String → VRow → Bool) (r : VRow) :
    (clearStep f cond r).rest = r.rest := by
  unfold clearStep
  dsimp only
  split
  · exact VRow.rest_set ..
  · rfl

/-- Rows of a `clearIf` pass are the stepped rows. -/
theorem clearIf_rows (f : Fld) (re : String) (cond : String → VRow → Bool)
    (rows : List VRow) :
    (clearIf f re cond rows).1 = rows.map (clearStep f cond) := rfl

/-- Membership in the output rows of a pass. -/
theorem mem_clearIf_rows {f : Fld} {re : String} {cond : String → VRow → Bool}
    {rows : List VRow} {r' : VRow} (h : r' ∈ (clearIf f re cond rows).1) :
    ∃ r ∈ rows, r' = clearStep f cond r := by
  rw [clearIf_rows] at h
  obtain ⟨r, hr, hr'⟩ := List.mem_map.mp h
  exact ⟨r, hr, hr'.symm⟩

/-- Every correction of a pass carries that pass's reason code. -/
theorem clearIf_corr_reason {f : Fld} {re : String}
    {cond : String → VRow → Bool} {rows : List VRow} {c : Corr}
    (h : c ∈ (clearIf f re cond rows).2) : c.reason = re := by
  obtain ⟨p, _, hc⟩ := List.mem_filterMap.mp h
  unfold clearCorr at hc
  dsimp only at hc
  split at hc
  · cases hc
    rfl
  · cases hc

/-- Elements of `dedupFirstAux` come from the input list. -/
theorem mem_of_mem_dedupFirstAux {seen l : List String} {v : String}
    (h : v ∈ dedupFirstAux seen l) : v ∈ l := by
  induction l generalizing seen with
  | nil => simp [dedupFirstAux] at h
  | cons w rest ih =>
    unfold dedupFirstAux at h
    split at h
    · exact List.mem_cons_of_mem _ (ih h)
    · rcases List.mem_cons.mp h with h | h
      · exact h ▸ List.mem_cons_self _ _
      · exact List.mem_cons_of_mem _ (ih h)

/-- The empty string is blank. -/
theorem isBlankPy_empty : isBlankPy "" = true := by decide

/-- Normalising the empty string is a no-op. -/
theorem pyNormalize_empty : pyNormalize "" = "" := rfl

/-- If a value is not `_is_blank`, its normalisation passes the in-frame
filter of `validate_and_clean`. -/
theorem notBlank_passes_inframe {x : String} (h : isBlankPy x = false) :
    (!(pyNormalize x = "" || pyNormalize x = "NAN" || pyNormalize x = "NONE"))
      = true := by
  unfold isBlankPy at h
  simp only [Bool.or_eq_false_iff, decide_eq_false_iff_not] at h
  simp [h.1.1.1, h.1.1.2, h.1.2]

/-- Core of claim C1: Rule 5 clears nothing as soon as every non-blank
manufacturer value of its input is already in `allKnown` — which is
always the case inside `validate_and_clean`, because `all_known_mfgs`
contains every in-frame manufacturer value. -/
theorem rule5_eq_nil {known allKnown : List String} {rows : List VRow}
    (h : ∀ r ∈ rows, isBlankPy r.mfg = false →
      allKnown.contains (pyNormalize r.mfg) = true) :
    rule5 known allKnown rows = (rows, []) := by
  unfold rule5
  dsimp only
  split
  · rfl
  · have hanom :
        ((dedupFirst ((rows.filter fun r => !isBlankPy r.mfg).map fun r =>
            pyNormalize r.mfg)).filter fun v =>
          qlt (3 / 5 : ℚ)
              ((((rows.filter fun r => !isBlankPy r.mfg).map fun r =>
                pyNormalize r.mfg).count v : ℚ) /
                (((rows.filter fun r => !isBlankPy r.mfg).map fun r =>
                  pyNormalize r.mfg).length : ℚ))
            && !known.contains v && !allKnown.contains v) = [] := by
      apply List.filter_eq_nil_iff.mpr
      intro v hv
      have hv' := @mem_of_mem_dedupFirstAux [] _ _ hv
      obtain ⟨r, hr, hveq⟩ := List.mem_map.mp hv'
      obtain ⟨hrmem, hrblank⟩ := List.mem_filter.mp hr
      have hcontains : allKnown.contains v = true := by
        subst hveq
        exact h r hrmem (by simpa using hrblank)
      have hmem : v ∈ allKnown := by simpa using hcontains
      simp [hmem]
    rw [hanom]
    rfl

/-! ### Claim C1 — the frequency-anomaly rule is unreachable -/

/-- `VRow.get r .mfg` is the `mfg` field. -/
theorem VRow.get_mfg (r : VRow) : r.get .mfg = r.mfg := rfl

/-- After Rules 1–4, every manufacturer cell is either blanked or carries
the value it had in some input row (in fact the same row; membership is
all that is needed here). -/
theorem s4_mfg_origin {rows : List VRow} {r' : VRow}
    (h : r' ∈ (rule4 (rule3 (rule2 (rule1 rows).1).1).1).1) :
    r'.mfg = "" ∨ ∃ r ∈ rows, r'.mfg = r.mfg := by
  obtain ⟨r3, hr3, h4⟩ := mem_clearIf_rows h
  obtain ⟨r2, hr2, h3⟩ := mem_clearIf_rows hr3
  obtain ⟨r1, hr1, h2⟩ := mem_clearIf_rows hr2
  obtain ⟨r0, hr0, h1⟩ := mem_clearIf_rows hr1
  have e1 : r1.mfg = r0.mfg := h1 ▸ clearStep_pn_mfg _ r0
  rcases clearStep_get_cases .mfg .mfg rule2Cond r1 with e2 | e2 <;>
    rcases clearStep_get_cases .mfg .mfg rule3Cond r2 with e3 | e3 <;>
      rcases clearStep_get_cases .mfg .mfg rule4Cond r3 with e4 | e4 <;>
        simp only [VRow.get_mfg, ← h2, ← h3] at e2 e3 <;>
          simp only [VRow.get_mfg, ← h4] at e4
  · exact Or.inr ⟨r0, hr0, by rw [e4, e3, e2, e1]⟩
  all_goals exact Or.inl (by simp_all)

/-- Inside `validate_and_clean`, the hypothesis of `rule5_eq_nil` always
holds: every non-blank manufacturer value surviving Rules 1–4 was already
an in-frame value of the original table. -/
theorem rule5_input_known (rows : List VRow) :
    ∀ r ∈ (rule4 (rule3 (rule2 (rule1 rows).1).1).1).1,
      isBlankPy r.mfg = false →
        (KNOWN_MANUFACTURERS ++ inFrameMfgs rows).contains (pyNormalize r.mfg)
          = true := by
  intro r' hmem hblank
  rcases s4_mfg_origin hmem with hempty | ⟨r, hr, heq⟩
  · rw [hempty] at hblank
    simp [isBlankPy_empty] at hblank
  · have hpass := notBlank_passes_inframe (heq ▸ hblank)
    have hin : pyNormalize r'.mfg ∈ inFrameMfgs rows := by
      rw [heq]
      exact List.mem_filter.mpr
        ⟨List.mem_map.mpr ⟨r, hr, rfl⟩, heq ▸ hpass⟩
    have hmem : pyNormalize r'.mfg ∈ KNOWN_MANUFACTURERS ++ inFrameMfgs rows :=
      List.mem_append_right _ hin
    simpa [List.contains, List.elem_eq_mem] using hmem

/-- The Rule-5 stage of `validate_and_clean` never changes the table and
never emits a correction. -/
theorem validate_rule5_trivial (rows : List VRow) :
    rule5 KNOWN_MANUFACTURERS (KNOWN_MANUFACTURERS ++ inFrameMfgs rows)
        (rule4 (rule3 (rule2 (rule1 rows).1).1).1).1
      = ((rule4 (rule3 (rule2 (rule1 rows).1).1).1).1, []) :=
  rule5_eq_nil (rule5_input_known rows)

/-- The corrections emitted by `validate_and_clean` never contain the
reason `mfg_frequency_anomaly`. -/
theorem validateAndClean_no_freq_corr (rows : List VRow) :
    ((validateAndClean rows).2.filter
      fun c => c.reason == "mfg_frequency_anomaly") = [] := by
  unfold validateAndClean
  dsimp only
  rw [validate_rule5_trivial rows]
  dsimp only
  simp only [List.filter_append, List.append_eq_nil, List.filter_nil]
  repeat' apply And.intro
  all_goals
    first
      | trivial
      | (apply List.filter_eq_nil_iff.mpr
         intro c hc
         have := clearIf_corr_reason hc
         simp [this])

/-- The failing input for claim C1: a table whose manufacturer column is
75 % one unknown value ("FOO", 3 of 4 filled cells) — the spec's
frequency-anomaly rule requires every "FOO" cell to be cleared with
reason `mfg_frequency_anomaly`. -/
def exC1 : List VRow :=
  [⟨"FOO", "", []⟩, ⟨"FOO", "", []⟩, ⟨"FOO", "", []⟩, ⟨"BAR", "", []⟩]

/-- Evaluating the validator at the failing input: nothing is cleared and
no correction at all is produced. -/
theorem validateAndClean_exC1 : validateAndClean exC1 = (exC1, []) := by
  unfold validateAndClean
  dsimp only
  rw [validate_rule5_trivial exC1]
  decide

/-- **C1.** For every table, `validate_and_clean` emits no correction with
reason `mfg_frequency_anomaly` — the guard `mfg_val not in all_known_mfgs`
of Rule 5 is unsatisfiable because `all_known_mfgs` contains every
in-frame manufacturer value, so the frequency-anomaly rule can never
clear a cell; in particular, on a table where one unknown manufacturer
fills 75 % of the manufacturer cells, the validator returns the table
unchanged with an empty corrections list, contradicting the claim. -/
theorem C1_mfg_frequency_anomaly_unreachable :
    (∀ rows : List VRow,
      ((validateAndClean rows).2.filter
        fun c => c.reason == "mfg_frequency_anomaly") = [])
    ∧ validateAndClean exC1 = (exC1, []) :=
  ⟨validateAndClean_no_freq_corr, validateAndClean_exC1⟩

/-! ### A uniform view of the validator's single-cell passes

`validate_and_clean` is, after the unreachable Rule 5 is removed, a
sequence of seven `clearIf` passes.  `runRules` composes a list of such
passes; the metatheorems below are proved once by induction on the list
and instantiated for the claims. -/

/-- One single-cell pass: target column, reason code, condition. -/
structure RuleSpec where
  fld : Fld
  reason : String
  cond : String → VRow → Bool

/-- Sequential composition of single-cell passes, concatenating the
corrections in pass order. -/
def runRules : List RuleSpec → List VRow → List VRow × List Corr
  | [], rows => (rows, [])
  | s :: rest, rows =>
    let p := clearIf s.fld s.reason s.cond rows
    let q := runRules rest p.1
    (q.1, p.2 ++ q.2)

/-- The per-row composition of the same passes. -/
def rsStep : List RuleSpec → VRow → VRow
  | [], r => r
  | s :: rest, r => rsStep rest (clearStep s.fld s.cond r)

/-- The guard of a pass at a given row (the `!_is_blank(val) and cond`
test of the source, on the normalised cell). -/
def guardBool (f : Fld) (cond : String → VRow → Bool) (r : VRow) : Bool :=
  !isBlankPy (pyNormalize (r.get f)) && cond (pyNormalize (r.get f)) r

/-- The seven reachable passes of `validate_and_clean`, in source order
(Rule 5 omitted: it never fires, see `validate_rule5_trivial`). -/
def VAL_RULES (ak : List String) : List RuleSpec :=
  [⟨.pn, "spec_value", rule1Cond⟩,
   ⟨.mfg, "mfg_has_digits", rule2Cond⟩,
   ⟨.mfg, "descriptor", rule3Cond⟩,
   ⟨.mfg, "mfg_equals_pn", rule4Cond⟩,
   ⟨.pn, "pn_too_short", rule6Cond⟩,
   ⟨.pn, "pn_is_manufacturer", fun v _ => ak.contains v⟩,
   ⟨.pn, "pn_all_alpha_no_digits", rule8Cond⟩]

/-- A `clearStep` is the identity when its guard is false, and blanks a
non-empty cell when its guard is true. -/
theorem clearStep_spec (f : Fld) (cond : String → VRow → Bool) (r : VRow) :
    (clearStep f cond r = r ∧ guardBool f cond r = false)
      ∨ (clearStep f cond r = r.set f "" ∧ guardBool f cond r = true
          ∧ r.get f ≠ "") := by
  unfold clearStep guardBool
  dsimp only
  by_cases h : (!isBlankPy (pyNormalize (r.get f))
      && cond (pyNormalize (r.get f)) r) = true
  · refine Or.inr ⟨by rw [if_pos h], h, ?_⟩
    intro habs
    rw [habs] at h
    simp [pyNormalize_empty, isBlankPy_empty] at h
  · exact Or.inl ⟨by rw [if_neg h], by simpa using h⟩

/-- Mapping a function that fixes every member is the identity. -/
theorem map_id_of_forall {α : Type} {l : List α} {g : α → α}
    (h : ∀ r ∈ l, g r = r) : l.map g = l := by
  induction l with
  | nil => rfl
  | cons a as ih =>
    rw [List.map_cons, h a (List.mem_cons_self a as),
      ih fun r hr => h r (List.mem_cons_of_mem _ hr)]

/-- The payload of an `enumFrom` entry is a member of the list. -/
theorem snd_mem_of_mem_enumFrom {α : Type} {l : List α} {n : Nat}
    {p : Nat × α} (h : p ∈ enumFrom n l) : p.2 ∈ l := by
  induction l generalizing n with
  | nil => cases h
  | cons a as ih =>
    rcases List.mem_cons.mp h with h | h
    · rw [h]
      exact List.mem_cons_self a as
    · exact List.mem_cons_of_mem _ (ih h)

/-- Membership in `enumFrom` in terms of `get?`. -/
theorem mem_enumFrom_iff {α : Type} {l : List α} {n : Nat} {p : Nat × α} :
    p ∈ enumFrom n l ↔ ∃ j, p.1 = n + j ∧ l.get? j = some p.2 := by
  induction l generalizing n with
  | nil => simp [enumFrom]
  | cons a as ih =>
    constructor
    · intro h
      rcases List.mem_cons.mp h with h | h
      · exact ⟨0, by simp [h], by simp [h]⟩
      · obtain ⟨j, hj, hget⟩ := ih.mp h
        exact ⟨j + 1, by omega, by simpa using hget⟩
    · rintro ⟨j, hj, hget⟩
      cases j with
      | zero =>
        obtain ⟨p1, p2⟩ := p
        have h2 : a = p2 := by simpa using hget
        have h1 : p1 = n := by simpa using hj
        rw [h1, ← h2]
        exact List.mem_cons_self _ _
      | succ j =>
        refine List.mem_cons_of_mem _ (ih.mpr ⟨j, by omega, by simpa using hget⟩)

/-- `clearIf` is trivial on a table where its guard is everywhere false. -/
theorem clearIf_trivial {f : Fld} {re : String} {cond : String → VRow → Bool}
    {rows : List VRow} (h : ∀ r ∈ rows, guardBool f cond r = false) :
    clearIf f re cond rows = (rows, []) := by
  unfold clearIf
  refine Prod.ext ?_ ?_ <;> dsimp only
  · apply map_id_of_forall
    intro r hr
    rcases clearStep_spec f cond r with ⟨he, _⟩ | ⟨_, hg, _⟩
    · exact he
    · rw [h r hr] at hg
      cases hg
  · apply List.filterMap_eq_nil_iff.mpr
    intro p hp
    unfold clearCorr
    dsimp only
    rw [if_neg]
    intro habs
    rw [show (!isBlankPy (pyNormalize (p.2.get f))
        && cond (pyNormalize (p.2.get f)) p.2)
        = guardBool f cond p.2 from rfl] at habs
    rw [h p.2 (snd_mem_of_mem_enumFrom hp)] at habs
    cases habs

/-- Reading after writing the two cells. -/
theorem VRow.get_set (r : VRow) (f g : Fld) (v : String) :
    (r.set f v).get g = if g = f then v else r.get g := by
  cases f <;> cases g <;> simp [VRow.get, VRow.set]

/-- A blank guard: rules never fire on an empty cell. -/
theorem guardBool_of_empty {f : Fld} {cond : String → VRow → Bool} {r : VRow}
    (h : r.get f = "") : guardBool f cond r = false := by
  unfold guardBool
  rw [h, pyNormalize_empty]
  simp [isBlankPy_empty]

/-- Unfolding one pass of `rsStep`. -/
theorem rsStep_cons (s : RuleSpec) (rest : List RuleSpec) (r : VRow) :
    rsStep (s :: rest) r = rsStep rest (clearStep s.fld s.cond r) := rfl

/-- The output table of `runRules` is the input mapped through `rsStep`. -/
theorem runRules_fst (rs : List RuleSpec) (rows : List VRow) :
    (runRules rs rows).1 = rows.map (rsStep rs) := by
  induction rs generalizing rows with
  | nil =>
    simp only [runRules, rsStep]
    exact (map_id_of_forall fun r _ => rfl).symm
  | cons s rest ih =>
    unfold runRules
    dsimp only
    rw [ih, clearIf_rows, List.map_map]
    rfl

/-- `rsStep` never touches the opaque part of a row. -/
theorem rsStep_rest (rs : List RuleSpec) (r : VRow) :
    (rsStep rs r).rest = r.rest := by
  induction rs generalizing r with
  | nil => rfl
  | cons s rest ih => rw [rsStep, ih, clearStep_rest]

/-- `rsStep` leaves a designated cell alone or blanks it. -/
theorem rsStep_get_cases (rs : List RuleSpec) (r : VRow) (f : Fld) :
    (rsStep rs r).get f = r.get f ∨ (rsStep rs r).get f = "" := by
  induction rs generalizing r with
  | nil => exact Or.inl rfl
  | cons s rest ih =>
    rw [rsStep]
    rcases ih (clearStep s.fld s.cond r) with h | h
    · rcases clearStep_get_cases s.fld f s.cond r with h2 | h2
      · exact Or.inl (h.trans h2)
      · exact Or.inr (h.trans h2)
    · exact Or.inr h

/-- A blank designated cell stays blank through all passes. -/
theorem rsStep_get_empty {rs : List RuleSpec} {r : VRow} {f : Fld}
    (h : r.get f = "") : (rsStep rs r).get f = "" := by
  induction rs generalizing r with
  | nil => exact h
  | cons s rest ih =>
    rw [rsStep]
    apply ih
    rcases clearStep_get_cases s.fld f s.cond r with h2 | h2
    · exact h2.trans h
    · exact h2

/-- Characterisation of the corrections of one pass. -/
theorem mem_clearIf_corr_iff {f : Fld} {re : String}
    {cond : String → VRow → Bool} {rows : List VRow} {c : Corr} :
    c ∈ (clearIf f re cond rows).2 ↔
      ∃ r, rows.get? c.row = some r ∧ guardBool f cond r = true ∧
        c = ⟨c.row, f, pyNormalize (r.get f), re, "cleared"⟩ := by
  unfold clearIf
  dsimp only
  constructor
  · intro h
    obtain ⟨p, hp, hc⟩ := List.mem_filterMap.mp h
    unfold clearCorr at hc
    dsimp only at hc
    split at hc
    case isTrue hg =>
      cases hc
      obtain ⟨j, hj, hget⟩ := mem_enumFrom_iff.mp hp
      refine ⟨p.2, ?_, hg, rfl⟩
      have : p.1 = j := by omega
      rw [this]
      exact hget
    case isFalse => cases hc
  · rintro ⟨r, hget, hguard, hc⟩
    apply List.mem_filterMap.mpr
    refine ⟨(c.row, r), mem_enumFrom_iff.mpr ⟨c.row, by omega, hget⟩, ?_⟩
    unfold clearCorr
    dsimp only
    have hguard2 : (!isBlankPy (pyNormalize (r.get f))
        && cond (pyNormalize (r.get f)) r) = true := hguard
    rw [if_pos hguard2, hc]

/-- Soundness of the corrections of a run: every correction names a row of
the input table, records the normalised old value of a non-blank cell, and
that cell ends up empty. -/
theorem runRules_corr_sound {rs : List RuleSpec} {rows : List VRow} {c : Corr}
    (h : c ∈ (runRules rs rows).2) :
    ∃ r, rows.get? c.row = some r ∧ c.action = "cleared"
      ∧ c.oldValue = pyNormalize (r.get c.fld)
      ∧ isBlankPy (pyNormalize (r.get c.fld)) = false
      ∧ r.get c.fld ≠ ""
      ∧ (rsStep rs r).get c.fld = "" := by
  induction rs generalizing rows with
  | nil => cases h
  | cons s rest ih =>
    unfold runRules at h
    dsimp only at h
    rcases List.mem_append.mp h with h | h
    · obtain ⟨r, hget, hguard, hc⟩ := mem_clearIf_corr_iff.mp h
      have hcf : c.fld = s.fld := by rw [hc]
      have hcv : c.oldValue = pyNormalize (r.get s.fld) := by rw [hc]
      have hca : c.action = "cleared" := by rw [hc]
      have hblank : isBlankPy (pyNormalize (r.get s.fld)) = false := by
        unfold guardBool at hguard
        rcases Bool.and_eq_true_iff.mp hguard with ⟨h1, _⟩
        simpa using h1
      have hne : r.get s.fld ≠ "" := by
        intro habs
        rw [habs, pyNormalize_empty] at hblank
        rw [isBlankPy_empty] at hblank
        cases hblank
      refine ⟨r, hget, hca, hcf ▸ hcv, hcf ▸ hblank, hcf ▸ hne, ?_⟩
      rw [hcf, rsStep_cons]
      apply rsStep_get_empty
      rcases clearStep_spec s.fld s.cond r with ⟨_, hg⟩ | ⟨he, _, _⟩
      · rw [hguard] at hg
        cases hg
      · rw [he, VRow.get_set]
        simp
    · obtain ⟨rmid, hgetmid, hca, hcv, hblank, hne, hfinal⟩ := ih h
      rw [clearIf_rows, List.get?_map] at hgetmid
      cases hrow : rows.get? c.row with
      | none =>
        rw [hrow] at hgetmid
        cases hgetmid
      | some r =>
        rw [hrow] at hgetmid
        have hmid : rmid = clearStep s.fld s.cond r := by
          have h2 := hgetmid
          simp only [Option.map_some'] at h2
          exact (Option.some.inj h2).symm
        rcases clearStep_spec s.fld s.cond r with ⟨he, _⟩ | ⟨he, hg, hner⟩
        · rw [he] at hmid
          rw [hmid] at hcv hblank hne hfinal
          refine ⟨r, rfl, hca, hcv, hblank, hne, ?_⟩
          rw [rsStep_cons, he]
          exact hfinal
        · rw [he] at hmid
          rw [hmid] at hcv hblank hne hfinal
          by_cases hff : c.fld = s.fld
          · exfalso
            apply hne
            rw [hff, VRow.get_set]
            simp
          · have hgg : (r.set s.fld "").get c.fld = r.get c.fld := by
              rw [VRow.get_set, if_neg hff]
            rw [hgg] at hcv hblank hne
            refine ⟨r, rfl, hca, hcv, hblank, hne, ?_⟩
            rw [rsStep_cons, he]
            exact hfinal

/-- Completeness: a changed cell always has a correction naming it. -/
theorem runRules_changed_corr {rs : List RuleSpec} {rows : List VRow}
    {i : Nat} {r : VRow} {f : Fld} (hget : rows.get? i = some r)
    (hch : (rsStep rs r).get f ≠ r.get f) :
    ∃ c ∈ (runRules rs rows).2, c.row = i ∧ c.fld = f := by
  induction rs generalizing rows r with
  | nil => exact absurd rfl hch
  | cons s rest ih =>
    unfold runRules
    dsimp only
    rw [rsStep_cons] at hch
    have hgetmid : (clearIf s.fld s.reason s.cond rows).1.get? i
        = some (clearStep s.fld s.cond r) := by
      rw [clearIf_rows, List.get?_map, hget, Option.map_some']
    rcases clearStep_spec s.fld s.cond r with ⟨he, _⟩ | ⟨he, hg, hner⟩
    · rw [he] at hch hgetmid
      obtain ⟨c, hc, hrow, hfld⟩ := ih hgetmid hch
      exact ⟨c, List.mem_append_right _ hc, hrow, hfld⟩
    · by_cases hff : f = s.fld
      · refine ⟨⟨i, s.fld, pyNormalize (r.get s.fld), s.reason, "cleared"⟩,
          List.mem_append_left _ ?_, rfl, hff.symm⟩
        exact mem_clearIf_corr_iff.mpr ⟨r, hget, hg, rfl⟩
      · have hval : (clearStep s.fld s.cond r).get f = r.get f := by
          rw [he, VRow.get_set, if_neg hff]
        rw [← hval] at hch
        obtain ⟨c, hc, hrow, hfld⟩ := ih hgetmid hch
        exact ⟨c, List.mem_append_right _ hc, hrow, hfld⟩

/-- A run whose guards are all false everywhere does nothing. -/
theorem runRules_trivial {rs : List RuleSpec} {rows : List VRow}
    (h : ∀ r ∈ rows, ∀ s ∈ rs, guardBool s.fld s.cond r = false) :
    runRules rs rows = (rows, []) := by
  induction rs with
  | nil => rfl
  | cons s rest ih =>
    unfold runRules
    dsimp only
    rw [clearIf_trivial fun r hr => h r hr s (List.mem_cons_self s rest)]
    dsimp only
    rw [ih fun r hr s' hs' => h r hr s' (List.mem_cons_of_mem _ hs')]
    rfl

/-- Congruence of a guard whose condition ignores the row (all the
value-only rules). -/
theorem guardBool_congr_value {f : Fld} {cond : String → VRow → Bool}
    {r r' : VRow} (hvo : ∀ v r1 r2, cond v r1 = cond v r2)
    (hget : r'.get f = r.get f) :
    guardBool f cond r' = guardBool f cond r := by
  unfold guardBool
  rw [hget, hvo (pyNormalize (r.get f)) r' r]

/-- Survival under a value-only rule: a cell that makes it through a run
non-empty falsifies every value-only guard of the run at the output row. -/
theorem rsStep_guard_surviving {rs : List RuleSpec} {r : VRow} {f : Fld}
    {s : RuleSpec} (hs : s ∈ rs) (hf : s.fld = f)
    (hvo : ∀ v r1 r2, s.cond v r1 = s.cond v r2)
    (hnz : (rsStep rs r).get f ≠ "") :
    guardBool f s.cond (rsStep rs r) = false := by
  induction rs generalizing r with
  | nil => cases hs
  | cons s0 rest ih =>
    rw [rsStep_cons] at hnz ⊢
    rcases List.mem_cons.mp hs with hs0 | hsrest
    · subst hs0
      rcases clearStep_spec s.fld s.cond r with ⟨he, hg⟩ | ⟨he, hg, hner⟩
      · rw [he] at hnz ⊢
        have hsurv : (rsStep rest r).get f = r.get f := by
          rcases rsStep_get_cases rest r f with h2 | h2
          · exact h2
          · exact absurd h2 hnz
        rw [guardBool_congr_value hvo hsurv, ← hf, hg]
      · exfalso
        apply hnz
        apply rsStep_get_empty
        rw [he, VRow.get_set, if_pos hf.symm]
    · exact ih hsrest hnz

/-- Rule 4's guard depends only on the two designated cells. -/
theorem guard4_congr {r r' : VRow} (hm : r'.mfg = r.mfg) (hp : r'.pn = r.pn) :
    guardBool .mfg rule4Cond r' = guardBool .mfg rule4Cond r := by
  unfold guardBool rule4Cond
  rw [show r'.get .mfg = r'.mfg from rfl, show r.get .mfg = r.mfg from rfl,
    hm, hp]

/-- Rule 4's guard is false whenever the part-number cell is empty. -/
theorem guard4_of_empty_pn {r : VRow} (hp : r.pn = "") :
    guardBool .mfg rule4Cond r = false := by
  unfold guardBool rule4Cond
  rw [hp, pyNormalize_empty, isBlankPy_empty]
  simp

/-- After a full pass of the validator's rules, Rule 4's guard is false at
every output row — the heart of idempotence for the one rule that reads
both columns. -/
theorem valStep_guard4_false (ak : List String) (r : VRow) :
    guardBool .mfg rule4Cond (rsStep (VAL_RULES ak) r) = false := by
  have hfinal : rsStep (VAL_RULES ak) r
      = clearStep .pn rule8Cond (clearStep .pn (fun v _ => ak.contains v)
          (clearStep .pn rule6Cond (clearStep .mfg rule4Cond
            (clearStep .mfg rule3Cond (clearStep .mfg rule2Cond
              (clearStep .pn rule1Cond r)))))) := rfl
  rw [hfinal]
  generalize (clearStep .mfg rule3Cond
    (clearStep .mfg rule2Cond (clearStep .pn rule1Cond r))) = r3
  generalize h4 : clearStep .mfg rule4Cond r3 = r4
  generalize h6 : clearStep .pn rule6Cond r4 = r6
  generalize h7 : clearStep .pn (fun v _ => ak.contains v) r6 = r7
  generalize h8 : clearStep .pn rule8Cond r7 = r8
  have hm8 : r8.mfg = r4.mfg := by
    rw [← h8, ← h7, ← h6, clearStep_pn_mfg, clearStep_pn_mfg, clearStep_pn_mfg]
  rcases clearStep_spec .mfg rule4Cond r3 with ⟨he, hg⟩ | ⟨he, _, _⟩
  · rw [he] at h4
    subst h4
    have hpn : r8.pn = r3.pn ∨ r8.pn = "" := by
      have c6 := clearStep_get_cases .pn .pn rule6Cond r3
      have c7 := clearStep_get_cases .pn .pn (fun v _ => ak.contains v) r6
      have c8 := clearStep_get_cases .pn .pn rule8Cond r7
      rw [h6] at c6
      rw [h7] at c7
      rw [h8] at c8
      rcases c8 with c8 | c8 <;> rcases c7 with c7 | c7 <;>
        rcases c6 with c6 | c6 <;> simp_all [VRow.get]
    rcases hpn with hpn | hpn
    · rw [guard4_congr hm8 hpn]
      exact hg
    · exact guard4_of_empty_pn hpn
  · rw [he] at h4
    subst h4
    apply guardBool_of_empty
    rw [show r8.get .mfg = r8.mfg from rfl, hm8]
    rfl

/-- `validate_and_clean` is exactly the seven-pass run (Rule 5 removed,
being unreachable). -/
theorem validateAndClean_eq_runRules (rows : List VRow) :
    validateAndClean rows
      = runRules (VAL_RULES (KNOWN_MANUFACTURERS ++ inFrameMfgs rows)) rows := by
  unfold validateAndClean
  dsimp only
  rw [validate_rule5_trivial rows]
  dsimp only
  simp only [VAL_RULES, runRules, rule1, rule2, rule3, rule4, rule6, rule7,
    rule8]
  simp [List.append_assoc]

/-- Manufacturer values present in the cleaned table were present in the
input table: the in-frame set can only shrink. -/
theorem inFrame_out_subset (rows : List VRow) {v : String}
    (h : v ∈ inFrameMfgs ((validateAndClean rows).1)) : v ∈ inFrameMfgs rows := by
  rw [validateAndClean_eq_runRules, runRules_fst] at h
  unfold inFrameMfgs at h ⊢
  obtain ⟨hmem, hval⟩ := List.mem_filter.mp h
  obtain ⟨r', hr', hveq⟩ := List.mem_map.mp hmem
  obtain ⟨r, hr, hstep⟩ := List.mem_map.mp hr'
  have hm : r'.mfg = r.mfg ∨ r'.mfg = "" := by
    rcases rsStep_get_cases
        (VAL_RULES (KNOWN_MANUFACTURERS ++ inFrameMfgs rows)) r .mfg
      with hc | hc
    · left
      rw [← hstep]
      exact hc
    · right
      rw [← hstep]
      exact hc
  rcases hm with hm | hm
  · apply List.mem_filter.mpr
    refine ⟨List.mem_map.mpr ⟨r, hr, ?_⟩, hval⟩
    rw [← hm]
    exact hveq
  · exfalso
    rw [hm, pyNormalize_empty] at hveq
    rw [← hveq] at hval
    simp at hval

/-- All seven guards are false on every row of a cleaned table. -/
theorem guards_false_on_output (rows : List VRow) :
    ∀ r' ∈ (validateAndClean rows).1,
      ∀ s ∈ VAL_RULES
        (KNOWN_MANUFACTURERS ++ inFrameMfgs ((validateAndClean rows).1)),
        guardBool s.fld s.cond r' = false := by
  intro r' hr' s hs
  have hout : (validateAndClean rows).1
      = rows.map
          (rsStep (VAL_RULES (KNOWN_MANUFACTURERS ++ inFrameMfgs rows))) := by
    rw [validateAndClean_eq_runRules, runRules_fst]
  rw [hout] at hr'
  obtain ⟨r, hr, hstep⟩ := List.mem_map.mp hr'
  subst hstep
  simp only [VAL_RULES, List.mem_cons, List.not_mem_nil, or_false] at hs
  rcases hs with rfl | rfl | rfl | rfl | rfl | rfl | rfl
  -- Rule 1 (pn, value-only)
  · by_cases hz : (rsStep (VAL_RULES (KNOWN_MANUFACTURERS ++ inFrameMfgs rows))
        r).get .pn = ""
    · exact guardBool_of_empty hz
    · exact rsStep_guard_surviving (by simp [VAL_RULES]) rfl
        (fun v r1 r2 => rfl) hz
  -- Rule 2 (mfg, value-only)
  · by_cases hz : (rsStep (VAL_RULES (KNOWN_MANUFACTURERS ++ inFrameMfgs rows))
        r).get .mfg = ""
    · exact guardBool_of_empty hz
    · exact rsStep_guard_surviving (by simp [VAL_RULES]) rfl
        (fun v r1 r2 => rfl) hz
  -- Rule 3 (mfg, value-only)
  · by_cases hz : (rsStep (VAL_RULES (KNOWN_MANUFACTURERS ++ inFrameMfgs rows))
        r).get .mfg = ""
    · exact guardBool_of_empty hz
    · exact rsStep_guard_surviving (by simp [VAL_RULES]) rfl
        (fun v r1 r2 => rfl) hz
  -- Rule 4 (mfg = pn, both columns)
  · exact valStep_guard4_false _ r
  -- Rule 6 (pn, value-only)
  · by_cases hz : (rsStep (VAL_RULES (KNOWN_MANUFACTURERS ++ inFrameMfgs rows))
        r).get .pn = ""
    · exact guardBool_of_empty hz
    · exact rsStep_guard_surviving (by simp [VAL_RULES]) rfl
        (fun v r1 r2 => rfl) hz
  -- Rule 7 (pn in the known/in-frame set; the set can only have shrunk)
  · by_cases hz : (rsStep (VAL_RULES (KNOWN_MANUFACTURERS ++ inFrameMfgs rows))
        r).get .pn = ""
    · exact guardBool_of_empty hz
    · have hsurv := @rsStep_guard_surviving _ _ _
        ⟨.pn, "pn_is_manufacturer",
          fun v _ => (KNOWN_MANUFACTURERS ++ inFrameMfgs rows).contains v⟩
        (by simp [VAL_RULES]) rfl (fun v r1 r2 => rfl) hz
      unfold guardBool at hsurv ⊢
      dsimp only at hsurv ⊢
      rcases Bool.and_eq_false_iff.mp hsurv with hb | hb
      · rw [hb]
        rfl
      · rw [Bool.and_eq_false_iff]
        right
        rw [← Bool.not_eq_true]
        intro habs
        rw [← Bool.not_eq_true] at hb
        apply hb
        have hmem : pyNormalize ((rsStep
            (VAL_RULES (KNOWN_MANUFACTURERS ++ inFrameMfgs rows)) r).get .pn)
              ∈ KNOWN_MANUFACTURERS
                ++ inFrameMfgs ((validateAndClean rows).1) := by
          simpa [List.contains, List.elem_eq_mem] using habs
        rcases List.mem_append.mp hmem with hmem | hmem
        · simp [List.contains, List.elem_eq_mem]
          exact Or.inl hmem
        · simp [List.contains, List.elem_eq_mem]
          exact Or.inr (inFrame_out_subset rows hmem)
  -- Rule 8 (pn, value-only)
  · by_cases hz : (rsStep (VAL_RULES (KNOWN_MANUFACTURERS ++ inFrameMfgs rows))
        r).get .pn = ""
    · exact guardBool_of_empty hz
    · exact rsStep_guard_surviving (by simp [VAL_RULES]) rfl
        (fun v r1 r2 => rfl) hz

/-- Running the validator on its own output yields no corrections. -/
theorem validateAndClean_idempotent (rows : List VRow) :
    (validateAndClean ((validateAndClean rows).1)).2 = [] := by
  rw [validateAndClean_eq_runRules ((validateAndClean rows).1)]
  rw [runRules_trivial (guards_false_on_output rows)]

/-- **C10.** `validate_and_clean` touches only the two designated columns:
the table keeps its length, every row keeps its other cells, every
modification writes the empty string, and the corrections list enumerates
exactly the modified cells (each correction's row is in range, and a cell
changed if and only if a correction names it). -/
theorem C10_validator_frame_effect :
    ∀ rows : List VRow,
      (validateAndClean rows).1.length = rows.length
      ∧ (∀ i r r', rows.get? i = some r →
          (validateAndClean rows).1.get? i = some r' →
            r'.rest = r.rest
            ∧ (∀ f, r'.get f = r.get f ∨ r'.get f = "")
            ∧ (∀ f, r'.get f ≠ r.get f ↔
                ∃ c ∈ (validateAndClean rows).2, c.row = i ∧ c.fld = f))
      ∧ (∀ c ∈ (validateAndClean rows).2, c.row < rows.length) := by
  intro rows
  rw [validateAndClean_eq_runRules]
  generalize VAL_RULES (KNOWN_MANUFACTURERS ++ inFrameMfgs rows) = rules
  rw [runRules_fst]
  refine ⟨by rw [List.length_map], ?_, ?_⟩
  · intro i r r' hget hget'
    rw [List.get?_map, hget, Option.map_some'] at hget'
    have hr' : r' = rsStep rules r := (Option.some.inj hget').symm
    subst hr'
    refine ⟨rsStep_rest _ r, fun f => rsStep_get_cases _ r f, fun f => ?_⟩
    constructor
    · intro hch
      exact runRules_changed_corr hget hch
    · rintro ⟨c, hc, hrow, hfld⟩
      obtain ⟨r0, hget0, _, _, _, hne0, hfin0⟩ := runRules_corr_sound hc
      rw [hrow, hget] at hget0
      have : r0 = r := (Option.some.inj hget0).symm
      subst this
      rw [hfld] at hne0 hfin0
      rw [hfin0]
      exact fun h => hne0 h.symm
  · intro c hc
    obtain ⟨r0, hget0, _⟩ := runRules_corr_sound hc
    rcases List.get?_eq_some.mp hget0 with ⟨hlt, _⟩
    exact hlt

/-- A one-row table exercised by the frame-effect witness: the
manufacturer cell contains a digit-bearing unknown value that Rule 2
clears; the rest of the row must be untouched. -/
def exW10 : List VRow := [⟨"ACME2", "", ["note"]⟩]

/-- The value of the validator at `exW10`. -/
theorem validateAndClean_exW10 :
    validateAndClean exW10
      = ([⟨"", "", ["note"]⟩],
         [⟨0, .mfg, "ACME2", "mfg_has_digits", "cleared"⟩]) := by
  unfold validateAndClean
  dsimp only
  rw [validate_rule5_trivial exW10]
  decide

/-- Witness for C10 at a concrete table: the manufacturer cell of row 0
changed, and indeed a correction names exactly that cell. -/
theorem C10_witness :
    ((⟨"", "", ["note"]⟩ : VRow).get .mfg
        ≠ (⟨"ACME2", "", ["note"]⟩ : VRow).get .mfg)
      ↔ ∃ c ∈ (validateAndClean exW10).2, c.row = 0 ∧ c.fld = Fld.mfg := by
  have h := (C10_validator_frame_effect exW10).2.1 0
    ⟨"ACME2", "", ["note"]⟩ ⟨"", "", ["note"]⟩ rfl
    (by rw [validateAndClean_exW10]; rfl)
  exact h.2.2 Fld.mfg

/-- The counterexample table for C3: the part-number cell holds the
lower-case two-character value `"ab"`. -/
def exC3 : List VRow := [⟨"", "ab", []⟩]

set_option maxRecDepth 16384 in
/-- Claim C3 as stated is false: Rule 6 clears the cell `"ab"`, but the
correction records the normalised value `"AB"`, which is not the value the
cleared cell held. -/
theorem C3_counterexample :
    (validateAndClean exC3).2 = [⟨0, .pn, "AB", "pn_too_short", "cleared"⟩]
    ∧ exC3.get? 0 = some ⟨"", "ab", []⟩
    ∧ ("AB" : String) ≠ "ab" := by
  refine ⟨?_, rfl, by decide⟩
  have h : validateAndClean exC3
      = ([⟨"", "", []⟩], [⟨0, .pn, "AB", "pn_too_short", "cleared"⟩]) := by
    unfold validateAndClean
    dsimp only
    rw [validate_rule5_trivial exC3]
    decide
  rw [h]

/-- **C3 (amended).** Every cell cleared by `validate_and_clean` yields a
correction whose row and field name the cell, whose action is `cleared`
and whose old value is the *trimmed upper-cased* content of the cleared
cell (which was non-empty); the cell becomes blank; and running the
validator a second time over its own output produces zero corrections. -/
theorem C3_corrections_and_idempotence :
    ∀ rows : List VRow,
      (∀ c ∈ (validateAndClean rows).2,
        c.action = "cleared"
        ∧ ∃ r r', rows.get? c.row = some r
            ∧ (validateAndClean rows).1.get? c.row = some r'
            ∧ c.oldValue = pyNormalize (r.get c.fld)
            ∧ r.get c.fld ≠ ""
            ∧ r'.get c.fld = "")
      ∧ (validateAndClean ((validateAndClean rows).1)).2 = [] := by
  intro rows
  refine ⟨?_, validateAndClean_idempotent rows⟩
  intro c hc
  rw [validateAndClean_eq_runRules] at hc
  obtain ⟨r, hget, hact, hval, _, hne, hfin⟩ := runRules_corr_sound hc
  refine ⟨hact, r, rsStep
      (VAL_RULES (KNOWN_MANUFACTURERS ++ inFrameMfgs rows)) r,
    hget, ?_, hval, hne, hfin⟩
  rw [validateAndClean_eq_runRules, runRules_fst, List.get?_map, hget,
    Option.map_some']

set_option maxRecDepth 16384 in
/-- Witness for the amended C3 at a concrete table. -/
theorem C3_witness :
    (⟨0, Fld.pn, "AB", "pn_too_short", "cleared"⟩ : Corr).action = "cleared"
    ∧ ("AB" : String) = pyNormalize ((⟨"", "ab", []⟩ : VRow).get .pn)
    ∧ (validateAndClean ((validateAndClean exC3).1)).2 = [] := by
  have hmem : (⟨0, Fld.pn, "AB", "pn_too_short", "cleared"⟩ : Corr)
      ∈ (validateAndClean exC3).2 := by
    have h : validateAndClean exC3
        = ([⟨"", "", []⟩], [⟨0, .pn, "AB", "pn_too_short", "cleared"⟩]) := by
      unfold validateAndClean
      dsimp only
      rw [validate_rule5_trivial exC3]
      decide
    rw [h]
    exact List.mem_singleton.mpr rfl
  have h := C3_corrections_and_idempotence exC3
  obtain ⟨hact, r, r', hget, _, hval, _, _⟩ := h.1 _ hmem
  have hr : r = ⟨"", "ab", []⟩ := (Option.some.inj hget).symm
  subst hr
  exact ⟨hact, hval, h.2⟩

/-! ## Part-identifier extraction strategies (`parser_core.py`)

Each strategy returns `some (value, source, confidence)` for the Python
3-tuple `(pn, src, conf)` and `none` for `(None, 'none', 0.0)`.
Confidences are the float literals of `CONFIDENCE_SCORES`, as `ℚ`. -/

/-- The character class `[A-Z0-9]` of the structured-token pattern. -/
def isTokChar (c : Char) : Bool := isUpperAZ c || isDigit09 c

/-- The body class of `_clean_pn_token`'s pattern (dash, underscore,
slash, dot besides the alphanumerics). -/
def pnBodyChar (c : Char) : Bool :=
  isUpperAZ c || isDigit09 c || c = '-' || c = '_' || c = '/' || c = '.'

/-- `_clean_pn_token(token)`. -/
def cleanPnToken (token : String) : Option String :=
  if token = "" then none
  else
    let s := pyNormalize token
    let s := (pySplitWsCommaSemi s).headD ""
    match s.data with
    | c :: _ =>
      if isUpperAZ c || isDigit09 c then some ⟨s.data.takeWhile pnBodyChar⟩
      else none
    | [] => none

/-- The standards-body check of `_score_heuristic_pn`:
`^(?:ISO|UNI|DIN|ANSI|ASTM|IEEE)\d`. -/
def stdBodyPrefixDigit (c : String) : Bool :=
  ["ISO", "UNI", "DIN", "ANSI", "ASTM", "IEEE"].any fun p =>
    p.data.isPrefixOf c.data &&
      (match c.data.drop p.length with
       | d :: _ => isDigit09 d
       | [] => false)

/-- `_score_heuristic_pn(candidate)`: graduated confidence, clamped to
`[0.10, 0.65]`.  Float additions are modelled exactly in `ℚ`; the clamp
keeps every bound proved here far from any double-rounding boundary. -/
def scoreHeuristicPn (c : String) : ℚ :=
  let s : ℚ := 0.35
  let s := if hasUpperAZ c && hasDigit c then s + 0.10 else s
  let s := if c.data.any fun x => x = '-' || x = '/' then s + 0.10 else s
  let s := if 6 ≤ c.length && c.length ≤ 20 then s + 0.05 else s
  let s := if 10 ≤ c.length && !c.data.isEmpty && c.data.all isTokChar then
    s + 0.10 else s
  let s := if c.length ≤ 3 then s - 0.15 else s
  let s := if stdBodyPrefixDigit c then s - 0.10 else s
  let s := if (match c.data with
               | d :: _ => isDigit09 d
               | [] => false) && c.length < 6 then s - 0.10 else s
  max 0.10 (min 0.65 s)

/-- Pick the best-scoring heuristic candidate, rightmost among ties — the
`sort(key=(score, index), reverse=True)[0]` of the source, as a fold. -/
def pickTopScored (cands : List String) : String :=
  match enumFrom 0 cands with
  | [] => ""
  | x :: rest =>
    (rest.foldl (fun best y =>
      if qlt (scoreHeuristicPn best.2) (scoreHeuristicPn y.2)
          || (decide (scoreHeuristicPn best.2 = scoreHeuristicPn y.2)
              && decide (best.1 < y.1)) then y
      else best) x).2

/-- The acceptance test applied to each cleaned token of
`extract_pn_heuristic`. -/
def heuristicCandFilter (tok2 : String) : Bool :=
  hasUpperAZ tok2 && hasDigit tok2 && tok2.length ≤ 25
    && !isSpecValue tok2 && !isDescriptorPn tok2
    && !(tok2.length ≤ 3 && pyIsAlpha tok2)

/-- The candidate list built by the loop of `extract_pn_heuristic`. -/
def heuristicCands (text : String) : List String :=
  (pySplitWsCommaSemi (pyUpper text)).filterMap fun tok =>
    (cleanPnToken tok).bind fun tok2 =>
      if heuristicCandFilter tok2 then some tok2 else none

/-- `extract_pn_heuristic(text)`. -/
def extractPnHeuristic (text : String) : Option (String × String × ℚ) :=
  if text = "" then none
  else
    match heuristicCands text with
    | [] => none
    | [c] => some (c, "heuristic", scoreHeuristicPn c)
    | _ :: _ :: _ =>
      some (pickTopScored (heuristicCands text), "heuristic",
        scoreHeuristicPn (pickTopScored (heuristicCands text)))

/-- `max(candidates, key=len)` — Python returns the first longest. -/
def maxByLenFirst : List String → String
  | [] => ""
  | x :: rest =>
    rest.foldl (fun best y => if best.length < y.length then y else best) x

/-- One separator-plus-run group of `STRUCTURED_PN_RE`, parsed greedily:
returns the groups and the unconsumed remainder. -/
def parseGroupsAux : Nat → List Char → List (Char × List Char) × List Char
  | _, [] => ([], [])
  | 0, l => ([], l)
  | fuel + 1, c :: rest =>
    if c = '-' || c = '/' || c = '_' then
      let run := rest.takeWhile isTokChar
      if run.isEmpty then ([], c :: rest)
      else
        let p := parseGroupsAux fuel (rest.drop run.length)
        ((c, run) :: p.1, p.2)
    else ([], c :: rest)

/-- Backtracking over the greedy groups of `STRUCTURED_PN_RE`: drop
trailing groups until the position after the last kept run is a word
boundary (the dropped group's separator becomes the following character,
so the check `¬ word-char` below is exactly the `\b` test in every case). -/
def structChooseAux :
    List (Char × List Char) → List Char →
      Option (List (Char × List Char) × List Char)
  | [], _ => none
  | (sep, rl) :: grest, rest =>
    if (match rest with
        | [] => true
        | c :: _ => !isWordChar c) then
      some ((sep, rl) :: grest, rest)
    else structChooseAux grest (sep :: (rl ++ rest))

/-- One match attempt of `STRUCTURED_PN_RE` at a position whose first
character is alphanumeric; returns the matched token and the remainder. -/
def structTryMatch (l : List Char) : Option (List Char × List Char) :=
  let r0 := l.takeWhile isTokChar
  let p := parseGroupsAux l.length (l.drop r0.length)
  match structChooseAux p.1.reverse p.2 with
  | none => none
  | some (keptRev, rest') =>
    some (r0 ++ keptRev.reverse.foldl
      (fun acc g => acc ++ g.1 :: g.2) [], rest')

/-- The scan loop of `re.findall` for `STRUCTURED_PN_RE`: attempt a match
at every word-boundary position, skipping over each match (the flag is
"previous character was a word character", so `\b` holds iff it is
false). -/
def structFindallAux : Nat → Bool → List Char → List (List Char)
  | 0, _, _ => []
  | _, _, [] => []
  | fuel + 1, prevWord, c :: rest =>
    if !prevWord && isTokChar c then
      match structTryMatch (c :: rest) with
      | some (tok, rest') => tok :: structFindallAux fuel true rest'
      | none => structFindallAux fuel (isWordChar c) rest
    else structFindallAux fuel (isWordChar c) rest

/-- `STRUCTURED_PN_RE.findall(t)`. -/
def structuredFindall (s : String) : List String :=
  (structFindallAux (s.data.length + 1) false s.data).map fun l => ⟨l⟩

/-- The acceptance test of `extract_pn_structured`. -/
def structuredValidFilter (m : String) : Bool :=
  !isSpecValue m && !isDescriptorPn m && !hasInvalidPnPrefix m
    && hasUpperAZ m && hasDigit m && m.length ≤ 30
    && !(m.length ≤ 3 && pyIsAlpha m)

/-- The valid-match list of `extract_pn_structured`. -/
def structuredValid (text : String) : List String :=
  (structuredFindall (pyUpper text)).filter structuredValidFilter

/-- `extract_pn_structured(text)`. -/
def extractPnStructured (text : String) : Option (String × String × ℚ) :=
  if text = "" then none
  else
    match structuredValid text with
    | [] => none
    | _ :: _ =>
      some (maxByLenFirst (structuredValid text), "pn_structured", 0.70)

/-- Full match of `^[A-Z0-9][A-Z0-9\-_/\.]+$` (trailing-catalog gate). -/
def pnFullMatchPlus (s : String) : Bool :=
  match s.data with
  | c :: rest =>
    (isUpperAZ c || isDigit09 c) && !rest.isEmpty && rest.all pnBodyChar
  | [] => false

/-- Full match of the first-token pattern (same, without underscore). -/
def pnFirstTokenChars (s : String) : Bool :=
  match s.data with
  | c :: rest =>
    (isUpperAZ c || isDigit09 c) && !rest.isEmpty
      && rest.all fun x =>
        isUpperAZ x || isDigit09 x || x = '-' || x = '/' || x = '.'
  | [] => false

/-- `extract_pn_trailing_catalog(text)`. -/
def extractPnTrailingCatalog (text : String) : Option (String × String × ℚ) :=
  if text = "" then none
  else
    let t := pyNormalize text
    let tokens := (pySplitComma t).map pyStrip
    if tokens.length < 2 then none
    else
      let lastTok := tokens.getLast?.getD ""
      if !(hasUpperAZ lastTok && hasDigit lastTok) then none
      else if !(5 ≤ lastTok.length && lastTok.length ≤ 15) then none
      else if isSpecValue lastTok || isDescriptorPn lastTok then none
      else if dimensionAnnotationMatch lastTok then none
      else if !pnFullMatchPlus lastTok then none
      else
        let preceding := tokens.dropLast
        let descriptorCount := (preceding.filter fun tok =>
          (tok.data.all fun c => isAlphaChar c || c = ' ')
            || isSpecValue tok || BARE_SPEC_TOKENS.contains tok).length
        if qlt (descriptorCount : ℚ) ((preceding.length : ℚ) / 2) then none
        else some (lastTok, "trailing_catalog", 0.68)

/-- The numeric-dash alternative of `extract_pn_trailing_numeric`:
`six-or-more digits, then one or more groups (dash or slash, then digits)`,
that is the source pattern with the two-character separator class, as "groups
of a separator and one or more digits, to the end". -/
def numDashGroupsAux : Nat → List Char → Bool
  | _, [] => false
  | 0, _ => false
  | fuel + 1, c :: rest =>
    if c = '-' || c = '/' then
      let d := rest.takeWhile isDigit09
      if d.isEmpty then false
      else
        let r := rest.drop d.length
        if r.isEmpty then true else numDashGroupsAux fuel r
    else false

/-- The numeric-dash pattern of `extract_pn_trailing_numeric` on a token. -/
def numDashCode (s : String) : Bool :=
  let d := s.data.takeWhile isDigit09
  6 ≤ d.length && numDashGroupsAux s.data.length (s.data.drop d.length)

/-- `extract_pn_trailing_numeric(text)`. -/
def extractPnTrailingNumeric (text : String) : Option (String × String × ℚ) :=
  if text = "" then none
  else
    let t := pyNormalize text
    let tokens := (pySplitComma t).map pyStrip
    if tokens.length < 2 then none
    else
      let lastTok := tokens.getLast?.getD ""
      if pyIsDigit lastTok && 7 ≤ lastTok.length then
        some (lastTok, "trailing_numeric", 0.50)
      else if numDashCode lastTok
          && pyIsDigit (pyReplace (pyReplace lastTok "-" "") "/" "") then
        some (lastTok, "trailing_numeric", 0.50)
      else none

/-- `extract_pn_first_token_catalog(text)`. -/
def extractPnFirstTokenCatalog (text : String) :
    Option (String × String × ℚ) :=
  if text = "" then none
  else
    let t := pyNormalize text
    let tokens := (pySplitComma t).map pyStrip
    if tokens.length < 2 then none
    else
      let firstTok := tokens.headD ""
      if !pnFirstTokenChars firstTok then none
      else if !(hasUpperAZ firstTok && hasDigit firstTok) then none
      else if !(5 ≤ firstTok.length && firstTok.length ≤ 20) then none
      else if isSpecValue firstTok || isDescriptorPn firstTok then none
      else if hasInvalidPnPrefix firstTok then none
      else some (firstTok, "first_token_catalog", 0.68)

/-- The acceptance test of `extract_pn_embedded_code`. -/
def embeddedCandFilter (tok : String) : Bool :=
  !tok.data.contains ' '
    && hasUpperAZ tok && hasDigit tok
    && 10 ≤ tok.length
    && !isSpecValue tok && !isDescriptorPn tok
    && !hasInvalidPnPrefix tok

/-- The middle-token candidate list of `extract_pn_embedded_code`. -/
def embeddedCands (text : String) : List String :=
  ((((pySplitComma (pyNormalize text)).map pyStrip).drop 1).dropLast).filter
    embeddedCandFilter

/-- `extract_pn_embedded_code(text)`. -/
def extractPnEmbeddedCode (text : String) : Option (String × String × ℚ) :=
  if text = "" then none
  else
    if ((pySplitComma (pyNormalize text)).map pyStrip).length < 3 then none
    else
      match embeddedCands text with
      | [] => none
      | _ :: _ => some (maxByLenFirst (embeddedCands text), "embedded_code", 0.72)

/-- The dash-catalog lookahead: whitespace, a dash or slash, whitespace. -/
def wsDashWs (l : List Char) : Bool :=
  let ws := l.takeWhile isPySpace
  if ws.isEmpty then false
  else
    match l.drop ws.length with
    | c :: r2 => (c = '-' || c = '/') && !(r2.takeWhile isPySpace).isEmpty
    | [] => false

/-- The class `[A-Z0-9\-\.]` with `re.IGNORECASE`. -/
def isDashCatChar (c : Char) : Bool :=
  isUpperAZ c || isLowerAZ c || isDigit09 c || c = '-' || c = '.'

/-- Lazy body of the dash-catalog pattern (a lazily grown
class-restricted group, then the separator lookahead): at each position
first try the separator lookahead, only then extend the group. -/
def dashCatalogAux : Nat → List Char → List Char → Option (List Char)
  | 0, _, _ => none
  | fuel + 1, acc, l =>
    if wsDashWs l then some acc.reverse
    else
      match l with
      | [] => none
      | c :: rest =>
        if isDashCatChar c then dashCatalogAux fuel (c :: acc) rest
        else none

/-- `extract_pn_dash_catalog(text)`. -/
def extractPnDashCatalog (text : String) : Option (String × String × ℚ) :=
  if text = "" then none
  else
    let stripped := pyStrip text
    match stripped.data with
    | c :: rest =>
      if isAlnumChar c then
        match dashCatalogAux (rest.length + 1) [c] rest with
        | some g =>
          let candidate := pyUpper (pyStrip ⟨g⟩)
          if hasUpperAZ candidate && hasDigit candidate
              && 3 ≤ candidate.length && candidate.length ≤ 20 then
            some (candidate, "dash_catalog", 0.80)
          else none
        | none => none
      else none
    | [] => none

/-- The text before the first occurrence of a pattern (Python
`s.split(pat)[0]`). -/
def beforeSubAux (pat : List Char) : Nat → List Char → List Char
  | _, [] => []
  | 0, l => l
  | fuel + 1, c :: rest =>
    if pat.isPrefixOf (c :: rest) then []
    else c :: beforeSubAux pat fuel rest

/-- `s.split(pat)[0]` for a non-empty `pat`. -/
def beforeSub (s pat : String) : String :=
  ⟨beforeSubAux pat.data s.data.length s.data⟩

/-- One attempt of `decode_mfg_prefix` at a fixed prefix length. -/
def tryMfgPrefix (ft : String) (plen : Nat) : Option (String × String) :=
  if plen < ft.length then
    let pfx : String := ⟨ft.data.take plen⟩
    let remainder : String := ⟨ft.data.drop plen⟩
    match MFG_PREFIX_MAP.find? fun p => p.1 = pfx with
    | some entry =>
      if hasUpperAZ remainder && hasDigit remainder then
        some (entry.2, remainder)
      else none
    | none => none
  else none

/-- `decode_mfg_prefix(text)` (the `(mfg, remainder_pn)` pair; the source
indexes `split()[0]`, which would raise on whitespace-only text — that
untypable corner is modelled as no match). -/
def decodeMfgPrefix (text : String) : Option String × Option String :=
  if text = "" then (none, none)
  else
    let ft := (pySplitWhitespace (pyNormalize text)).headD ""
    let ft := beforeSub ft " - "
    let ft := (pySplitComma ft).headD ""
    match tryMfgPrefix ft 3 with
    | some r => (some r.1, some r.2)
    | none =>
      match tryMfgPrefix ft 2 with
      | some r => (some r.1, some r.2)
      | none => (none, none)

/-- Full match of the pure-catalog pattern (an alphanumeric, then any run
of alphanumerics, dash, slash, underscore or dot, to the end). -/
def pureCatalogChars (s : String) : Bool :=
  match s.data with
  | c :: rest => (isUpperAZ c || isDigit09 c) && rest.all pnBodyChar
  | [] => false

/-- The inline pure-catalog candidate of `pipeline_mfg_pn` (the whole
first source text is the part number). -/
def pureCatalogCand (texts : List String) : Option (String × String × ℚ) :=
  let firstText := pyNormalize (texts.headD "")
  if pureCatalogChars firstText && firstText.length < 25
      && hasDigit firstText && !isSpecValue firstText then
    some (firstText, "pn_catalog", 0.60)
  else none

/-! ## Claim C2 — spec-value rejection

The filtering strategies (`heuristic`, `pn_structured`, `trailing_catalog`,
`trailing_numeric`, `first_token_catalog`, `embedded_code`, `pn_catalog`)
never return a token matching `SPEC_VALUE_RE`; `extract_pn_dash_catalog`
does not test `_is_spec_value` at all and happily returns `"120V"`.  The
validator's Rule 1 clears any non-blank part-number cell whose normalised
value matches the pattern. -/

/-- A fold whose step always returns one of its two arguments stays among
the collected elements. -/
theorem foldl_mem_of_choice {α : Type} (f : α → α → α)
    (hf : ∀ a b, f a b = a ∨ f a b = b) (x : α) (l : List α) :
    l.foldl f x ∈ x :: l := by
  induction l generalizing x with
  | nil => simp
  | cons y ys ih =>
    rcases hf x y with he | he <;> rw [List.foldl_cons, he]
    · have h := ih x
      simp only [List.mem_cons] at h ⊢
      tauto
    · have h := ih y
      simp only [List.mem_cons] at h ⊢
      tauto

/-- `enumFrom` of a non-empty list is non-empty. -/
theorem enumFrom_nil_iff {α : Type} {n : Nat} {l : List α} :
    enumFrom n l = [] ↔ l = [] := by
  cases l <;> simp [enumFrom]

/-- The top-scored pick stays inside a non-empty candidate list. -/
theorem pickTopScored_mem {cands : List String} (h : cands ≠ []) :
    pickTopScored cands ∈ cands := by
  unfold pickTopScored
  cases henum : enumFrom 0 cands with
  | nil => exact absurd (enumFrom_nil_iff.mp henum) h
  | cons x rest =>
    have hmem := foldl_mem_of_choice
      (fun best y =>
        if qlt (scoreHeuristicPn best.2) (scoreHeuristicPn y.2)
            || (decide (scoreHeuristicPn best.2 = scoreHeuristicPn y.2)
                && decide (best.1 < y.1)) then y
        else best)
      (fun a b => by
        dsimp only
        split
        · exact Or.inr rfl
        · exact Or.inl rfl) x rest
    rw [← henum] at hmem
    exact snd_mem_of_mem_enumFrom hmem

/-- The first-longest pick stays inside a non-empty list. -/
theorem maxByLenFirst_mem {l : List String} (h : l ≠ []) :
    maxByLenFirst l ∈ l := by
  cases l with
  | nil => exact absurd rfl h
  | cons x rest =>
    unfold maxByLenFirst
    exact foldl_mem_of_choice _
      (fun a b => by
        split
        · exact Or.inr rfl
        · exact Or.inl rfl) x rest

/-- Members of the heuristic candidate list pass the heuristic filter. -/
theorem heuristicCands_filter {text v : String} (h : v ∈ heuristicCands text) :
    heuristicCandFilter v = true := by
  obtain ⟨tok, _, hv⟩ := List.mem_filterMap.mp h
  cases hct : cleanPnToken tok with
  | none => rw [hct] at hv; cases hv
  | some tok2 =>
    rw [hct, Option.some_bind] at hv
    split at hv
    case isTrue hf => cases hv; exact hf
    case isFalse => cases hv

/-- The spec-value regex is the first disjunct of `_is_spec_value`. -/
theorem specValueMatch_false_of_not_isSpecValue {v : String}
    (h : isSpecValue v = false) : specValueMatch v = false := by
  unfold isSpecValue at h
  simp only [Bool.or_eq_false_iff] at h
  exact h.1.1.1.1.1

/-- `str.upper` fixes digits, dashes and slashes. -/
theorem plain_toUpper {c : Char}
    (h : isDigit09 c = true ∨ c = '-' ∨ c = '/') : Char.toUpper c = c := by
  simp only [Char.toUpper]
  rw [if_neg]
  rintro ⟨h97, -⟩
  rcases h with hd | he | he
  · simp only [isDigit09, Bool.and_eq_true, decide_eq_true_eq] at hd
    have h2 := hd.2
    rw [Char.le_def] at h2
    have h3 : c.val.toNat ≤ 57 := h2
    have h4 : 97 ≤ c.val.toNat := h97
    omega
  · subst he; exact absurd h97 (by decide)
  · subst he; exact absurd h97 (by decide)

/-- An upper-case letter is not a digit, a dash or a slash. -/
theorem upperAZ_char_facts {c : Char} (h : isUpperAZ c = true) :
    isDigit09 c = false ∧ c ≠ '-' ∧ c ≠ '/' := by
  simp only [isUpperAZ, Bool.and_eq_true, decide_eq_true_eq] at h
  refine ⟨?_, ?_, ?_⟩
  · by_contra hdig
    rw [Bool.not_eq_false] at hdig
    simp only [isDigit09, Bool.and_eq_true, decide_eq_true_eq] at hdig
    exact absurd (le_trans h.1 hdig.2) (by decide)
  · intro he
    rw [he] at h
    exact absurd h.1 (by decide)
  · intro he
    rw [he] at h
    exact absurd h.1 (by decide)

/-- Every unit suffix of `SPEC_VALUE_RE` contains an upper-case letter. -/
theorem spec_unit_has_upper :
    ∀ u ∈ SPEC_UNIT_SUFFIXES, u.data.any isUpperAZ = true := by decide

/-- `specValueCore` fails on text made only of digits, dashes, slashes. -/
theorem specValueCore_false_of_plain {cs : List Char}
    (h : ∀ c ∈ cs, isDigit09 c = true ∨ c = '-' ∨ c = '/') :
    specValueCore cs = false := by
  have hany : ∀ X : List Char, (∀ c ∈ X, c ∈ cs) →
      (SPEC_UNIT_SUFFIXES.any fun u => u.data = X) = false := by
    intro X hX
    rw [List.any_eq_false]
    intro u hu
    intro heqd
    have heq : u.data = X := of_decide_eq_true heqd
    obtain ⟨c, hcmem, hcup⟩ := List.any_eq_true.mp (spec_unit_has_upper u hu)
    rw [heq] at hcmem
    have hplain := h c (hX c hcmem)
    obtain ⟨hd, hdash, hslash⟩ := upperAZ_char_facts hcup
    rcases hplain with hp | hp | hp
    · rw [hd] at hp
      cases hp
    · exact hdash hp
    · exact hslash hp
  unfold specValueCore
  dsimp only
  split
  · rfl
  · split
    next r2 heq =>
      split
      · rfl
      · apply hany
        intro c hc
        have h1 : c ∈ r2 := List.drop_subset _ _ hc
        have h2 := List.mem_cons_of_mem '/' h1
        rw [← heq] at h2
        exact List.drop_subset _ _ h2
    next =>
      apply hany
      intro c hc
      exact List.drop_subset _ _ hc

/-- `SPEC_VALUE_RE` fails on strings of digits, dashes and slashes. -/
theorem specValueMatch_false_of_plain {v : String}
    (h : ∀ c ∈ v.data, isDigit09 c = true ∨ c = '-' ∨ c = '/') :
    specValueMatch v = false := by
  have hu : ∀ c ∈ v.data.map Char.toUpper,
      isDigit09 c = true ∨ c = '-' ∨ c = '/' := by
    intro c hc
    obtain ⟨a, ha, hae⟩ := List.mem_map.mp hc
    rw [← hae, plain_toUpper (h a ha)]
    exact h a ha
  unfold specValueMatch
  dsimp only
  split
  next r heq =>
    apply Bool.or_eq_false_iff.mpr
    refine ⟨?_, specValueCore_false_of_plain hu⟩
    apply specValueCore_false_of_plain
    intro c hc
    apply hu
    rw [heq]
    exact List.mem_cons_of_mem _ (List.mem_cons_of_mem _ hc)
  next r heq =>
    apply Bool.or_eq_false_iff.mpr
    refine ⟨?_, specValueCore_false_of_plain hu⟩
    apply specValueCore_false_of_plain
    intro c hc
    apply hu
    rw [heq]
    exact List.mem_cons_of_mem _ (List.mem_cons_of_mem _ hc)
  next =>
    exact specValueCore_false_of_plain hu

/-- Dropping the length of `takeWhile` is `dropWhile`. -/
theorem drop_length_takeWhile {α : Type} (p : α → Bool) (l : List α) :
    l.drop (l.takeWhile p).length = l.dropWhile p := by
  induction l with
  | nil => rfl
  | cons a as ih =>
    by_cases hp : p a
    · rw [List.takeWhile_cons, if_pos hp, List.length_cons, List.drop_succ_cons,
        ih, List.dropWhile_cons, if_pos hp]
    · rw [List.takeWhile_cons, if_neg hp, List.length_nil, List.drop_zero,
        List.dropWhile_cons, if_neg hp]

/-- Text accepted by the numeric-dash group scanner holds only digits,
dashes and slashes. -/
theorem numDashGroupsAux_plain :
    ∀ (fuel : Nat) (l : List Char), numDashGroupsAux fuel l = true →
      ∀ c ∈ l, isDigit09 c = true ∨ c = '-' ∨ c = '/' := by
  intro fuel
  induction fuel with
  | zero =>
    intro l h
    cases l with
    | nil => cases h
    | cons a as => cases h
  | succ fuel ih =>
    intro l h
    cases l with
    | nil => cases h
    | cons a as =>
      unfold numDashGroupsAux at h
      split at h
      case isFalse => cases h
      case isTrue hsep =>
        simp only [Bool.or_eq_true, decide_eq_true_eq] at hsep
        dsimp only at h
        split at h
        · cases h
        · split at h
          case isTrue hrempty =>
            intro c hc
            rcases List.mem_cons.mp hc with rfl | hcs
            · right; exact hsep
            · left
              have hdw : as.dropWhile isDigit09 = [] := by
                rw [← drop_length_takeWhile]
                exact List.isEmpty_iff.mp hrempty
              have hsplit2 : c ∈ as.takeWhile isDigit09
                  ++ as.dropWhile isDigit09 := by
                rw [List.takeWhile_append_dropWhile]
                exact hcs
              rw [hdw, List.append_nil] at hsplit2
              exact List.mem_takeWhile_imp hsplit2
          case isFalse hrne =>
            intro c hc
            rcases List.mem_cons.mp hc with rfl | hcs
            · right; exact hsep
            · have hsplit2 : c ∈ as.takeWhile isDigit09
                  ++ as.dropWhile isDigit09 := by
                rw [List.takeWhile_append_dropWhile]
                exact hcs
              rcases List.mem_append.mp hsplit2 with h1 | h1
              · exact Or.inl (List.mem_takeWhile_imp h1)
              · rw [← drop_length_takeWhile] at h1
                exact ih _ h c h1

/-- A token matched by the numeric-dash pattern holds only digits, dashes
and slashes. -/
theorem numDashCode_plain {x : String} (h : numDashCode x = true) :
    ∀ c ∈ x.data, isDigit09 c = true ∨ c = '-' ∨ c = '/' := by
  unfold numDashCode at h
  dsimp only at h
  rcases Bool.and_eq_true_iff.mp h with ⟨-, hgroups⟩
  intro c hc
  have hsplit2 : c ∈ x.data.takeWhile isDigit09
      ++ x.data.dropWhile isDigit09 := by
    rw [List.takeWhile_append_dropWhile]
    exact hc
  rcases List.mem_append.mp hsplit2 with h1 | h1
  · exact Or.inl (List.mem_takeWhile_imp h1)
  · rw [← drop_length_takeWhile] at h1
    exact numDashGroupsAux_plain _ _ hgroups c h1

/-- The heuristic strategy never returns a spec value. -/
theorem extractPnHeuristic_not_spec {t v s : String} {q : ℚ}
    (h : extractPnHeuristic t = some (v, s, q)) : specValueMatch v = false := by
  unfold extractPnHeuristic at h
  split at h
  · cases h
  · have hvmem : v ∈ heuristicCands t := by
      cases hcs : heuristicCands t with
      | nil => rw [hcs] at h; cases h
      | cons c cs =>
        cases cs with
        | nil =>
          rw [hcs] at h
          have hv : c = v := congrArg (fun p => p.1) (Option.some.inj h)
          rw [← hv]
          exact List.mem_cons_self c []
        | cons c2 cs2 =>
          rw [hcs] at h
          have hv : pickTopScored (c :: c2 :: cs2) = v :=
            congrArg (fun p => p.1) (Option.some.inj h)
          rw [← hv]
          exact pickTopScored_mem (by simp)
    have hf := heuristicCands_filter hvmem
    unfold heuristicCandFilter at hf
    simp only [Bool.and_eq_true, Bool.not_eq_true'] at hf
    exact specValueMatch_false_of_not_isSpecValue hf.1.1.2

/-- The structured strategy never returns a spec value. -/
theorem extractPnStructured_not_spec {t v s : String} {q : ℚ}
    (h : extractPnStructured t = some (v, s, q)) : specValueMatch v = false := by
  unfold extractPnStructured at h
  split at h
  · cases h
  · have hvmem : v ∈ structuredValid t := by
      cases hcs : structuredValid t with
      | nil => rw [hcs] at h; cases h
      | cons c cs =>
        rw [hcs] at h
        have hv : maxByLenFirst (c :: cs) = v :=
          congrArg (fun p => p.1) (Option.some.inj h)
        rw [← hv]
        exact maxByLenFirst_mem (by simp)
    have hf := (List.mem_filter.mp hvmem).2
    unfold structuredValidFilter at hf
    simp only [Bool.and_eq_true, Bool.not_eq_true'] at hf
    exact specValueMatch_false_of_not_isSpecValue hf.1.1.1.1.1.1

/-- The embedded-code strategy never returns a spec value. -/
theorem extractPnEmbeddedCode_not_spec {t v s : String} {q : ℚ}
    (h : extractPnEmbeddedCode t = some (v, s, q)) : specValueMatch v = false := by
  unfold extractPnEmbeddedCode at h
  split at h
  · cases h
  · split at h
    · cases h
    · have hvmem : v ∈ embeddedCands t := by
        cases hcs : embeddedCands t with
        | nil => rw [hcs] at h; cases h
        | cons c cs =>
          rw [hcs] at h
          have hv : maxByLenFirst (c :: cs) = v :=
            congrArg (fun p => p.1) (Option.some.inj h)
          rw [← hv]
          exact maxByLenFirst_mem (by simp)
      have hf := (List.mem_filter.mp hvmem).2
      unfold embeddedCandFilter at hf
      simp only [Bool.and_eq_true, Bool.not_eq_true'] at hf
      exact specValueMatch_false_of_not_isSpecValue hf.1.1.2

/-- The trailing-catalog strategy never returns a spec value. -/
theorem extractPnTrailingCatalog_not_spec {t v s : String} {q : ℚ}
    (h : extractPnTrailingCatalog t = some (v, s, q)) :
    specValueMatch v = false := by
  unfold extractPnTrailingCatalog at h
  dsimp only at h
  split at h
  · cases h
  split at h
  · cases h
  split at h
  · cases h
  split at h
  · cases h
  split at h
  · cases h
  case isFalse hspec =>
    split at h
    · cases h
    split at h
    · cases h
    split at h
    · cases h
    have hv := congrArg (fun p => p.1) (Option.some.inj h)
    dsimp only at hv
    rw [← hv]
    rw [Bool.not_eq_true] at hspec
    exact specValueMatch_false_of_not_isSpecValue
      (Bool.or_eq_false_iff.mp hspec).1

/-- The trailing-numeric strategy never returns a spec value. -/
theorem extractPnTrailingNumeric_not_spec {t v s : String} {q : ℚ}
    (h : extractPnTrailingNumeric t = some (v, s, q)) :
    specValueMatch v = false := by
  unfold extractPnTrailingNumeric at h
  dsimp only at h
  split at h
  · cases h
  split at h
  · cases h
  split at h
  case isTrue hdig =>
    have hv := congrArg (fun p => p.1) (Option.some.inj h)
    dsimp only at hv
    rw [← hv]
    apply specValueMatch_false_of_plain
    intro c hc
    rcases Bool.and_eq_true_iff.mp hdig with ⟨hd, -⟩
    rcases Bool.and_eq_true_iff.mp hd with ⟨-, hall⟩
    exact Or.inl (List.all_eq_true.mp hall c hc)
  split at h
  case isTrue hnd =>
    have hv := congrArg (fun p => p.1) (Option.some.inj h)
    dsimp only at hv
    rw [← hv]
    apply specValueMatch_false_of_plain
    exact numDashCode_plain (Bool.and_eq_true_iff.mp hnd).1
  · cases h

/-- The first-token-catalog strategy never returns a spec value. -/
theorem extractPnFirstTokenCatalog_not_spec {t v s : String} {q : ℚ}
    (h : extractPnFirstTokenCatalog t = some (v, s, q)) :
    specValueMatch v = false := by
  unfold extractPnFirstTokenCatalog at h
  dsimp only at h
  split at h
  · cases h
  split at h
  · cases h
  split at h
  · cases h
  split at h
  · cases h
  split at h
  · cases h
  split at h
  · cases h
  case isFalse hspec =>
    split at h
    · cases h
    have hv := congrArg (fun p => p.1) (Option.some.inj h)
    dsimp only at hv
    rw [← hv]
    rw [Bool.not_eq_true] at hspec
    exact specValueMatch_false_of_not_isSpecValue
      (Bool.or_eq_false_iff.mp hspec).1

/-- The pure-catalog candidate is never a spec value. -/
theorem pureCatalogCand_not_spec {ts : List String} {v s : String} {q : ℚ}
    (h : pureCatalogCand ts = some (v, s, q)) : specValueMatch v = false := by
  unfold pureCatalogCand at h
  dsimp only at h
  split at h
  case isTrue hcond =>
    have hv := congrArg (fun p => p.1) (Option.some.inj h)
    dsimp only at hv
    rw [← hv]
    simp only [Bool.and_eq_true, Bool.not_eq_true'] at hcond
    exact specValueMatch_false_of_not_isSpecValue hcond.2
  case isFalse => cases h

/-- Unfolding the first pass of `runRules` for membership. -/
theorem runRules_first_corr {s : RuleSpec} {rest : List RuleSpec}
    {rows : List VRow} {c : Corr}
    (hc : c ∈ (clearIf s.fld s.reason s.cond rows).2) :
    c ∈ (runRules (s :: rest) rows).2 := by
  unfold runRules
  dsimp only
  exact List.mem_append_left _ hc

/-- The first pass clears its cell when its guard holds, and the cell
stays blank through the remaining passes. -/
theorem rsStep_first_clears {s : RuleSpec} {rest : List RuleSpec} {r : VRow}
    (hguard : guardBool s.fld s.cond r = true) :
    (rsStep (s :: rest) r).get s.fld = "" := by
  rw [rsStep_cons]
  apply rsStep_get_empty
  rcases clearStep_spec s.fld s.cond r with ⟨-, hg⟩ | ⟨he, -, -⟩
  · rw [hguard] at hg
    cases hg
  · rw [he, VRow.get_set]
    simp

/-- A head pass whose guard holds at a row clears that row's cell of the
run's output and contributes its correction to the run's records. -/
theorem runRules_head_clears {s : RuleSpec} {rest : List RuleSpec}
    {rows : List VRow} {i : Nat} {r : VRow} (hget : rows.get? i = some r)
    (hguard : guardBool s.fld s.cond r = true) :
    ∃ r', (runRules (s :: rest) rows).1.get? i = some r'
      ∧ r'.get s.fld = ""
      ∧ (⟨i, s.fld, pyNormalize (r.get s.fld), s.reason, "cleared"⟩ : Corr)
          ∈ (runRules (s :: rest) rows).2 := by
  refine ⟨rsStep (s :: rest) r, ?_, rsStep_first_clears hguard, ?_⟩
  · rw [runRules_fst, List.get?_map, hget, Option.map_some']
  · exact runRules_first_corr (mem_clearIf_corr_iff.mpr ⟨r, hget, hguard, rfl⟩)

/-- Rule 1 of the validator clears any non-blank part-number cell whose
normalised value matches `SPEC_VALUE_RE`, recording a `spec_value`
correction, and the cell is blank in the returned table. -/
theorem validator_rule1_clears {rows : List VRow} {i : Nat} {r : VRow}
    (hget : rows.get? i = some r)
    (hspec : specValueMatch (pyNormalize r.pn) = true)
    (hblank : isBlankPy (pyNormalize r.pn) = false) :
    ∃ r', (validateAndClean rows).1.get? i = some r' ∧ r'.pn = ""
      ∧ (⟨i, .pn, pyNormalize r.pn, "spec_value", "cleared"⟩ : Corr)
          ∈ (validateAndClean rows).2 := by
  rw [validateAndClean_eq_runRules]
  generalize KNOWN_MANUFACTURERS ++ inFrameMfgs rows = ak
  have hguard : guardBool .pn rule1Cond r = true := by
    unfold guardBool rule1Cond
    rw [show r.get .pn = r.pn from rfl, hblank, hspec]
    rfl
  have hsplit : VAL_RULES ak
      = (⟨.pn, "spec_value", rule1Cond⟩ : RuleSpec) :: (VAL_RULES ak).drop 1 :=
    rfl
  rw [hsplit]
  obtain ⟨r', h1, h2, h3⟩ :=
    @runRules_head_clears (⟨.pn, "spec_value", rule1Cond⟩ : RuleSpec)
      ((VAL_RULES ak).drop 1) rows i r hget hguard
  exact ⟨r', h1, h2, h3⟩

set_option maxRecDepth 16384 in
set_option maxHeartbeats 1000000 in
/-- C2, counterexample: the dash-catalog strategy returns the voltage
token `"120V"`, which matches `SPEC_VALUE_RE`, as its part-identifier
candidate — the claim's "never returned by any strategy" fails. -/
theorem C2_counterexample :
    extractPnDashCatalog "120V - POWER SUPPLY"
      = some ("120V", "dash_catalog", (0.80 : ℚ))
    ∧ specValueMatch "120V" = true :=
  ⟨rfl, rfl⟩

/-- C2 (amended): every *filtering* part-number strategy — heuristic,
structured, trailing catalog, trailing numeric, first-token catalog,
embedded code and pure catalog — never returns a token matching the
numeric-plus-unit spec-value pattern (the dash-catalog, label and
prefix/composite-decode candidates are not covered: they perform no
spec-value test, see `C2_counterexample`); and whenever such a token
occupies a non-blank part-number cell of a table, `validate_and_clean`
blanks that cell and records a `spec_value` correction for it. -/
theorem C2_spec_value_rejection :
    (∀ t v s q, extractPnHeuristic t = some (v, s, q) →
      specValueMatch v = false)
    ∧ (∀ t v s q, extractPnStructured t = some (v, s, q) →
      specValueMatch v = false)
    ∧ (∀ t v s q, extractPnTrailingCatalog t = some (v, s, q) →
      specValueMatch v = false)
    ∧ (∀ t v s q, extractPnTrailingNumeric t = some (v, s, q) →
      specValueMatch v = false)
    ∧ (∀ t v s q, extractPnFirstTokenCatalog t = some (v, s, q) →
      specValueMatch v = false)
    ∧ (∀ t v s q, extractPnEmbeddedCode t = some (v, s, q) →
      specValueMatch v = false)
    ∧ (∀ ts v s q, pureCatalogCand ts = some (v, s, q) →
      specValueMatch v = false)
    ∧ (∀ rows i r, rows.get? i = some r →
      specValueMatch (pyNormalize r.pn) = true →
      isBlankPy (pyNormalize r.pn) = false →
      ∃ r', (validateAndClean rows).1.get? i = some r' ∧ r'.pn = ""
        ∧ (⟨i, .pn, pyNormalize r.pn, "spec_value", "cleared"⟩ : Corr)
            ∈ (validateAndClean rows).2) :=
  ⟨fun _ _ _ _ h => extractPnHeuristic_not_spec h,
   fun _ _ _ _ h => extractPnStructured_not_spec h,
   fun _ _ _ _ h => extractPnTrailingCatalog_not_spec h,
   fun _ _ _ _ h => extractPnTrailingNumeric_not_spec h,
   fun _ _ _ _ h => extractPnFirstTokenCatalog_not_spec h,
   fun _ _ _ _ h => extractPnEmbeddedCode_not_spec h,
   fun _ _ _ _ h => pureCatalogCand_not_spec h,
   fun _ _ _ hget hspec hblank => validator_rule1_clears hget hspec hblank⟩

set_option maxRecDepth 16384 in
set_option maxHeartbeats 1000000 in
/-- C2, witness: the heuristic clause at a concrete one-token text, and
the validator clause at a one-row table whose part-number cell is
`"120V"`. -/
theorem C2_witness :
    specValueMatch "AB12CD" = false
    ∧ ∃ r', (validateAndClean [⟨"ACME", "120V", ["x"]⟩]).1.get? 0 = some r'
        ∧ r'.pn = ""
        ∧ (⟨0, .pn, "120V", "spec_value", "cleared"⟩ : Corr)
            ∈ (validateAndClean [⟨"ACME", "120V", ["x"]⟩]).2 := by
  constructor
  · exact C2_spec_value_rejection.1 "AB12CD" "AB12CD" "heuristic"
      (scoreHeuristicPn "AB12CD") rfl
  · exact C2_spec_value_rejection.2.2.2.2.2.2.2 [⟨"ACME", "120V", ["x"]⟩] 0
      ⟨"ACME", "120V", ["x"]⟩ rfl (by decide) (by decide)

/-! ## Archetype weights, schema multipliers and thresholds
(`file_profiler.py`, `schema_classifier.py`) -/

/-- Content archetypes of `file_profiler.py`. -/
inductive Archetype
  | LABELED_RICH
  | COMPRESSED_SHORT
  | CATALOG_ONLY
  | MIXED
deriving DecidableEq

/-- Schema templates of `schema_classifier.py`. -/
inductive Template
  | SAP_SHORT_TEXT
  | SAP_DUAL_SOURCE
  | SAP_STANDARD
  | DISTRIBUTOR_ORDER
  | LABELED_SPEC
  | GENERIC
deriving DecidableEq

/-- `STRATEGY_WEIGHTS` from `file_profiler.py`. -/
def STRATEGY_WEIGHTS : Archetype → List (String × ℚ)
  | .LABELED_RICH =>
    [("label", 1.2), ("known_mfg", 1.0), ("context", 1.0),
     ("prefix_decode", 0.5), ("supplier_fallback", 0.3), ("heuristic", 0.6),
     ("dash_catalog", 1.0), ("trailing_catalog", 1.0),
     ("trailing_numeric", 0.9), ("pn_structured", 1.0),
     ("first_token_catalog", 1.0), ("embedded_code", 0.8)]
  | .COMPRESSED_SHORT =>
    [("label", 1.0), ("known_mfg", 1.2), ("context", 0.8),
     ("prefix_decode", 1.3), ("supplier_fallback", 1.2), ("heuristic", 0.4),
     ("dash_catalog", 1.0), ("trailing_catalog", 1.0),
     ("trailing_numeric", 0.9), ("pn_structured", 1.0),
     ("first_token_catalog", 1.0), ("embedded_code", 1.2)]
  | .CATALOG_ONLY =>
    [("label", 0.8), ("known_mfg", 0.5), ("context", 0.3),
     ("prefix_decode", 1.0), ("supplier_fallback", 1.5), ("heuristic", 0.3),
     ("dash_catalog", 1.3), ("trailing_catalog", 1.0),
     ("trailing_numeric", 0.9), ("pn_structured", 1.0),
     ("first_token_catalog", 1.1), ("embedded_code", 0.9)]
  | .MIXED =>
    [("label", 1.0), ("known_mfg", 1.0), ("context", 1.0),
     ("prefix_decode", 1.0), ("supplier_fallback", 1.0), ("heuristic", 0.75),
     ("dash_catalog", 1.0), ("trailing_catalog", 1.0),
     ("trailing_numeric", 0.9), ("pn_structured", 1.0),
     ("first_token_catalog", 1.0), ("embedded_code", 1.0)]

/-- `SCHEMA_MULTIPLIERS` from `schema_classifier.py`. -/
def SCHEMA_MULTIPLIERS : Template → List (String × ℚ)
  | .SAP_SHORT_TEXT =>
    [("label", 0.9), ("known_mfg", 1.4), ("context", 0.8),
     ("prefix_decode", 1.5), ("supplier_fallback", 1.6), ("heuristic", 0.3),
     ("dash_catalog", 1.0), ("trailing_catalog", 1.2),
     ("trailing_numeric", 1.0), ("pn_structured", 1.0),
     ("first_token_catalog", 1.2), ("embedded_code", 1.4)]
  | .SAP_DUAL_SOURCE =>
    [("label", 1.2), ("known_mfg", 1.1), ("context", 1.2),
     ("prefix_decode", 1.1), ("supplier_fallback", 0.8), ("heuristic", 0.7),
     ("dash_catalog", 1.0), ("trailing_catalog", 1.0),
     ("trailing_numeric", 0.9), ("pn_structured", 1.0),
     ("first_token_catalog", 1.0), ("embedded_code", 1.0)]
  | .SAP_STANDARD =>
    [("label", 1.1), ("known_mfg", 1.0), ("context", 1.0),
     ("prefix_decode", 0.9), ("supplier_fallback", 0.6), ("heuristic", 0.8),
     ("dash_catalog", 1.0), ("trailing_catalog", 1.0),
     ("trailing_numeric", 0.9), ("pn_structured", 1.0),
     ("first_token_catalog", 1.0), ("embedded_code", 1.0)]
  | .DISTRIBUTOR_ORDER =>
    [("label", 0.8), ("known_mfg", 0.9), ("context", 0.7),
     ("prefix_decode", 1.0), ("supplier_fallback", 1.8), ("heuristic", 0.5),
     ("dash_catalog", 1.4), ("trailing_catalog", 1.1),
     ("trailing_numeric", 1.0), ("pn_structured", 1.0),
     ("first_token_catalog", 1.2), ("embedded_code", 1.1)]
  | .LABELED_SPEC =>
    [("label", 1.5), ("known_mfg", 1.0), ("context", 1.0),
     ("prefix_decode", 0.5), ("supplier_fallback", 0.3), ("heuristic", 0.5),
     ("dash_catalog", 0.8), ("trailing_catalog", 0.9),
     ("trailing_numeric", 0.8), ("pn_structured", 1.0),
     ("first_token_catalog", 0.9), ("embedded_code", 0.8)]
  | .GENERIC =>
    [("label", 1.0), ("known_mfg", 1.0), ("context", 1.0),
     ("prefix_decode", 1.0), ("supplier_fallback", 1.0), ("heuristic", 1.0),
     ("dash_catalog", 1.0), ("trailing_catalog", 1.0),
     ("trailing_numeric", 1.0), ("pn_structured", 1.0),
     ("first_token_catalog", 1.0), ("embedded_code", 1.0)]

/-- `SCHEMA_CONFIDENCE_THRESHOLDS` from `schema_classifier.py`. -/
def SCHEMA_CONFIDENCE_THRESHOLDS : Template → ℚ
  | .SAP_SHORT_TEXT => 0.42
  | .SAP_DUAL_SOURCE => 0.36
  | .SAP_STANDARD => 0.38
  | .DISTRIBUTOR_ORDER => 0.45
  | .LABELED_SPEC => 0.32
  | .GENERIC => 0.40

/-- The content-archetype confidence thresholds of `_classify_archetype`. -/
def ARCHETYPE_THRESHOLD : Archetype → ℚ
  | .LABELED_RICH => 0.35
  | .COMPRESSED_SHORT => 0.45
  | .CATALOG_ONLY => 0.50
  | .MIXED => 0.40

/-- `dict.get(k)` on a weight table. -/
def qdictFind (m : List (String × ℚ)) (k : String) : Option ℚ :=
  match m.find? fun p => p.1 = k with
  | some p => some p.2
  | none => none

/-- `dict.get(k, d)` on a weight table. -/
def qdictGetD (m : List (String × ℚ)) (k : String) (d : ℚ) : ℚ :=
  match m.find? fun p => p.1 = k with
  | some p => p.2
  | none => d

/-- Python `round` to an integer: round half to even. -/
def pyRoundInt (x : ℚ) : ℤ :=
  let f := ⌊x⌋
  let frac := x - f
  if frac < 1 / 2 then f
  else if 1 / 2 < frac then f + 1
  else if f % 2 = 0 then f else f + 1

/-- Python `round(x, n)` in exact arithmetic. -/
def pyRoundTo (n : Nat) (x : ℚ) : ℚ := (pyRoundInt (x * 10 ^ n) : ℚ) / 10 ^ n

/-- `_merge_weights(content_weights, schema_multipliers)`: the union of
both key sets, each key mapped to the rounded product of its two lookups
with default 1.0.  Python iterates a `set`, whose order is unspecified;
the keys are listed here in first-appearance order, and every claim about
the result reads it through lookups only. -/
def mergeWeights (cw sm : List (String × ℚ)) : List (String × ℚ) :=
  (dedupFirst (cw.map Prod.fst ++ sm.map Prod.fst)).map fun k =>
    (k, pyRoundTo 4 (qdictGetD cw k 1 * qdictGetD sm k 1))

/-- `_blend_threshold(schema_threshold, content_threshold)`. -/
def blendThreshold (s c : ℚ) : ℚ :=
  pyRoundTo 3 (max (0.35 : ℚ) (s * 0.6 + c * 0.4))

/-! ## Claims C7 and C8 — weight merging and threshold blending -/

/-- Python `round` is the identity on fractions with denominator `10^n`. -/
theorem pyRoundTo_intdiv (n : Nat) (k : ℤ) :
    pyRoundTo n ((k : ℚ) / 10 ^ n) = (k : ℚ) / 10 ^ n := by
  unfold pyRoundTo pyRoundInt
  have hx : (k : ℚ) / 10 ^ n * 10 ^ n = (k : ℚ) := by
    field_simp
  rw [hx]
  rw [Int.floor_intCast]
  norm_num

/-- Deduplication keeps every element (forward direction). -/
theorem mem_dedupFirstAux_of_mem {seen l : List String} {k : String}
    (h : k ∈ l) : k ∈ seen ∨ k ∈ dedupFirstAux seen l := by
  induction l generalizing seen with
  | nil => cases h
  | cons v rest ih =>
    unfold dedupFirstAux
    by_cases hs : seen.contains v
    · rw [if_pos hs]
      rcases List.mem_cons.mp h with rfl | h1
      · exact Or.inl (by simpa [List.contains, List.elem_eq_mem] using hs)
      · exact ih h1
    · rw [if_neg hs]
      rcases List.mem_cons.mp h with rfl | h1
      · exact Or.inr (List.mem_cons_self _ _)
      · rcases @ih (v :: seen) h1 with h2 | h2
        · rcases List.mem_cons.mp h2 with rfl | h3
          · exact Or.inr (List.mem_cons_self _ _)
          · exact Or.inl h3
        · exact Or.inr (List.mem_cons_of_mem _ h2)

/-- `find?` by key over a keyed map hits the key. -/
theorem find_key_map {f : String → String × ℚ} {l : List String} {k : String}
    (h : k ∈ l) (hf : ∀ k', (f k').1 = k') :
    (l.map f).find? (fun p => p.1 = k) = some (f k) := by
  induction l with
  | nil => cases h
  | cons a as ih =>
    by_cases hak : a = k
    · subst hak
      rw [List.map_cons, List.find?_cons_of_pos]
      simp [hf]
    · rcases List.mem_cons.mp h with h1 | h1
      · exact absurd h1.symm hak
      · rw [List.map_cons, List.find?_cons_of_neg]
        · exact ih h1
        · simp [hf, hak]

/-- C7: for every pair of weight tables and every strategy key present in
either, the merged table's lookup is defined and equals the rounded
product of the two lookups with default 1.0 — merging is total over the
union of the key sets.  (The built-in content tables and schema
multiplier tables are instances.) -/
theorem C7_merge_weights :
    ∀ (cw sm : List (String × ℚ)) (k : String),
      k ∈ cw.map Prod.fst ++ sm.map Prod.fst →
      qdictFind (mergeWeights cw sm) k
        = some (pyRoundTo 4 (qdictGetD cw k 1 * qdictGetD sm k 1)) := by
  intro cw sm k h
  have hmem : k ∈ dedupFirst (cw.map Prod.fst ++ sm.map Prod.fst) := by
    rcases @mem_dedupFirstAux_of_mem [] _ _ h with h2 | h2
    · cases h2
    · exact h2
  unfold mergeWeights qdictFind
  rw [find_key_map hmem (fun k' => rfl)]

/-- C7, witness: the dash-catalog weight of a catalog-only file classified
as a distributor order. -/
theorem C7_witness :
    qdictFind
        (mergeWeights (STRATEGY_WEIGHTS .CATALOG_ONLY)
          (SCHEMA_MULTIPLIERS .DISTRIBUTOR_ORDER)) "dash_catalog"
      = some (pyRoundTo 4
          (qdictGetD (STRATEGY_WEIGHTS .CATALOG_ONLY) "dash_catalog" 1
            * qdictGetD (SCHEMA_MULTIPLIERS .DISTRIBUTOR_ORDER)
                "dash_catalog" 1)) :=
  C7_merge_weights (STRATEGY_WEIGHTS .CATALOG_ONLY)
    (SCHEMA_MULTIPLIERS .DISTRIBUTOR_ORDER) "dash_catalog" (by decide)

/-- The blend of two-decimal thresholds needs no third-decimal rounding. -/
theorem blend_eq_unrounded {s c : ℚ} (ks kc : ℤ)
    (hs : s = (ks : ℚ) / 100) (hc : c = (kc : ℚ) / 100) :
    blendThreshold s c = max 0.35 (s * 0.6 + c * 0.4) := by
  subst hs
  subst hc
  unfold blendThreshold
  have hmax : max (0.35 : ℚ) ((ks : ℚ) / 100 * 0.6 + (kc : ℚ) / 100 * 0.4)
      = ((max 350 (ks * 6 + kc * 4) : ℤ) : ℚ) / 10 ^ 3 := by
    rw [Int.cast_max]
    rw [← max_div_div_right (by norm_num : (0 : ℚ) ≤ 10 ^ 3)]
    congr 1
    · norm_num
    · push_cast
      ring
  rw [hmax, pyRoundTo_intdiv]

/-- C8: for every schema template and every content archetype, the
blended confidence threshold equals
`max(0.35, schema_threshold * 0.6 + content_threshold * 0.4)` exactly
(the source's rounding to 3 decimal places is the identity on every
reachable blend, all inputs having two decimals). -/
theorem C8_blend_threshold :
    ∀ (tpl : Template) (ar : Archetype),
      blendThreshold (SCHEMA_CONFIDENCE_THRESHOLDS tpl)
          (ARCHETYPE_THRESHOLD ar)
        = max 0.35 (SCHEMA_CONFIDENCE_THRESHOLDS tpl * 0.6
            + ARCHETYPE_THRESHOLD ar * 0.4) := by
  have hs : ∀ tpl : Template, ∃ k : ℤ,
      SCHEMA_CONFIDENCE_THRESHOLDS tpl = (k : ℚ) / 100 := by
    intro tpl
    cases tpl
    · exact ⟨42, by norm_num [SCHEMA_CONFIDENCE_THRESHOLDS]⟩
    · exact ⟨36, by norm_num [SCHEMA_CONFIDENCE_THRESHOLDS]⟩
    · exact ⟨38, by norm_num [SCHEMA_CONFIDENCE_THRESHOLDS]⟩
    · exact ⟨45, by norm_num [SCHEMA_CONFIDENCE_THRESHOLDS]⟩
    · exact ⟨32, by norm_num [SCHEMA_CONFIDENCE_THRESHOLDS]⟩
    · exact ⟨40, by norm_num [SCHEMA_CONFIDENCE_THRESHOLDS]⟩
  have hc : ∀ ar : Archetype, ∃ k : ℤ,
      ARCHETYPE_THRESHOLD ar = (k : ℚ) / 100 := by
    intro ar
    cases ar
    · exact ⟨35, by norm_num [ARCHETYPE_THRESHOLD]⟩
    · exact ⟨45, by norm_num [ARCHETYPE_THRESHOLD]⟩
    · exact ⟨50, by norm_num [ARCHETYPE_THRESHOLD]⟩
    · exact ⟨40, by norm_num [ARCHETYPE_THRESHOLD]⟩
  intro tpl ar
  obtain ⟨ks, hks⟩ := hs tpl
  obtain ⟨kc, hkc⟩ := hc ar
  exact blend_eq_unrounded ks kc hks hkc

/-! ## Claim C4 — label vs heuristic arbitration (`pick_best`) -/

/-- One scored entry of `pick_best` (skip null values, weight the
confidence by the strategy weight with default 1.0). -/
def scoreCand (w : List (String × ℚ)) (c : Option String × String × ℚ) :
    Option (String × String × ℚ) :=
  match c.1 with
  | none => none
  | some v => some (v, c.2.1, c.2.2 * qdictGetD w c.2.1 1)

/-- One comparison step of the stable descending sort of `pick_best`:
`scored.sort(key=weighted, reverse=True)[0]` is the first entry of
maximal weighted confidence, i.e. a fold replacing the best-so-far only
on strictly greater confidence. -/
def pickStep (b y : String × String × ℚ) : String × String × ℚ :=
  if qlt b.2.2 y.2.2 then y else b

/-- `pick_best(candidates, strategy_weights)`. -/
def pickBest (cands : List (Option String × String × ℚ))
    (w : List (String × ℚ)) : Option String × String × ℚ :=
  match cands.filterMap (scoreCand w) with
  | [] => (none, "none", 0)
  | s :: rest =>
    let best := rest.foldl pickStep s
    (some best.1, best.2.1, best.2.2)

/-- `_score_heuristic_pn` is capped at 0.65. -/
theorem scoreHeuristicPn_le (c : String) : scoreHeuristicPn c ≤ 0.65 := by
  unfold scoreHeuristicPn
  dsimp only
  exact max_le (by norm_num) (min_le_left _ _)

/-- Evaluation helper for a 4-decimal rounding. -/
theorem pyR4 {x : ℚ} {m : ℤ} (h : x = (m : ℚ) / 10 ^ 4) :
    pyRoundTo 4 x = (m : ℚ) / 10 ^ 4 := by
  rw [h, pyRoundTo_intdiv]

/-- Evaluation helper for a 3-decimal rounding. -/
theorem pyR3 {x : ℚ} {m : ℤ} (h : x = (m : ℚ) / 10 ^ 3) :
    pyRoundTo 3 x = (m : ℚ) / 10 ^ 3 := by
  rw [h, pyRoundTo_intdiv]

/-- The pick fold returns an entry that strictly dominates all others. -/
theorem foldl_pick_dominant :
    ∀ (l : List (String × String × ℚ)) (b d : String × String × ℚ),
      d ∈ b :: l →
      (∀ y ∈ b :: l, y = d ∨ y.2.2 < d.2.2) →
      l.foldl pickStep b = d := by
  intro l
  induction l with
  | nil =>
    intro b d hd _
    rcases List.mem_cons.mp hd with h | h
    · rw [List.foldl_nil, h]
    · cases h
  | cons y ys ih =>
    intro b d hd hle
    rw [List.foldl_cons]
    have hstep : pickStep b y = b ∨ pickStep b y = y := by
      unfold pickStep
      split
      · exact Or.inr rfl
      · exact Or.inl rfl
    apply ih (pickStep b y) d
    · rcases List.mem_cons.mp hd with h | hd2
      · subst h
        have hy := hle y (List.mem_cons_of_mem _ (List.mem_cons_self _ _))
        have hqf : qlt d.2.2 y.2.2 = false := by
          rcases hy with rfl | hy2
          · exact qlt_eq_false le_rfl
          · exact qlt_eq_false (le_of_lt hy2)
        have hps : pickStep d y = d := by
          unfold pickStep
          rw [hqf]
          rfl
        rw [hps]
        exact List.mem_cons_self _ _
      · rcases List.mem_cons.mp hd2 with h | hd3
        · subst h
          have hb := hle b (List.mem_cons_self _ _)
          have hps : pickStep b d = d := by
            rcases hb with rfl | hb2
            · unfold pickStep
              rw [qlt_eq_false le_rfl]
              rfl
            · unfold pickStep
              rw [qlt_eq_true hb2]
              rfl
          rw [hps]
          exact List.mem_cons_self _ _
        · exact List.mem_cons_of_mem _ hd3
    · intro z hz
      rcases List.mem_cons.mp hz with h | hz2
      · subst h
        rcases hstep with h | h <;> rw [h]
        · exact hle b (List.mem_cons_self _ _)
        · exact hle y (List.mem_cons_of_mem _ (List.mem_cons_self _ _))
      · exact hle z (List.mem_cons_of_mem _ (List.mem_cons_of_mem _ hz2))

/-- Scored entries of a dominated candidate list are dominated. -/
theorem scored_dominated {w : List (String × ℚ)} {m : ℚ}
    {l : List (Option String × String × ℚ)}
    (hl : ∀ c ∈ l, ∀ v' : String, c.1 = some v' →
      c.2.2 * qdictGetD w c.2.1 1 < m) :
    ∀ y ∈ l.filterMap (scoreCand w), y.2.2 < m := by
  intro y hy
  obtain ⟨c, hc, hcy⟩ := List.mem_filterMap.mp hy
  cases hc1 : c.1 with
  | none =>
    unfold scoreCand at hcy
    rw [hc1] at hcy
    cases hcy
  | some v =>
    unfold scoreCand at hcy
    rw [hc1] at hcy
    cases hcy
    exact hl c hc v hc1

/-- `pick_best` on a decomposed scored list whose distinguished entry
strictly dominates all others. -/
theorem pickBest_of_scored {cands : List (Option String × String × ℚ)}
    {w : List (String × ℚ)} {A B : List (String × String × ℚ)}
    {d : String × String × ℚ}
    (hscored : cands.filterMap (scoreCand w) = A ++ d :: B)
    (hled : ∀ y ∈ A ++ d :: B, y = d ∨ y.2.2 < d.2.2) :
    pickBest cands w = (some d.1, d.2.1, d.2.2) := by
  unfold pickBest
  rw [hscored]
  cases A with
  | nil =>
    rw [List.nil_append] at hled ⊢
    dsimp only
    rw [foldl_pick_dominant B d d (List.mem_cons_self _ _) hled]
  | cons a A2 =>
    rw [List.cons_append] at hled ⊢
    dsimp only
    rw [foldl_pick_dominant (A2 ++ d :: B) a d
      (List.mem_cons_of_mem _ (List.mem_append_right _ (List.mem_cons_self _ _)))
      hled]

/-- A label candidate whose weighted confidence strictly dominates every
other candidate's wins `pick_best`, wherever it sits in the list. -/
theorem pickBest_dominant (w : List (String × ℚ))
    (pre post : List (Option String × String × ℚ)) (lv : String)
    (hdom : ∀ c ∈ pre ++ post, ∀ v' : String, c.1 = some v' →
      c.2.2 * qdictGetD w c.2.1 1 < (0.95 : ℚ) * qdictGetD w "label" 1) :
    pickBest (pre ++ (some lv, "label", (0.95 : ℚ)) :: post) w
      = (some lv, "label", (0.95 : ℚ) * qdictGetD w "label" 1) := by
  have hpre : ∀ y ∈ pre.filterMap (scoreCand w),
      y.2.2 < (0.95 : ℚ) * qdictGetD w "label" 1 :=
    scored_dominated fun c hc => hdom c (List.mem_append_left _ hc)
  have hpost : ∀ y ∈ post.filterMap (scoreCand w),
      y.2.2 < (0.95 : ℚ) * qdictGetD w "label" 1 :=
    scored_dominated fun c hc => hdom c (List.mem_append_right _ hc)
  have hsplit : (pre ++ (some lv, "label", (0.95 : ℚ)) :: post).filterMap
        (scoreCand w)
      = pre.filterMap (scoreCand w)
        ++ (lv, "label", (0.95 : ℚ) * qdictGetD w "label" 1)
            :: post.filterMap (scoreCand w) := by
    rw [List.filterMap_append]
    rfl
  exact pickBest_of_scored hsplit (by
    intro y hy
    rcases List.mem_append.mp hy with h | h
    · exact Or.inr (hpre y h)
    · rcases List.mem_cons.mp h with h2 | h2
      · exact Or.inl h2
      · exact Or.inr (hpost y h2))


/-- C4, counterexample: with the weight table of a catalog-only file
classified as a distributor order, the label strategy's merged weight is
nonzero (0.64), yet a dash-catalog candidate outweighs the label
candidate in `pick_best` (1.456 against 0.608) — the claim's "the label
candidate wins whenever the label strategy's merged weight is nonzero"
fails. -/
theorem C4_counterexample :
    qdictGetD (mergeWeights (STRATEGY_WEIGHTS .CATALOG_ONLY)
        (SCHEMA_MULTIPLIERS .DISTRIBUTOR_ORDER)) "label" 1 ≠ 0
    ∧ (pickBest
        [(some "ABC-123", "label", (0.95 : ℚ)),
         (some "6970T53", "dash_catalog", (0.80 : ℚ))]
        (mergeWeights (STRATEGY_WEIGHTS .CATALOG_ONLY)
          (SCHEMA_MULTIPLIERS .DISTRIBUTOR_ORDER))).2.1
      = "dash_catalog" := by
  have hwl : qdictGetD (mergeWeights (STRATEGY_WEIGHTS .CATALOG_ONLY)
      (SCHEMA_MULTIPLIERS .DISTRIBUTOR_ORDER)) "label" 1
      = pyRoundTo 4 ((0.8 : ℚ) * 0.8) := rfl
  have hwl2 : pyRoundTo 4 ((0.8 : ℚ) * 0.8) = (0.64 : ℚ) := by
    rw [pyR4 (by norm_num : ((0.8 : ℚ) * 0.8) = ((6400 : ℤ) : ℚ) / 10 ^ 4)]
    norm_num
  have hwd : qdictGetD (mergeWeights (STRATEGY_WEIGHTS .CATALOG_ONLY)
      (SCHEMA_MULTIPLIERS .DISTRIBUTOR_ORDER)) "dash_catalog" 1
      = pyRoundTo 4 ((1.3 : ℚ) * 1.4) := rfl
  have hwd2 : pyRoundTo 4 ((1.3 : ℚ) * 1.4) = (1.82 : ℚ) := by
    rw [pyR4 (by norm_num : ((1.3 : ℚ) * 1.4) = ((18200 : ℤ) : ℚ) / 10 ^ 4)]
    norm_num
  constructor
  · rw [hwl, hwl2]
    norm_num
  · rw [@pickBest_of_scored
      [(some "ABC-123", "label", (0.95 : ℚ)),
       (some "6970T53", "dash_catalog", (0.80 : ℚ))]
      (mergeWeights (STRATEGY_WEIGHTS .CATALOG_ONLY)
        (SCHEMA_MULTIPLIERS .DISTRIBUTOR_ORDER))
      [("ABC-123", "label", (0.95 : ℚ)
        * qdictGetD (mergeWeights (STRATEGY_WEIGHTS .CATALOG_ONLY)
            (SCHEMA_MULTIPLIERS .DISTRIBUTOR_ORDER)) "label" 1)]
      []
      ("6970T53", "dash_catalog", (0.80 : ℚ)
        * qdictGetD (mergeWeights (STRATEGY_WEIGHTS .CATALOG_ONLY)
            (SCHEMA_MULTIPLIERS .DISTRIBUTOR_ORDER)) "dash_catalog" 1)
      rfl (by
        intro y hy
        rcases List.mem_append.mp hy with h | h
        · rcases List.mem_singleton.mp h with rfl
          right
          dsimp only
          rw [hwl, hwl2, hwd, hwd2]
          norm_num
        · rcases List.mem_singleton.mp h with rfl
          left
          rfl)]

set_option maxHeartbeats 1000000 in
/-- C4 (amended): the heuristic strategy's confidence is capped at 0.65,
strictly below the label strategy's 0.95; under every built-in merged
weight table the weighted confidence of any heuristic candidate is
strictly below the label candidate's weighted confidence; and in
`pick_best` a label candidate wins whenever its weighted confidence
strictly dominates every other candidate's (so a labeled record always
prefers the label over any heuristic candidate) — but not merely
whenever the label weight is nonzero, see `C4_counterexample`. -/
theorem C4_label_vs_heuristic :
    (∀ c : String, scoreHeuristicPn c ≤ 0.65 ∧ (0.65 : ℚ) < 0.95)
    ∧ (∀ (ar : Archetype) (tpl : Template) (c : String),
        scoreHeuristicPn c * qdictGetD (mergeWeights (STRATEGY_WEIGHTS ar)
            (SCHEMA_MULTIPLIERS tpl)) "heuristic" 1
          < (0.95 : ℚ) * qdictGetD (mergeWeights (STRATEGY_WEIGHTS ar)
            (SCHEMA_MULTIPLIERS tpl)) "label" 1)
    ∧ (∀ (w : List (String × ℚ))
        (pre post : List (Option String × String × ℚ)) (lv : String),
        (∀ c ∈ pre ++ post, ∀ v' : String, c.1 = some v' →
          c.2.2 * qdictGetD w c.2.1 1 < (0.95 : ℚ) * qdictGetD w "label" 1) →
        pickBest (pre ++ (some lv, "label", (0.95 : ℚ)) :: post) w
          = (some lv, "label", (0.95 : ℚ) * qdictGetD w "label" 1)) := by
  refine ⟨fun c => ⟨scoreHeuristicPn_le c, by norm_num⟩, ?_,
    fun w pre post lv h => pickBest_dominant w pre post lv h⟩
  intro ar tpl c
  have hs := scoreHeuristicPn_le c
  cases ar <;> cases tpl
  · have hw : qdictGetD (mergeWeights (STRATEGY_WEIGHTS .LABELED_RICH)
        (SCHEMA_MULTIPLIERS .SAP_SHORT_TEXT)) "heuristic" 1
        = pyRoundTo 4 ((0.6 : ℚ) * 0.3) := rfl
    have hl : qdictGetD (mergeWeights (STRATEGY_WEIGHTS .LABELED_RICH)
        (SCHEMA_MULTIPLIERS .SAP_SHORT_TEXT)) "label" 1
        = pyRoundTo 4 ((1.2 : ℚ) * 0.9) := rfl
    rw [hw, hl,
      pyR4 (by norm_num : ((0.6 : ℚ) * 0.3) = ((1800 : ℤ) : ℚ) / 10 ^ 4),
      pyR4 (by norm_num : ((1.2 : ℚ) * 0.9) = ((10800 : ℤ) : ℚ) / 10 ^ 4)]
    push_cast
    linarith
  · have hw : qdictGetD (mergeWeights (STRATEGY_WEIGHTS .LABELED_RICH)
        (SCHEMA_MULTIPLIERS .SAP_DUAL_SOURCE)) "heuristic" 1
        = pyRoundTo 4 ((0.6 : ℚ) * 0.7) := rfl
    have hl : qdictGetD (mergeWeights (STRATEGY_WEIGHTS .LABELED_RICH)
        (SCHEMA_MULTIPLIERS .SAP_DUAL_SOURCE)) "label" 1
        = pyRoundTo 4 ((1.2 : ℚ) * 1.2) := rfl
    rw [hw, hl,
      pyR4 (by norm_num : ((0.6 : ℚ) * 0.7) = ((4200 : ℤ) : ℚ) / 10 ^ 4),
      pyR4 (by norm_num : ((1.2 : ℚ) * 1.2) = ((14400 : ℤ) : ℚ) / 10 ^ 4)]
    push_cast
    linarith
  · have hw : qdictGetD (mergeWeights (STRATEGY_WEIGHTS .LABELED_RICH)
        (SCHEMA_MULTIPLIERS .SAP_STANDARD)) "heuristic" 1
        = pyRoundTo 4 ((0.6 : ℚ) * 0.8) := rfl
    have hl : qdictGetD (mergeWeights (STRATEGY_WEIGHTS .LABELED_RICH)
        (SCHEMA_MULTIPLIERS .SAP_STANDARD)) "label" 1
        = pyRoundTo 4 ((1.2 : ℚ) * 1.1) := rfl
    rw [hw, hl,
      pyR4 (by norm_num : ((0.6 : ℚ) * 0.8) = ((4800 : ℤ) : ℚ) / 10 ^ 4),
      pyR4 (by norm_num : ((1.2 : ℚ) * 1.1) = ((13200 : ℤ) : ℚ) / 10 ^ 4)]
    push_cast
    linarith
  · have hw : qdictGetD (mergeWeights (STRATEGY_WEIGHTS .LABELED_RICH)
        (SCHEMA_MULTIPLIERS .DISTRIBUTOR_ORDER)) "heuristic" 1
        = pyRoundTo 4 ((0.6 : ℚ) * 0.5) := rfl
    have hl : qdictGetD (mergeWeights (STRATEGY_WEIGHTS .LABELED_RICH)
        (SCHEMA_MULTIPLIERS .DISTRIBUTOR_ORDER)) "label" 1
        = pyRoundTo 4 ((1.2 : ℚ) * 0.8) := rfl
    rw [hw, hl,
      pyR4 (by norm_num : ((0.6 : ℚ) * 0.5) = ((3000 : ℤ) : ℚ) / 10 ^ 4),
      pyR4 (by norm_num : ((1.2 : ℚ) * 0.8) = ((9600 : ℤ) : ℚ) / 10 ^ 4)]
    push_cast
    linarith
  · have hw : qdictGetD (mergeWeights (STRATEGY_WEIGHTS .LABELED_RICH)
        (SCHEMA_MULTIPLIERS .LABELED_SPEC)) "heuristic" 1
        = pyRoundTo 4 ((0.6 : ℚ) * 0.5) := rfl
    have hl : qdictGetD (mergeWeights (STRATEGY_WEIGHTS .LABELED_RICH)
        (SCHEMA_MULTIPLIERS .LABELED_SPEC)) "label" 1
        = pyRoundTo 4 ((1.2 : ℚ) * 1.5) := rfl
    rw [hw, hl,
      pyR4 (by norm_num : ((0.6 : ℚ) * 0.5) = ((3000 : ℤ) : ℚ) / 10 ^ 4),
      pyR4 (by norm_num : ((1.2 : ℚ) * 1.5) = ((18000 : ℤ) : ℚ) / 10 ^ 4)]
    push_cast
    linarith
  · have hw : qdictGetD (mergeWeights (STRATEGY_WEIGHTS .LABELED_RICH)
        (SCHEMA_MULTIPLIERS .GENERIC)) "heuristic" 1
        = pyRoundTo 4 ((0.6 : ℚ) * 1.0) := rfl
    have hl : qdictGetD (mergeWeights (STRATEGY_WEIGHTS .LABELED_RICH)
        (SCHEMA_MULTIPLIERS .GENERIC)) "label" 1
        = pyRoundTo 4 ((1.2 : ℚ) * 1.0) := rfl
    rw [hw, hl,
      pyR4 (by norm_num : ((0.6 : ℚ) * 1.0) = ((6000 : ℤ) : ℚ) / 10 ^ 4),
      pyR4 (by norm_num : ((1.2 : ℚ) * 1.0) = ((12000 : ℤ) : ℚ) / 10 ^ 4)]
    push_cast
    linarith
  · have hw : qdictGetD (mergeWeights (STRATEGY_WEIGHTS .COMPRESSED_SHORT)
        (SCHEMA_MULTIPLIERS .SAP_SHORT_TEXT)) "heuristic" 1
        = pyRoundTo 4 ((0.4 : ℚ) * 0.3) := rfl
    have hl : qdictGetD (mergeWeights (STRATEGY_WEIGHTS .COMPRESSED_SHORT)
        (SCHEMA_MULTIPLIERS .SAP_SHORT_TEXT)) "label" 1
        = pyRoundTo 4 ((1.0 : ℚ) * 0.9) := rfl
    rw [hw, hl,
      pyR4 (by norm_num : ((0.4 : ℚ) * 0.3) = ((1200 : ℤ) : ℚ) / 10 ^ 4),
      pyR4 (by norm_num : ((1.0 : ℚ) * 0.9) = ((9000 : ℤ) : ℚ) / 10 ^ 4)]
    push_cast
    linarith
  · have hw : qdictGetD (mergeWeights (STRATEGY_WEIGHTS .COMPRESSED_SHORT)
        (SCHEMA_MULTIPLIERS .SAP_DUAL_SOURCE)) "heuristic" 1
        = pyRoundTo 4 ((0.4 : ℚ) * 0.7) := rfl
    have hl : qdictGetD (mergeWeights (STRATEGY_WEIGHTS .COMPRESSED_SHORT)
        (SCHEMA_MULTIPLIERS .SAP_DUAL_SOURCE)) "label" 1
        = pyRoundTo 4 ((1.0 : ℚ) * 1.2) := rfl
    rw [hw, hl,
      pyR4 (by norm_num : ((0.4 : ℚ) * 0.7) = ((2800 : ℤ) : ℚ) / 10 ^ 4),
      pyR4 (by norm_num : ((1.0 : ℚ) * 1.2) = ((12000 : ℤ) : ℚ) / 10 ^ 4)]
    push_cast
    linarith
  · have hw : qdictGetD (mergeWeights (STRATEGY_WEIGHTS .COMPRESSED_SHORT)
        (SCHEMA_MULTIPLIERS .SAP_STANDARD)) "heuristic" 1
        = pyRoundTo 4 ((0.4 : ℚ) * 0.8) := rfl
    have hl : qdictGetD (mergeWeights (STRATEGY_WEIGHTS .COMPRESSED_SHORT)
        (SCHEMA_MULTIPLIERS .SAP_STANDARD)) "label" 1
        = pyRoundTo 4 ((1.0 : ℚ) * 1.1) := rfl
    rw [hw, hl,
      pyR4 (by norm_num : ((0.4 : ℚ) * 0.8) = ((3200 : ℤ) : ℚ) / 10 ^ 4),
      pyR4 (by norm_num : ((1.0 : ℚ) * 1.1) = ((11000 : ℤ) : ℚ) / 10 ^ 4)]
    push_cast
    linarith
  · have hw : qdictGetD (mergeWeights (STRATEGY_WEIGHTS .COMPRESSED_SHORT)
        (SCHEMA_MULTIPLIERS .DISTRIBUTOR_ORDER)) "heuristic" 1
        = pyRoundTo 4 ((0.4 : ℚ) * 0.5) := rfl
    have hl : qdictGetD (mergeWeights (STRATEGY_WEIGHTS .COMPRESSED_SHORT)
        (SCHEMA_MULTIPLIERS .DISTRIBUTOR_ORDER)) "label" 1
        = pyRoundTo 4 ((1.0 : ℚ) * 0.8) := rfl
    rw [hw, hl,
      pyR4 (by norm_num : ((0.4 : ℚ) * 0.5) = ((2000 : ℤ) : ℚ) / 10 ^ 4),
      pyR4 (by norm_num : ((1.0 : ℚ) * 0.8) = ((8000 : ℤ) : ℚ) / 10 ^ 4)]
    push_cast
    linarith
  · have hw : qdictGetD (mergeWeights (STRATEGY_WEIGHTS .COMPRESSED_SHORT)
        (SCHEMA_MULTIPLIERS .LABELED_SPEC)) "heuristic" 1
        = pyRoundTo 4 ((0.4 : ℚ) * 0.5) := rfl
    have hl : qdictGetD (mergeWeights (STRATEGY_WEIGHTS .COMPRESSED_SHORT)
        (SCHEMA_MULTIPLIERS .LABELED_SPEC)) "label" 1
        = pyRoundTo 4 ((1.0 : ℚ) * 1.5) := rfl
    rw [hw, hl,
      pyR4 (by norm_num : ((0.4 : ℚ) * 0.5) = ((2000 : ℤ) : ℚ) / 10 ^ 4),
      pyR4 (by norm_num : ((1.0 : ℚ) * 1.5) = ((15000 : ℤ) : ℚ) / 10 ^ 4)]
    push_cast
    linarith
  · have hw : qdictGetD (mergeWeights (STRATEGY_WEIGHTS .COMPRESSED_SHORT)
        (SCHEMA_MULTIPLIERS .GENERIC)) "heuristic" 1
        = pyRoundTo 4 ((0.4 : ℚ) * 1.0) := rfl
    have hl : qdictGetD (mergeWeights (STRATEGY_WEIGHTS .COMPRESSED_SHORT)
        (SCHEMA_MULTIPLIERS .GENERIC)) "label" 1
        = pyRoundTo 4 ((1.0 : ℚ) * 1.0) := rfl
    rw [hw, hl,
      pyR4 (by norm_num : ((0.4 : ℚ) * 1.0) = ((4000 : ℤ) : ℚ) / 10 ^ 4),
      pyR4 (by norm_num : ((1.0 : ℚ) * 1.0) = ((10000 : ℤ) : ℚ) / 10 ^ 4)]
    push_cast
    linarith
  · have hw : qdictGetD (mergeWeights (STRATEGY_WEIGHTS .CATALOG_ONLY)
        (SCHEMA_MULTIPLIERS .SAP_SHORT_TEXT)) "heuristic" 1
        = pyRoundTo 4 ((0.3 : ℚ) * 0.3) := rfl
    have hl : qdictGetD (mergeWeights (STRATEGY_WEIGHTS .CATALOG_ONLY)
        (SCHEMA_MULTIPLIERS .SAP_SHORT_TEXT)) "label" 1
        = pyRoundTo 4 ((0.8 : ℚ) * 0.9) := rfl
    rw [hw, hl,
      pyR4 (by norm_num : ((0.3 : ℚ) * 0.3) = ((900 : ℤ) : ℚ) / 10 ^ 4),
      pyR4 (by norm_num : ((0.8 : ℚ) * 0.9) = ((7200 : ℤ) : ℚ) / 10 ^ 4)]
    push_cast
    linarith
  · have hw : qdictGetD (mergeWeights (STRATEGY_WEIGHTS .CATALOG_ONLY)
        (SCHEMA_MULTIPLIERS .SAP_DUAL_SOURCE)) "heuristic" 1
        = pyRoundTo 4 ((0.3 : ℚ) * 0.7) := rfl
    have hl : qdictGetD (mergeWeights (STRATEGY_WEIGHTS .CATALOG_ONLY)
        (SCHEMA_MULTIPLIERS .SAP_DUAL_SOURCE)) "label" 1
        = pyRoundTo 4 ((0.8 : ℚ) * 1.2) := rfl
    rw [hw, hl,
      pyR4 (by norm_num : ((0.3 : ℚ) * 0.7) = ((2100 : ℤ) : ℚ) / 10 ^ 4),
      pyR4 (by norm_num : ((0.8 : ℚ) * 1.2) = ((9600 : ℤ) : ℚ) / 10 ^ 4)]
    push_cast
    linarith
  · have hw : qdictGetD (mergeWeights (STRATEGY_WEIGHTS .CATALOG_ONLY)
        (SCHEMA_MULTIPLIERS .SAP_STANDARD)) "heuristic" 1
        = pyRoundTo 4 ((0.3 : ℚ) * 0.8) := rfl
    have hl : qdictGetD (mergeWeights (STRATEGY_WEIGHTS .CATALOG_ONLY)
        (SCHEMA_MULTIPLIERS .SAP_STANDARD)) "label" 1
        = pyRoundTo 4 ((0.8 : ℚ) * 1.1) := rfl
    rw [hw, hl,
      pyR4 (by norm_num : ((0.3 : ℚ) * 0.8) = ((2400 : ℤ) : ℚ) / 10 ^ 4),
      pyR4 (by norm_num : ((0.8 : ℚ) * 1.1) = ((8800 : ℤ) : ℚ) / 10 ^ 4)]
    push_cast
    linarith
  · have hw : qdictGetD (mergeWeights (STRATEGY_WEIGHTS .CATALOG_ONLY)
        (SCHEMA_MULTIPLIERS .DISTRIBUTOR_ORDER)) "heuristic" 1
        = pyRoundTo 4 ((0.3 : ℚ) * 0.5) := rfl
    have hl : qdictGetD (mergeWeights (STRATEGY_WEIGHTS .CATALOG_ONLY)
        (SCHEMA_MULTIPLIERS .DISTRIBUTOR_ORDER)) "label" 1
        = pyRoundTo 4 ((0.8 : ℚ) * 0.8) := rfl
    rw [hw, hl,
      pyR4 (by norm_num : ((0.3 : ℚ) * 0.5) = ((1500 : ℤ) : ℚ) / 10 ^ 4),
      pyR4 (by norm_num : ((0.8 : ℚ) * 0.8) = ((6400 : ℤ) : ℚ) / 10 ^ 4)]
    push_cast
    linarith
  · have hw : qdictGetD (mergeWeights (STRATEGY_WEIGHTS .CATALOG_ONLY)
        (SCHEMA_MULTIPLIERS .LABELED_SPEC)) "heuristic" 1
        = pyRoundTo 4 ((0.3 : ℚ) * 0.5) := rfl
    have hl : qdictGetD (mergeWeights (STRATEGY_WEIGHTS .CATALOG_ONLY)
        (SCHEMA_MULTIPLIERS .LABELED_SPEC)) "label" 1
        = pyRoundTo 4 ((0.8 : ℚ) * 1.5) := rfl
    rw [hw, hl,
      pyR4 (by norm_num : ((0.3 : ℚ) * 0.5) = ((1500 : ℤ) : ℚ) / 10 ^ 4),
      pyR4 (by norm_num : ((0.8 : ℚ) * 1.5) = ((12000 : ℤ) : ℚ) / 10 ^ 4)]
    push_cast
    linarith
  · have hw : qdictGetD (mergeWeights (STRATEGY_WEIGHTS .CATALOG_ONLY)
        (SCHEMA_MULTIPLIERS .GENERIC)) "heuristic" 1
        = pyRoundTo 4 ((0.3 : ℚ) * 1.0) := rfl
    have hl : qdictGetD (mergeWeights (STRATEGY_WEIGHTS .CATALOG_ONLY)
        (SCHEMA_MULTIPLIERS .GENERIC)) "label" 1
        = pyRoundTo 4 ((0.8 : ℚ) * 1.0) := rfl
    rw [hw, hl,
      pyR4 (by norm_num : ((0.3 : ℚ) * 1.0) = ((3000 : ℤ) : ℚ) / 10 ^ 4),
      pyR4 (by norm_num : ((0.8 : ℚ) * 1.0) = ((8000 : ℤ) : ℚ) / 10 ^ 4)]
    push_cast
    linarith
  · have hw : qdictGetD (mergeWeights (STRATEGY_WEIGHTS .MIXED)
        (SCHEMA_MULTIPLIERS .SAP_SHORT_TEXT)) "heuristic" 1
        = pyRoundTo 4 ((0.75 : ℚ) * 0.3) := rfl
    have hl : qdictGetD (mergeWeights (STRATEGY_WEIGHTS .MIXED)
        (SCHEMA_MULTIPLIERS .SAP_SHORT_TEXT)) "label" 1
        = pyRoundTo 4 ((1.0 : ℚ) * 0.9) := rfl
    rw [hw, hl,
      pyR4 (by norm_num : ((0.75 : ℚ) * 0.3) = ((2250 : ℤ) : ℚ) / 10 ^ 4),
      pyR4 (by norm_num : ((1.0 : ℚ) * 0.9) = ((9000 : ℤ) : ℚ) / 10 ^ 4)]
    push_cast
    linarith
  · have hw : qdictGetD (mergeWeights (STRATEGY_WEIGHTS .MIXED)
        (SCHEMA_MULTIPLIERS .SAP_DUAL_SOURCE)) "heuristic" 1
        = pyRoundTo 4 ((0.75 : ℚ) * 0.7) := rfl
    have hl : qdictGetD (mergeWeights (STRATEGY_WEIGHTS .MIXED)
        (SCHEMA_MULTIPLIERS .SAP_DUAL_SOURCE)) "label" 1
        = pyRoundTo 4 ((1.0 : ℚ) * 1.2) := rfl
    rw [hw, hl,
      pyR4 (by norm_num : ((0.75 : ℚ) * 0.7) = ((5250 : ℤ) : ℚ) / 10 ^ 4),
      pyR4 (by norm_num : ((1.0 : ℚ) * 1.2) = ((12000 : ℤ) : ℚ) / 10 ^ 4)]
    push_cast
    linarith
  · have hw : qdictGetD (mergeWeights (STRATEGY_WEIGHTS .MIXED)
        (SCHEMA_MULTIPLIERS .SAP_STANDARD)) "heuristic" 1
        = pyRoundTo 4 ((0.75 : ℚ) * 0.8) := rfl
    have hl : qdictGetD (mergeWeights (STRATEGY_WEIGHTS .MIXED)
        (SCHEMA_MULTIPLIERS .SAP_STANDARD)) "label" 1
        = pyRoundTo 4 ((1.0 : ℚ) * 1.1) := rfl
    rw [hw, hl,
      pyR4 (by norm_num : ((0.75 : ℚ) * 0.8) = ((6000 : ℤ) : ℚ) / 10 ^ 4),
      pyR4 (by norm_num : ((1.0 : ℚ) * 1.1) = ((11000 : ℤ) : ℚ) / 10 ^ 4)]
    push_cast
    linarith
  · have hw : qdictGetD (mergeWeights (STRATEGY_WEIGHTS .MIXED)
        (SCHEMA_MULTIPLIERS .DISTRIBUTOR_ORDER)) "heuristic" 1
        = pyRoundTo 4 ((0.75 : ℚ) * 0.5) := rfl
    have hl : qdictGetD (mergeWeights (STRATEGY_WEIGHTS .MIXED)
        (SCHEMA_MULTIPLIERS .DISTRIBUTOR_ORDER)) "label" 1
        = pyRoundTo 4 ((1.0 : ℚ) * 0.8) := rfl
    rw [hw, hl,
      pyR4 (by norm_num : ((0.75 : ℚ) * 0.5) = ((3750 : ℤ) : ℚ) / 10 ^ 4),
      pyR4 (by norm_num : ((1.0 : ℚ) * 0.8) = ((8000 : ℤ) : ℚ) / 10 ^ 4)]
    push_cast
    linarith
  · have hw : qdictGetD (mergeWeights (STRATEGY_WEIGHTS .MIXED)
        (SCHEMA_MULTIPLIERS .LABELED_SPEC)) "heuristic" 1
        = pyRoundTo 4 ((0.75 : ℚ) * 0.5) := rfl
    have hl : qdictGetD (mergeWeights (STRATEGY_WEIGHTS .MIXED)
        (SCHEMA_MULTIPLIERS .LABELED_SPEC)) "label" 1
        = pyRoundTo 4 ((1.0 : ℚ) * 1.5) := rfl
    rw [hw, hl,
      pyR4 (by norm_num : ((0.75 : ℚ) * 0.5) = ((3750 : ℤ) : ℚ) / 10 ^ 4),
      pyR4 (by norm_num : ((1.0 : ℚ) * 1.5) = ((15000 : ℤ) : ℚ) / 10 ^ 4)]
    push_cast
    linarith
  · have hw : qdictGetD (mergeWeights (STRATEGY_WEIGHTS .MIXED)
        (SCHEMA_MULTIPLIERS .GENERIC)) "heuristic" 1
        = pyRoundTo 4 ((0.75 : ℚ) * 1.0) := rfl
    have hl : qdictGetD (mergeWeights (STRATEGY_WEIGHTS .MIXED)
        (SCHEMA_MULTIPLIERS .GENERIC)) "label" 1
        = pyRoundTo 4 ((1.0 : ℚ) * 1.0) := rfl
    rw [hw, hl,
      pyR4 (by norm_num : ((0.75 : ℚ) * 1.0) = ((7500 : ℤ) : ℚ) / 10 ^ 4),
      pyR4 (by norm_num : ((1.0 : ℚ) * 1.0) = ((10000 : ℤ) : ℚ) / 10 ^ 4)]
    push_cast
    linarith

/-- C4, witness: a heuristic candidate of confidence 0.5 loses to the
label candidate under the empty (all-default) weight table. -/
theorem C4_witness :
    pickBest [(some "AB12CD", "heuristic", (0.5 : ℚ)),
        (some "ABC-123", "label", (0.95 : ℚ))] []
      = (some "ABC-123", "label", (0.95 : ℚ) * qdictGetD [] "label" 1) :=
  C4_label_vs_heuristic.2.2 [] [(some "AB12CD", "heuristic", (0.5 : ℚ))] []
    "ABC-123" (by
      intro c hc v' hv'
      simp only [List.append_nil, List.mem_singleton] at hc
      subst hc
      simp only [qdictGetD, List.find?]
      norm_num)

/-! ## Claims C5 and C6 — the per-row threshold gate of `pipeline_mfg_pn`

For a fixed dataset and column mapping the extraction outcome of each
target cell — its current text, the winning sanitized value, the winning
weighted confidence and source — does not depend on the
`confidence_threshold` override, which the pipeline uses only inside the
write gate (and in summary statistics).  A target cell's gate is
therefore modelled as a function of its outcome and the threshold,
mirroring lines 1543–1569 of `parser_core.py`; the MFG and PN gates have
the identical shape. -/

/-- The extraction outcome at one target cell. -/
structure FieldOutcome where
  cur : String
  final : Option String
  conf : ℚ
  src : String

/-- One recorded low-confidence item. -/
structure LowConf where
  row : Nat
  field : String
  value : String
  conf : ℚ
  src : String
deriving DecidableEq

/-- `str(row.get(col, '')).strip() in ('', 'nan', 'None', 'NaN')` —
case-sensitive, unlike the validator's blank test. -/
def cellBlank (cur : String) : Bool :=
  pyStrip cur = "" || pyStrip cur = "nan" || pyStrip cur = "None"
    || pyStrip cur = "NaN"

/-- Python truthiness of the optional final value. -/
def truthyOpt : Option String → Bool
  | none => false
  | some v => decide (v ≠ "")

/-- The write branch: blank cell, truthy value, confidence at least the
threshold. -/
def gateWrite (thresh : ℚ) (o : FieldOutcome) : Bool :=
  cellBlank o.cur && truthyOpt o.final && qle thresh o.conf

/-- The `elif` branch that records a low-confidence item. -/
def gateLow (thresh : ℚ) (o : FieldOutcome) : Bool :=
  cellBlank o.cur && truthyOpt o.final && !qle thresh o.conf
    && qlt 0 o.conf

/-- The cell's content after the gate. -/
def gateCell (thresh : ℚ) (o : FieldOutcome) : String :=
  if gateWrite thresh o then o.final.getD "" else o.cur

/-- The low-confidence items the gate appends for this cell. -/
def gateFlags (thresh : ℚ) (i : Nat) (field : String) (o : FieldOutcome) :
    List LowConf :=
  if gateLow thresh o then [⟨i, field, o.final.getD "", o.conf, o.src⟩]
  else []

/-- `mfg_filled + pn_filled`: how many target cells the gate writes. -/
def fillCount (thresh : ℚ) (os : List FieldOutcome) : Nat :=
  (os.filter (gateWrite thresh)).length

/-- `qlt` in iff form. -/
theorem qlt_iff {a b : ℚ} : qlt a b = true ↔ a < b := by
  simp [qlt]

/-- `qle` in iff form. -/
theorem qle_iff {a b : ℚ} : qle a b = true ↔ a ≤ b := by
  simp [qle]

/-- Filtering by a stronger predicate keeps at most as many elements. -/
theorem length_filter_mono {α : Type} {p q : α → Bool}
    (h : ∀ a, p a = true → q a = true) (l : List α) :
    (l.filter p).length ≤ (l.filter q).length := by
  induction l with
  | nil => exact le_refl _
  | cons a as ih =>
    by_cases hp : p a = true
    · rw [List.filter_cons_of_pos hp, List.filter_cons_of_pos (h a hp)]
      simpa using ih
    · rw [List.filter_cons_of_neg (by simpa using hp)]
      by_cases hq : q a = true
      · rw [List.filter_cons_of_pos hq]
        exact le_trans ih (Nat.le_succ _)
      · rw [List.filter_cons_of_neg (by simpa using hq)]
        exact ih

/-- C5, counterexample: a non-null winning candidate below the threshold
at an already-filled cell is not recorded in the low-confidence list (the
record requires the cell to be blank), refuting "whenever a non-null
candidate exists whose weighted confidence is below the threshold, it is
recorded". -/
theorem C5_counterexample :
    (0.2 : ℚ) < 0.40
    ∧ gateFlags 0.40 3 "MFG"
        ⟨"ACME CORP", some "OMRON", 0.2, "supplier_fallback"⟩ = []
    ∧ gateCell 0.40 ⟨"ACME CORP", some "OMRON", 0.2, "supplier_fallback"⟩
        = "ACME CORP" := by
  refine ⟨by norm_num, ?_, ?_⟩
  · unfold gateFlags gateLow
    rw [show cellBlank "ACME CORP" = false from rfl]
    rfl
  · unfold gateCell gateWrite
    rw [show cellBlank "ACME CORP" = false from rfl]
    rfl

/-- C5 (amended): a target cell changes only if it was blank, the winning
value is non-null and the weighted confidence meets the threshold, the
new content then being the winning value; and a low-confidence item is
recorded exactly when the cell is blank, the winning value is non-null
and its weighted confidence lies strictly between 0 and the threshold —
a below-threshold candidate at a non-blank cell, or one whose weighted
confidence is 0, is silently discarded (see `C5_counterexample`). -/
theorem C5_threshold_gate :
    (∀ (thresh : ℚ) (o : FieldOutcome),
      gateCell thresh o ≠ o.cur →
      cellBlank o.cur = true ∧ thresh ≤ o.conf
        ∧ ∃ v, o.final = some v ∧ v ≠ "" ∧ gateCell thresh o = v)
    ∧ (∀ (thresh : ℚ) (i : Nat) (field : String) (o : FieldOutcome)
        (f : LowConf),
      f ∈ gateFlags thresh i field o ↔
        (cellBlank o.cur = true ∧ 0 < o.conf ∧ o.conf < thresh
          ∧ ∃ v, o.final = some v ∧ v ≠ ""
              ∧ f = ⟨i, field, v, o.conf, o.src⟩)) := by
  constructor
  · intro thresh o hne
    unfold gateCell at hne ⊢
    by_cases hw : gateWrite thresh o = true
    · have hparts := hw
      unfold gateWrite at hparts
      simp only [Bool.and_eq_true] at hparts
      obtain ⟨⟨hblank, htruthy⟩, hconf⟩ := hparts
      refine ⟨hblank, qle_iff.mp hconf, ?_⟩
      cases hfin : o.final with
      | none =>
        rw [hfin] at htruthy
        cases htruthy
      | some v =>
        refine ⟨v, rfl, ?_, ?_⟩
        · rw [hfin] at htruthy
          simpa [truthyOpt] using htruthy
        · rw [if_pos hw]
          rfl
    · rw [if_neg hw] at hne
      exact absurd rfl hne
  · intro thresh i field o f
    unfold gateFlags
    constructor
    · intro hf
      split at hf
      case isTrue hlow =>
        have hparts := hlow
        unfold gateLow at hparts
        simp only [Bool.and_eq_true, Bool.not_eq_true'] at hparts
        obtain ⟨⟨⟨hblank, htruthy⟩, hnle⟩, hpos⟩ := hparts
        rcases List.mem_singleton.mp hf with rfl
        cases hfin : o.final with
        | none =>
          rw [hfin] at htruthy
          cases htruthy
        | some v =>
          refine ⟨hblank, qlt_iff.mp hpos, ?_, v, rfl, ?_, ?_⟩
          · have : ¬ thresh ≤ o.conf := by
              intro hle
              rw [qle_eq_true hle] at hnle
              cases hnle
            exact lt_of_not_le this
          · rw [hfin] at htruthy
            simpa [truthyOpt] using htruthy
          · rfl
      case isFalse => cases hf
    · rintro ⟨hblank, hpos, hlt, v, hfin, hvne, rfl⟩
      have hlow : gateLow thresh o = true := by
        unfold gateLow
        rw [hblank, hfin]
        simp only [truthyOpt, Bool.true_and]
        rw [qle_eq_false hlt, qlt_eq_true hpos]
        simpa using hvne
      rw [if_pos hlow, hfin]
      exact List.mem_singleton.mpr rfl

/-- C5, witness: an above-threshold value is written into a blank cell,
and a below-threshold one at a blank cell is recorded. -/
theorem C5_witness :
    (cellBlank "" = true ∧ (0.40 : ℚ) ≤ 0.85
      ∧ ∃ v, (some "OMRON" : Option String) = some v ∧ v ≠ ""
          ∧ gateCell 0.40 ⟨"", some "OMRON", 0.85, "known_mfg"⟩ = v)
    ∧ (⟨2, "PN", "X9", 0.3, "heuristic"⟩ : LowConf)
        ∈ gateFlags 0.40 2 "PN" ⟨"", some "X9", 0.3, "heuristic"⟩ := by
  constructor
  · have hw : gateWrite (0.40 : ℚ)
        ⟨"", some "OMRON", (0.85 : ℚ), "known_mfg"⟩ = true := by
      unfold gateWrite
      rw [qle_eq_true (by norm_num : (0.40 : ℚ) ≤ 0.85)]
      rfl
    have hcell : gateCell (0.40 : ℚ)
        ⟨"", some "OMRON", (0.85 : ℚ), "known_mfg"⟩ = "OMRON" := by
      unfold gateCell
      rw [hw]
      rfl
    exact C5_threshold_gate.1 0.40 ⟨"", some "OMRON", 0.85, "known_mfg"⟩
      (by rw [hcell]; decide)
  · exact (C5_threshold_gate.2 0.40 2 "PN" ⟨"", some "X9", 0.3, "heuristic"⟩
      ⟨2, "PN", "X9", 0.3, "heuristic"⟩).mpr
      ⟨rfl, by norm_num, by norm_num, "X9", rfl, by decide, rfl⟩

/-- C6: for a fixed dataset (hence a fixed list of per-cell extraction
outcomes), raising the confidence-threshold override never increases the
number of cells the gate writes. -/
theorem C6_threshold_monotonic :
    ∀ (t1 t2 : ℚ) (os : List FieldOutcome), t1 ≤ t2 →
      fillCount t2 os ≤ fillCount t1 os := by
  intro t1 t2 os h12
  unfold fillCount
  apply length_filter_mono
  intro o hw
  unfold gateWrite at hw ⊢
  simp only [Bool.and_eq_true] at hw ⊢
  exact ⟨hw.1, qle_iff.mpr (le_trans h12 (qle_iff.mp hw.2))⟩

/-- C6, witness: a concrete threshold pair. -/
theorem C6_witness :
    fillCount 0.5 [⟨"", some "OMRON", 0.45, "known_mfg"⟩]
      ≤ fillCount 0.3 [⟨"", some "OMRON", 0.45, "known_mfg"⟩] :=
  C6_threshold_monotonic 0.3 0.5 [⟨"", some "OMRON", 0.45, "known_mfg"⟩]
    (by norm_num)

/-! ## Claim C9 — `map_columns` (`column_mapper.py`)

Modelling choices: the alias dictionary is a parameter (covering both the
defaults and any training-data merge, whose Python `set` union has
unspecified order); `difflib.SequenceMatcher(None, a, b).ratio()` is an
external library function and enters `map_columns` only through the test
`ratio >= 0.85`, so it is passed in as an opaque function — every theorem
below holds for all of them; a table is its column-name list plus a map
from column name to the column's non-null cell strings. -/

/-- The semantic roles of `ROLES`. -/
inductive Role
  | source_description
  | source_po_text
  | source_notes
  | source_supplier
  | mfg_output
  | pn_output
  | sim_output
  | item_number
  | supplier
deriving DecidableEq

/-- `result.keys()` iteration order. -/
def ROLE_ORDER : List Role :=
  [.source_description, .source_po_text, .source_notes, .source_supplier,
   .mfg_output, .pn_output, .sim_output, .item_number, .supplier]

/-- `KEYWORD_FALLBACKS.items()` iteration order (the `supplier` role sits
between `source_supplier` and `mfg_output` there). -/
def KEYWORD_ORDER : List Role :=
  [.source_description, .source_po_text, .source_notes, .source_supplier,
   .supplier, .mfg_output, .pn_output, .sim_output, .item_number]

/-- `role.startswith('source_')`. -/
def isSourceRole : Role → Bool
  | .source_description => true
  | .source_po_text => true
  | .source_notes => true
  | .source_supplier => true
  | _ => false

/-- `DEFAULT_COLUMN_ALIASES` (no entry for the `supplier` role). -/
def DEFAULT_COLUMN_ALIASES : Role → List String
  | .source_description =>
    ["Material Description", "MATERIAL DESCRIPTION", "Description",
     "DESCRIPTION", "Item Description", "ITEM DESCRIPTION",
     "Mtrl Desc", "LONG_TEXT", "Long Text", "Material Desc",
     "Product Description", "Line Description", "Short Description",
     "MATNR_DESC", "Mat Description", "DESC", "Desc",
     "Item Desc", "Product Desc",
     "Short Text", "SHORT TEXT", "Short_Text", "ShortText",
     "Short Desc", "SHORT DESC", "Item Text", "ITEM TEXT",
     "Line Text", "LINE TEXT", "Mat Text", "MAT TEXT",
     "Material Text", "MATERIAL TEXT"]
  | .source_po_text =>
    ["Material PO Text", "PO Text", "PO_TEXT", "Purchase Order Text",
     "PO Description", "PO Line Text", "PO ITEM TEXT",
     "MATERIAL PO TEXT", "Material PO TEXT"]
  | .source_notes =>
    ["Notes", "NOTES", "INFORECTXT1", "INFORECTXT2", "Comments",
     "Remarks", "Additional Info", "INFO REC TXT 1", "INFO REC TXT 2"]
  | .mfg_output =>
    ["MFG", "Manufacturer", "MANUFACTURER", "Mfg", "Manufacturer 1",
     "MFR", "Brand", "OEM", "Vendor", "VENDOR", "MFGR",
     "Manufacturer Name", "MFG Name"]
  | .pn_output =>
    ["PN", "Part Number", "PART NUMBER", "Part Number 1", "Part No",
     "Part #", "PART#", "Model Number", "MODEL NUMBER", "Catalog Number",
     "CAT NO", "MFG Part Number", "MFR Part Number",
     "Part No.", "PART NO", "Part Num"]
  | .sim_output =>
    ["SIM", "SIM Number", "SIM #", "SIM_NUMBER", "SIM NUM"]
  | .item_number =>
    ["Item #", "ITEM #", "ITEM#", "Item Number", "Catalog #",
     "Cat #", "CAT#", "Stock Number", "ITEM NUMBER"]
  | .source_supplier =>
    ["Supplier Name1", "Supplier Name 1", "Supplier Name", "Supplier",
     "SUPPLIER", "SUPPLIER NAME", "SUPPLIER NAME1", "Vendor Name",
     "VENDOR NAME", "Vendor", "VENDOR"]
  | .supplier => []

/-- `KEYWORD_FALLBACKS`. -/
def KEYWORD_FALLBACKS : Role → List String
  | .source_description =>
    ["desc", "material", "text", "long", "product", "item desc",
     "short text"]
  | .source_po_text => ["po", "purchase", "order text"]
  | .source_notes => ["note", "info", "comment", "remark"]
  | .source_supplier => ["supplier", "vendor name"]
  | .supplier => ["supplier", "vendor"]
  | .mfg_output => ["mfg", "manuf", "brand", "oem", "mfr"]
  | .pn_output => ["part", "pn", "model", "catalog", "cat no", "part no"]
  | .sim_output => ["sim"]
  | .item_number => ["item", "stock", "catalog"]

/-- The running state: per-role assignments (a single-value role holds
`[]` for `None` or a one-element list) and the `assigned_columns` set. -/
structure MapState where
  assign : Role → List String
  assigned : List String

/-- `_assign_column(result, role, col_name, assigned_columns)`. -/
def assignColumn (s : MapState) (r : Role) (c : String) : MapState :=
  if isSourceRole r then
    if (s.assign r).contains c then s
    else ⟨fun r' => if r' = r then s.assign r' ++ [c] else s.assign r',
          c :: s.assigned⟩
  else
    if (s.assign r).isEmpty then
      ⟨fun r' => if r' = r then [c] else s.assign r', c :: s.assigned⟩
    else s

/-- One column of one role of one pass: skip assigned columns, else
assign when the pass's test holds. -/
def passStep (cond : Role → String → Bool) (r : Role) (s : MapState)
    (c : String) : MapState :=
  if s.assigned.contains c then s
  else if cond r c then assignColumn s r c
  else s

/-- One full pass: all roles in order, all columns in table order. -/
def runPass (cond : Role → String → Bool) (order : List Role)
    (cols : List String) (s : MapState) : MapState :=
  order.foldl (fun s r => cols.foldl (passStep cond r) s) s

/-- The combined test of the interleaved exact / case-insensitive pass
(per column: exact membership first, else the case-insensitive scan). -/
def cond12 (aliases : Role → List String) (r : Role) (c : String) : Bool :=
  (aliases r).contains c
    || (aliases r).any fun a => pyStrip (pyLower c) = pyStrip (pyLower a)

/-- The fuzzy pass's test: some alias with similarity ratio at least
0.85. -/
def condFuzzy (ratio : String → String → ℚ) (aliases : Role → List String)
    (r : Role) (c : String) : Bool :=
  (aliases r).any fun a =>
    qle 0.85 (ratio (pyStrip (pyLower c)) (pyStrip (pyLower a)))

/-- The keyword-containment pass's test. -/
def condKeyword (r : Role) (c : String) : Bool :=
  (KEYWORD_FALLBACKS r).any fun k => containsSub (pyStrip (pyLower c)) (pyLower k)

/-- `any(c.isalpha() for c in str(v))`. -/
def hasAlphaAny (v : String) : Bool := v.data.any isAlphaChar

/-- The 30%-alphabetic content validation of a source-description
column (over the first 50 non-null values; empty samples keep the
column). -/
def descKeep (cols : List String) (colData : String → List String)
    (c : String) : Bool :=
  cols.contains c &&
    (let sample := (colData c).take 50
     sample.isEmpty
       || qle (0.3 : ℚ)
            (((sample.filter hasAlphaAny).length : ℚ) / (sample.length : ℚ)))

/-- The state after the three matching passes of `map_columns`. -/
def mcS3 (ratio : String → String → ℚ) (aliases : Role → List String)
    (cols : List String) : MapState :=
  runPass condKeyword KEYWORD_ORDER cols
    (runPass (condFuzzy ratio aliases) ROLE_ORDER cols
      (runPass (cond12 aliases) ROLE_ORDER cols ⟨fun _ => [], []⟩))

/-- The role map after the content-validation step. -/
def mcA4 (ratio : String → String → ℚ) (aliases : Role → List String)
    (cols : List String) (colData : String → List String) :
    Role → List String :=
  fun r =>
    if r = .source_description then
      ((mcS3 ratio aliases cols).assign .source_description).filter
        (descKeep cols colData)
    else (mcS3 ratio aliases cols).assign r

/-- `map_columns(df, training_data)`: the final role map, including the
convenience copy of the first `source_supplier` column into the
`supplier` role. -/
def mapColumns (ratio : String → String → ℚ) (aliases : Role → List String)
    (cols : List String) (colData : String → List String) :
    Role → List String :=
  fun r =>
    if r = Role.supplier
        ∧ (mcA4 ratio aliases cols colData .supplier).isEmpty = true
        ∧ (mcA4 ratio aliases cols colData .source_supplier).isEmpty
            = false then
      [(mcA4 ratio aliases cols colData .source_supplier).headD ""]
    else mcA4 ratio aliases cols colData r

/-- String-list `contains` agrees with membership. -/
theorem containsStr_iff {l : List String} {c : String} :
    l.contains c = true ↔ c ∈ l := by
  simp [List.contains, List.elem_eq_mem]

/-- The well-formedness invariant of the mapping state: every assigned
cell is tracked, no column sits in two roles, single-value roles hold at
most one column. -/
def Consistent (s : MapState) : Prop :=
  (∀ r c, c ∈ s.assign r → c ∈ s.assigned)
  ∧ (∀ r1 r2 c, r1 ≠ r2 → c ∈ s.assign r1 → c ∈ s.assign r2 → False)
  ∧ (∀ r, isSourceRole r = false → (s.assign r).length ≤ 1)

/-- `_assign_column` never removes an assignment. -/
theorem assignColumn_mono {s : MapState} {r : Role} {c : String}
    {r' : Role} {c' : String} (h : c' ∈ s.assign r') :
    c' ∈ (assignColumn s r c).assign r' := by
  unfold assignColumn
  split
  · split
    · exact h
    · dsimp only
      by_cases hr : r' = r
      · rw [if_pos hr]
        subst hr
        exact List.mem_append_left _ h
      · rw [if_neg hr]
        exact h
  · split
    case isTrue hemp =>
      dsimp only
      by_cases hr : r' = r
      · subst hr
        rw [List.isEmpty_iff.mp hemp] at h
        cases h
      · rw [if_neg hr]
        exact h
    · exact h

/-- A pass step never removes an assignment. -/
theorem passStep_mono {cond : Role → String → Bool} {r : Role}
    {s : MapState} {c : String} {r' : Role} {c' : String}
    (h : c' ∈ s.assign r') : c' ∈ (passStep cond r s c).assign r' := by
  unfold passStep
  split
  · exact h
  split
  · exact assignColumn_mono h
  · exact h

/-- A whole column sweep never removes an assignment. -/
theorem colsFold_mono {cond : Role → String → Bool} {r : Role}
    {cols : List String} {s : MapState} {r' : Role} {c' : String}
    (h : c' ∈ s.assign r') :
    c' ∈ (cols.foldl (passStep cond r) s).assign r' := by
  induction cols generalizing s with
  | nil => exact h
  | cons a as ih =>
    rw [List.foldl_cons]
    exact ih (passStep_mono h)

/-- A whole pass never removes an assignment: later stages only grow the
map and never reassign a column claimed by an earlier stage. -/
theorem runPass_mono {cond : Role → String → Bool} {order : List Role}
    {cols : List String} {s : MapState} {r' : Role} {c' : String}
    (h : c' ∈ s.assign r') :
    c' ∈ (runPass cond order cols s).assign r' := by
  unfold runPass
  induction order generalizing s with
  | nil => exact h
  | cons r0 rest ih =>
    rw [List.foldl_cons]
    exact ih (colsFold_mono h)

/-- `_assign_column` preserves the invariant when the column is not yet
assigned. -/
theorem assignColumn_consistent {s : MapState} {r : Role} {c : String}
    (hc : Consistent s) (hnew : s.assigned.contains c = false) :
    Consistent (assignColumn s r c) := by
  obtain ⟨htrack, huniq, hsingle⟩ := hc
  have hnotin : ∀ r', c ∉ s.assign r' := by
    intro r' habs
    rw [containsStr_iff.mpr (htrack r' c habs)] at hnew
    cases hnew
  unfold assignColumn
  split
  case isTrue hsrc =>
    split
    · exact ⟨htrack, huniq, hsingle⟩
    · refine ⟨?_, ?_, ?_⟩
      · intro r' c' h
        dsimp only at h ⊢
        by_cases hr : r' = r
        · rw [if_pos hr] at h
          rcases List.mem_append.mp h with h2 | h2
          · exact List.mem_cons_of_mem _ (htrack r' c' h2)
          · rw [List.mem_singleton.mp h2]
            exact List.mem_cons_self _ _
        · rw [if_neg hr] at h
          exact List.mem_cons_of_mem _ (htrack r' c' h)
      · intro r1 r2 c' hne h1 h2
        dsimp only at h1 h2
        by_cases hr1 : r1 = r <;> by_cases hr2 : r2 = r
        · exact hne (hr1.trans hr2.symm)
        · rw [if_pos hr1] at h1
          rw [if_neg hr2] at h2
          rcases List.mem_append.mp h1 with h3 | h3
          · exact huniq r1 r2 c' hne h3 h2
          · rw [List.mem_singleton.mp h3] at h2
            exact hnotin r2 h2
        · rw [if_neg hr1] at h1
          rw [if_pos hr2] at h2
          rcases List.mem_append.mp h2 with h3 | h3
          · exact huniq r1 r2 c' hne h1 h3
          · rw [List.mem_singleton.mp h3] at h1
            exact hnotin r1 h1
        · rw [if_neg hr1] at h1
          rw [if_neg hr2] at h2
          exact huniq r1 r2 c' hne h1 h2
      · intro r' hr'
        dsimp only
        by_cases hr : r' = r
        · subst hr
          rw [hr'] at hsrc
          cases hsrc
        · rw [if_neg hr]
          exact hsingle r' hr'
  · split
    case isTrue hemp =>
      refine ⟨?_, ?_, ?_⟩
      · intro r' c' h
        dsimp only at h ⊢
        by_cases hr : r' = r
        · rw [if_pos hr] at h
          rw [List.mem_singleton.mp h]
          exact List.mem_cons_self _ _
        · rw [if_neg hr] at h
          exact List.mem_cons_of_mem _ (htrack r' c' h)
      · intro r1 r2 c' hne h1 h2
        dsimp only at h1 h2
        by_cases hr1 : r1 = r <;> by_cases hr2 : r2 = r
        · exact hne (hr1.trans hr2.symm)
        · rw [if_pos hr1] at h1
          rw [if_neg hr2] at h2
          rw [List.mem_singleton.mp h1] at h2
          exact hnotin r2 h2
        · rw [if_neg hr1] at h1
          rw [if_pos hr2] at h2
          rw [List.mem_singleton.mp h2] at h1
          exact hnotin r1 h1
        · rw [if_neg hr1] at h1
          rw [if_neg hr2] at h2
          exact huniq r1 r2 c' hne h1 h2
      · intro r' hr'
        dsimp only
        by_cases hr : r' = r
        · rw [if_pos hr]
          exact le_refl _
        · rw [if_neg hr]
          exact hsingle r' hr'
    · exact ⟨htrack, huniq, hsingle⟩

/-- A pass step preserves the invariant. -/
theorem passStep_consistent {cond : Role → String → Bool} {r : Role}
    {s : MapState} {c : String} (hc : Consistent s) :
    Consistent (passStep cond r s c) := by
  unfold passStep
  split
  · exact hc
  case isFalse hnew =>
    split
    · exact assignColumn_consistent hc (by
        rw [Bool.not_eq_true] at hnew
        exact hnew)
    · exact hc

/-- A column sweep preserves the invariant. -/
theorem colsFold_consistent {cond : Role → String → Bool} {r : Role}
    {cols : List String} {s : MapState} (hc : Consistent s) :
    Consistent (cols.foldl (passStep cond r) s) := by
  induction cols generalizing s with
  | nil => exact hc
  | cons a as ih =>
    rw [List.foldl_cons]
    exact ih (passStep_consistent hc)

/-- A whole pass preserves the invariant. -/
theorem runPass_consistent {cond : Role → String → Bool}
    {order : List Role} {cols : List String} {s : MapState}
    (hc : Consistent s) : Consistent (runPass cond order cols s) := by
  unfold runPass
  induction order generalizing s with
  | nil => exact hc
  | cons r0 rest ih =>
    rw [List.foldl_cons]
    exact ih (colsFold_consistent hc)

/-- The state after the three passes is consistent. -/
theorem mcS3_consistent (ratio : String → String → ℚ)
    (aliases : Role → List String) (cols : List String) :
    Consistent (mcS3 ratio aliases cols) := by
  unfold mcS3
  refine runPass_consistent (runPass_consistent (runPass_consistent ?_))
  refine ⟨?_, ?_, ?_⟩
  · intro r c h
    cases h
  · intro r1 r2 c _ h1 _
    cases h1
  · intro r _
    exact Nat.le_of_lt_succ (by simp)

/-- Membership in the validated map reflects into the pass-3 state. -/
theorem mcA4_mem {ratio : String → String → ℚ}
    {aliases : Role → List String} {cols : List String}
    {colData : String → List String} {r : Role} {c : String}
    (h : c ∈ mcA4 ratio aliases cols colData r) :
    c ∈ (mcS3 ratio aliases cols).assign r := by
  unfold mcA4 at h
  split at h
  case isTrue hr =>
    subst hr
    exact (List.mem_filter.mp h).1
  · exact h

/-- No column occupies two roles of the validated map. -/
theorem mcA4_uniq {ratio : String → String → ℚ}
    {aliases : Role → List String} {cols : List String}
    {colData : String → List String} {r1 r2 : Role} {c : String}
    (hne : r1 ≠ r2) (h1 : c ∈ mcA4 ratio aliases cols colData r1)
    (h2 : c ∈ mcA4 ratio aliases cols colData r2) : False :=
  (mcS3_consistent ratio aliases cols).2.1 r1 r2 c hne
    (mcA4_mem h1) (mcA4_mem h2)

/-- A non-empty list's `headD` is a member. -/
theorem headD_mem {l : List String} (h : l.isEmpty = false) :
    l.headD "" ∈ l := by
  cases l with
  | nil => cases h
  | cons a as => exact List.mem_cons_self _ _

/-- A pass step leaves the state alone on an already-assigned column. -/
theorem passStep_of_assigned {cond : Role → String → Bool} {r : Role}
    {s : MapState} {c : String} (h : s.assigned.contains c = true) :
    passStep cond r s c = s := by
  unfold passStep
  rw [if_pos h]

/-- A column sweep fixes a state in which every column is assigned. -/
theorem colsFold_of_assigned {cond : Role → String → Bool} {r : Role}
    {cols : List String} {s : MapState}
    (h : ∀ c ∈ cols, s.assigned.contains c = true) :
    cols.foldl (passStep cond r) s = s := by
  induction cols with
  | nil => rfl
  | cons a as ih =>
    rw [List.foldl_cons, passStep_of_assigned (h a (List.mem_cons_self _ _))]
    exact ih fun c hc => h c (List.mem_cons_of_mem _ hc)

/-- A whole pass fixes a state in which every column is assigned. -/
theorem runPass_of_assigned {cond : Role → String → Bool}
    {order : List Role} {cols : List String} {s : MapState}
    (h : ∀ c ∈ cols, s.assigned.contains c = true) :
    runPass cond order cols s = s := by
  unfold runPass
  induction order with
  | nil => rfl
  | cons r0 rest ih =>
    rw [List.foldl_cons, colsFold_of_assigned h]
    exact ih

set_option maxRecDepth 65536 in
set_option maxHeartbeats 4000000 in
/-- C9, counterexample: on a table with the single column
`"Supplier Name1"` (whatever the fuzzy-ratio function), `map_columns`
assigns that column to *two* roles — `source_supplier` by exact alias
match in the first pass, and `supplier` by the convenience copy of the
first `source_supplier` entry — refuting "each column name is assigned
to at most one role".  The later passes cannot interfere: the column is
already in `assigned_columns` after pass one. -/
theorem mapColumns_supplier_dup :
    ∀ ratio : String → String → ℚ,
      mapColumns ratio DEFAULT_COLUMN_ALIASES ["Supplier Name1"]
          (fun _ => []) .source_supplier = ["Supplier Name1"]
      ∧ mapColumns ratio DEFAULT_COLUMN_ALIASES ["Supplier Name1"]
          (fun _ => []) .supplier = ["Supplier Name1"] := by
  intro ratio
  have hassigned : ∀ c ∈ ["Supplier Name1"],
      ((runPass (cond12 DEFAULT_COLUMN_ALIASES) ROLE_ORDER
        ["Supplier Name1"] ⟨fun _ => [], []⟩).assigned).contains c
        = true := by decide
  have hS3 : mcS3 ratio DEFAULT_COLUMN_ALIASES ["Supplier Name1"]
      = runPass (cond12 DEFAULT_COLUMN_ALIASES) ROLE_ORDER
          ["Supplier Name1"] ⟨fun _ => [], []⟩ := by
    unfold mcS3
    rw [runPass_of_assigned hassigned, runPass_of_assigned hassigned]
  constructor
  · unfold mapColumns mcA4
    rw [hS3]
    decide
  · unfold mapColumns mcA4
    rw [hS3]
    decide

/-- C9, counterexample, closed instance: the similarity-ratio function
is irrelevant here (`mapColumns_supplier_dup` proves the same for every
ratio function — the single column is claimed in the first pass and the
fuzzy pass skips assigned columns), so the constant-zero ratio stands in
for `difflib`. -/
theorem C9_counterexample :
    mapColumns (fun _ _ => 0) DEFAULT_COLUMN_ALIASES ["Supplier Name1"]
        (fun _ => []) .source_supplier = ["Supplier Name1"]
    ∧ mapColumns (fun _ _ => 0) DEFAULT_COLUMN_ALIASES ["Supplier Name1"]
        (fun _ => []) .supplier = ["Supplier Name1"] :=
  mapColumns_supplier_dup (fun _ _ => 0)

/-- C9 (amended): in the map returned by `map_columns` every column is
assigned to at most one role, *except* that the convenience `supplier`
role may duplicate the first `source_supplier` column; every
single-value role holds at most one column; and the matching passes are
monotone — a later pass (fuzzy, keyword) never reassigns or overrides a
column claimed by an earlier pass, because each pass skips columns
already in `assigned_columns`.  (Within the first stage, exact and
case-insensitive matching are interleaved per role rather than strictly
staged.) -/
theorem C9_column_role_invariant :
    (∀ (ratio : String → String → ℚ) (aliases : Role → List String)
       (cols : List String) (colData : String → List String)
       (c : String) (r1 r2 : Role), r1 ≠ r2 →
       c ∈ mapColumns ratio aliases cols colData r1 →
       c ∈ mapColumns ratio aliases cols colData r2 →
       (r1 = .supplier ∧ r2 = .source_supplier)
         ∨ (r1 = .source_supplier ∧ r2 = .supplier))
    ∧ (∀ (ratio : String → String → ℚ) (aliases : Role → List String)
        (cols : List String) (colData : String → List String) (r : Role),
        isSourceRole r = false →
        (mapColumns ratio aliases cols colData r).length ≤ 1)
    ∧ (∀ (cond : Role → String → Bool) (order : List Role)
        (cols : List String) (s : MapState) (r : Role) (c : String),
        c ∈ s.assign r → c ∈ (runPass cond order cols s).assign r) := by
  refine ⟨?_, ?_, fun cond order cols s r c h => runPass_mono h⟩
  · intro ratio aliases cols colData c r1 r2 hne h1 h2
    unfold mapColumns at h1 h2
    split at h1
    case isTrue hp1 =>
      obtain ⟨hr1, -, hsup1⟩ := hp1
      have hc1 : c ∈ mcA4 ratio aliases cols colData .source_supplier := by
        rw [List.mem_singleton.mp h1]
        exact headD_mem hsup1
      split at h2
      case isTrue hp2 =>
        exact absurd (hr1.trans hp2.1.symm) hne
      case isFalse =>
        by_cases hr2 : r2 = Role.source_supplier
        · exact Or.inl ⟨hr1, hr2⟩
        · exact (mcA4_uniq (fun h => hr2 h.symm) hc1 h2).elim
    case isFalse =>
      split at h2
      case isTrue hp2 =>
        obtain ⟨hr2, -, hsup2⟩ := hp2
        have hc2 : c ∈ mcA4 ratio aliases cols colData .source_supplier := by
          rw [List.mem_singleton.mp h2]
          exact headD_mem hsup2
        by_cases hr1 : r1 = Role.source_supplier
        · exact Or.inr ⟨hr1, hr2⟩
        · exact (mcA4_uniq hr1 h1 hc2).elim
      case isFalse =>
        exact (mcA4_uniq hne h1 h2).elim
  · intro ratio aliases cols colData r hr
    unfold mapColumns
    split
    · exact le_refl _
    · unfold mcA4
      rw [if_neg (by
        intro habs
        rw [habs] at hr
        cases hr)]
      exact (mcS3_consistent ratio aliases cols).2.2 r hr

set_option maxRecDepth 65536 in
set_option maxHeartbeats 4000000 in
/-- C9, witness: the exception clause at the counterexample table. -/
theorem C9_witness :
    ((Role.supplier = Role.supplier
        ∧ Role.source_supplier = Role.source_supplier)
      ∨ (Role.supplier = Role.source_supplier
        ∧ Role.source_supplier = Role.supplier))
    ∧ (mapColumns (fun _ _ => 0) DEFAULT_COLUMN_ALIASES ["Supplier Name1"]
        (fun _ => []) .mfg_output).length ≤ 1 := by
  constructor
  · exact C9_column_role_invariant.1 (fun _ _ => 0) DEFAULT_COLUMN_ALIASES
      ["Supplier Name1"] (fun _ => []) "Supplier Name1"
      .supplier .source_supplier (by decide) (by decide) (by decide)
  · exact C9_column_role_invariant.2.1 (fun _ _ => 0) DEFAULT_COLUMN_ALIASES
      ["Supplier Name1"] (fun _ => []) .mfg_output rfl

end DataParser

